import Mathlib

/-!
Verification of the `utopia` CDCL SAT solver (Rust) against its
natural-language specification. The definitions below are a shallow
embedding of the relevant Rust source files (`src/cnf.rs`,
`src/solver/state.rs`, `src/solver/literal_watching.rs`,
`src/solver/clause_database.rs`, `src/solver/clause_learning.rs`,
`src/solver/inprocessor.rs`, `src/solver/unit_propagation.rs`,
`src/solver/proof_logger.rs`): machine integers become `Nat`/`Int`,
vectors become `List`, hash sets become de-duplicated lists, and
`std::time` durations become exact rationals. Statistics counters and
debug printing are omitted; they do not influence any modelled value.
-/

namespace Utopia

/-- Variable ids, as in `pub type VarId = usize`. -/
abbrev VarId := Nat

/-- Clause ids, as in `pub type ClauseId = usize`. -/
abbrev ClauseId := Nat

/-- A literal: a signed integer whose sign encodes polarity
(`struct Literal { value: i32 }` in `cnf.rs`). -/
structure Literal where
  value : Int
deriving DecidableEq, Repr

namespace Literal

/-- `Literal::id`: the variable id, `value.unsigned_abs()`. -/
def id (l : Literal) : VarId := l.value.natAbs

/-- `Literal::positive`: `value > 0`. -/
def positive (l : Literal) : Bool := 0 < l.value

/-- `Literal::negative`: `value < 0`. -/
def negative (l : Literal) : Bool := l.value < 0

/-- `Literal::from_value(id, positive)`. -/
def from_value (id : VarId) (positive : Bool) : Literal :=
  ⟨if positive then (id : Int) else -(id : Int)⟩

/-- `impl Neg for Literal`: negation flips the sign. -/
def neg (l : Literal) : Literal := ⟨-l.value⟩

instance : Neg Literal := ⟨Literal.neg⟩

/-- The variable-assignment vector `vars: Vec<Option<bool>>`, indexed by
variable id. Out-of-range reads (a panic in Rust) default to `none`. -/
abbrev Vars := List (Option Bool)

/-- `Literal::is_true`: `vars[id] == Some(positive())`. -/
def is_true (l : Literal) (vars : Vars) : Bool :=
  vars.getD l.id none = some l.positive

/-- `Literal::is_false`: `vars[id] == Some(negative())`. -/
def is_false (l : Literal) (vars : Vars) : Bool :=
  vars.getD l.id none = some l.negative

/-- `Literal::non_false`: `vars[id] != Some(negative())`. -/
def non_false (l : Literal) (vars : Vars) : Bool :=
  ¬ (vars.getD l.id none = some l.negative)

/-- `Literal::is_free`: `vars[id].is_none()`. -/
def is_free (l : Literal) (vars : Vars) : Bool :=
  vars.getD l.id none = none

end Literal

/-- A clause (`struct Clause` in `cnf.rs`): ordered literal list, a
blocking literal, and an optional LBD tag. -/
structure Clause where
  literals : List Literal
  blocking_literal : Literal
  lbd : Option Nat
deriving DecidableEq, Repr

namespace Clause

/-- `impl From<Vec<Literal>> for Clause`: blocking literal is the first
literal (or the dummy literal `0` for an empty list), `lbd` is `None`. -/
def ofLiterals (lits : List Literal) : Clause :=
  { blocking_literal := lits.headD ⟨0⟩
    literals := lits
    lbd := none }

/-- `Clause::from_literals_and_lbd`. -/
def from_literals_and_lbd (lits : List Literal) (lbd : Nat) : Clause :=
  { blocking_literal := lits.headD ⟨0⟩
    literals := lits
    lbd := some lbd }

/-- `Clause::check_blocking_literal`. -/
def check_blocking_literal (c : Clause) (vars : Literal.Vars) : Bool :=
  c.blocking_literal.is_true vars

/-- `Clause::is_satisfied`: blocking-literal fast path, then a scan. -/
def is_satisfied (c : Clause) (vars : Literal.Vars) : Bool :=
  c.check_blocking_literal vars || c.literals.any (fun l => l.is_true vars)

/-- `Clause::is_conflict`: all literals false. -/
def is_conflict (c : Clause) (vars : Literal.Vars) : Bool :=
  c.literals.all (fun l => l.is_false vars)

end Clause

/-- `check_assignment` (`cnf.rs`): the external solution checker. The Rust
version treats a clause as an iterator over its literals; an unassigned
variable counts as not satisfying the literal. -/
def check_assignment (clauses : List Clause) (assignment : VarId → Option Bool) : Bool :=
  clauses.all fun clause =>
    clause.literals.any fun lit =>
      match assignment lit.id with
      | some v => lit.positive = v
      | none => false

instance : Inhabited Literal := ⟨⟨0⟩⟩

instance : Inhabited Clause := ⟨Clause.ofLiterals []⟩

/-- `Vec::swap(i, j)`; out-of-range indices leave the list unchanged
(Rust would panic there; all theorems stay within bounds). -/
def listSwap {α : Type} (l : List α) (i j : Nat) : List α :=
  match l.get? i, l.get? j with
  | some a, some b => (l.set i b).set j a
  | _, _ => l

/-- `enum WatchUpdate` (`literal_watching.rs`). -/
inductive WatchUpdate where
  | FoundNewWatch
  | Unit (l : Literal)
  | Conflict
  | Satisfied (l : Literal)
deriving DecidableEq, Repr

/-- `struct VarWatch`: the two per-variable watch lists. -/
structure VarWatch where
  pos : List ClauseId
  neg : List ClauseId
deriving DecidableEq, Repr

instance : Inhabited VarWatch := ⟨⟨[], []⟩⟩

/-- `struct LiteralWatcher`: one `VarWatch` per variable (index 0 unused). -/
structure LiteralWatcher where
  var_watches : List VarWatch
deriving DecidableEq, Repr

namespace LiteralWatcher

/-- `LiteralWatcher::affected_clauses` (read): the list of clauses watching
`-lit`, i.e. `var_watches[lit.id()].neg` for a positive `lit` and `.pos`
otherwise. -/
def affected_clauses (w : LiteralWatcher) (lit : Literal) : List ClauseId :=
  if lit.positive then (w.var_watches.getD lit.id default).neg
  else (w.var_watches.getD lit.id default).pos

/-- Writing back the list returned by `affected_clauses` (in Rust it is a
`&mut Vec`). -/
def setAffected (w : LiteralWatcher) (lit : Literal) (l : List ClauseId) : LiteralWatcher :=
  let vw := w.var_watches.getD lit.id default
  let vw' := if lit.positive then { vw with neg := l } else { vw with pos := l }
  { var_watches := w.var_watches.set lit.id vw' }

/-- `LiteralWatcher::add_watch`: push `clause_id` onto the pos/neg list of
`lit`'s variable according to `lit`'s polarity. -/
def add_watch (w : LiteralWatcher) (lit : Literal) (clause_id : ClauseId) : LiteralWatcher :=
  let vw := w.var_watches.getD lit.id default
  let vw' := if lit.positive then { vw with pos := vw.pos ++ [clause_id] }
             else { vw with neg := vw.neg ++ [clause_id] }
  { var_watches := w.var_watches.set lit.id vw' }

/-- `LiteralWatcher::delete_clause`: remove `clause_id` from the watch lists
of the clause's first two literals. -/
def delete_clause (w : LiteralWatcher) (c : Clause) (clause_id : ClauseId) : LiteralWatcher :=
  (c.literals.take 2).foldl
    (fun w' lit =>
      w'.setAffected (-lit) ((w'.affected_clauses (-lit)).filter (· ≠ clause_id)))
    w

end LiteralWatcher

/-- The scan of `LiteralWatcher::update_clause` (`literal_watching.rs`,
lines 88–102): walk the literal list from position 0; report the first true
literal, or the first free literal at a position > 1. -/
def scanStep (vars : Literal.Vars) : List Literal → Nat → Option (Literal ⊕ Nat)
  | [], _ => none
  | l :: rest, i =>
    if l.is_true vars then some (Sum.inl l)
    else if 1 < i ∧ l.is_free vars then some (Sum.inr i)
    else scanStep vars rest (i + 1)

/-- The first step of both watch updates (`literal_watching.rs`, lines
72–75): ensure the invalid literal sits at position 0, swapping the first
two literals when position 0 holds the other variable. -/
def frontSwap (c : Clause) (invalid : Literal) : Clause :=
  if (c.literals.getD 0 default).id ≠ invalid.id
  then { c with literals := listSwap c.literals 0 1 } else c

/-- `LiteralWatcher::update_clause` (`literal_watching.rs`, lines 65–128):
swap the invalid literal into position 0; conflict if the other watch is
false; otherwise scan, swapping a found free literal into position 0; if
nothing is found the clause is unit on the other watch. The watch-list
re-additions mirror the source (which expects the caller to clear the
scanned list). Returns the updated watcher, the updated clause and the
`WatchUpdate`. -/
def LiteralWatcher.update_clause (w : LiteralWatcher) (c : Clause) (clause_id : ClauseId)
    (invalid : Literal) (vars : Literal.Vars) : LiteralWatcher × Clause × WatchUpdate :=
  let c := frontSwap c invalid
  if (c.literals.getD 1 default).is_false vars then
    (w.add_watch invalid clause_id, c, .Conflict)
  else
    match scanStep vars c.literals 0 with
    | some (Sum.inl t) => (w, c, .Satisfied t)
    | some (Sum.inr i) =>
      let c := { c with literals := listSwap c.literals 0 i }
      (w.add_watch (c.literals.getD 0 default) clause_id, c, .FoundNewWatch)
    | none => (w.add_watch invalid clause_id, c, .Unit (c.literals.getD 1 default))

/-- `enum ProofStep` (`proof_logger.rs`). -/
inductive ProofStep where
  | AddClause (c : Clause)
  | DeleteClause (c : Clause)
deriving DecidableEq, Repr

/-- `struct ProofLogger`. -/
structure ProofLogger where
  active : Bool
  proof : List ProofStep
deriving DecidableEq, Repr

namespace ProofLogger

/-- `ProofLogger::log`: record a clause addition when active. -/
def log (p : ProofLogger) (c : Clause) : ProofLogger :=
  if p.active then { p with proof := p.proof ++ [ProofStep.AddClause c] } else p

/-- `ProofLogger::delete`: record a clause deletion when active. -/
def delete (p : ProofLogger) (c : Clause) : ProofLogger :=
  if p.active then { p with proof := p.proof ++ [ProofStep.DeleteClause c] } else p

end ProofLogger

/-- `enum AssignmentReason` (`trail.rs`). -/
inductive AssignmentReason where
  | Heuristic
  | Forced (c : ClauseId)
deriving DecidableEq, Repr

/-- `struct Assignment` (`trail.rs`): a trail entry. -/
structure Assignment where
  literal : Literal
  reason : AssignmentReason
  decision_level : Nat
deriving DecidableEq, Repr

/-- `struct Trail` (`trail.rs`). -/
structure Trail where
  assignment_stack : List Assignment
  var_decision_level : List Nat
  var_assignment_pos : List Nat
  decision_level : Nat
deriving DecidableEq, Repr

/-- `struct ClauseDatabase` (`clause_database.rs`). -/
structure ClauseDatabase where
  clauses : List Clause
  free_clause_ids : List ClauseId
  num_deletions : Nat
  proof_logger : ProofLogger
  conflicts_since_last_deletion : Nat
deriving DecidableEq, Repr

namespace ClauseDatabase

/-- An id is live when it is in range and not on the free list. -/
def live (db : ClauseDatabase) (id : ClauseId) : Prop :=
  id < db.clauses.length ∧ id ∉ db.free_clause_ids

instance (db : ClauseDatabase) (id : ClauseId) : Decidable (db.live id) := by
  unfold live; infer_instance

/-- `ClauseDatabase::delete_clause_if_allowed` (`clause_database.rs`, lines
117–145): refuse silently when the clause is a live trail reason, when the
id is already free, or when the clause has fewer than 2 literals; otherwise
log the deletion, unregister the two watches and push the id onto the free
list (kept sorted by `sort_unstable`, modelled as `mergeSort`). -/
def delete_clause_if_allowed (db : ClauseDatabase) (clause_id : ClauseId)
    (w : LiteralWatcher) (trail : Trail) : ClauseDatabase × LiteralWatcher :=
  if trail.assignment_stack.any
      (fun a => a.reason = AssignmentReason.Forced clause_id) then
    (db, w)
  else if clause_id ∈ db.free_clause_ids then
    (db, w)
  else if (db.clauses.getD clause_id default).literals.length < 2 then
    (db, w)
  else
    let c := db.clauses.getD clause_id default
    ({ db with
        proof_logger := db.proof_logger.delete c
        free_clause_ids := (db.free_clause_ids ++ [clause_id]).mergeSort (· ≤ ·) },
     w.delete_clause c clause_id)

end ClauseDatabase

/-- `struct UnitPropagator` (`unit_propagation.rs`): the FIFO unit queue
plus the de-duplication set `units`. -/
structure UnitPropagator where
  unit_queue : List (Literal × ClauseId)
  units : List Literal
deriving DecidableEq, Repr

namespace UnitPropagator

/-- `UnitPropagator::enqueue`: skip literals already pending (the
membership list `units`), else push to the FIFO queue. -/
def enqueue (up : UnitPropagator) (lit : Literal) (clause_id : ClauseId) : UnitPropagator :=
  if lit ∈ up.units then up
  else { unit_queue := up.unit_queue ++ [(lit, clause_id)], units := up.units ++ [lit] }

end UnitPropagator

/-- `struct State` (`state.rs`); the statistics counters are omitted. -/
structure State where
  conflict_clause_id : Option ClauseId
  vars : Literal.Vars
  var_phases : List Bool
  clause_database : ClauseDatabase
  literal_watcher : LiteralWatcher
  num_vars : Nat
deriving DecidableEq, Repr

/-- `const MARKED_FOR_DELETION: ClauseId = ClauseId::MAX` (`state.rs`). -/
def MARKED_FOR_DELETION : ClauseId := 2 ^ 64 - 1

/-- Modelled from the spec: `State::assign` in `state.rs` calls a
three-argument `update_clause(clause, invalid_literal, vars)` whose body is
not part of this snapshot (the four-argument `LiteralWatcher::update_clause`
in `literal_watching.rs` belongs to an older revision whose `State::assign`
cleared entire watch lists, hence its internal re-registrations). Following
§4.2 of the spec: swap so the invalid literal is at position 0; if the
other watched literal (position 1) is false, report `Conflict`; otherwise
scan positions ≥ 2 — a true literal gives `Satisfied(that literal)`, else a
free literal is swapped into position 0 giving `FoundNewWatch`; if no
replacement is found the other watched literal is the unit. Watch-list
registration is performed by the caller (`State::assign`). -/
def update_clause_spec (c : Clause) (invalid : Literal) (vars : Literal.Vars) :
    Clause × WatchUpdate :=
  let c := frontSwap c invalid
  if (c.literals.getD 1 default).is_false vars then (c, .Conflict)
  else
    match (c.literals.drop 2).find? (fun l => l.is_true vars) with
    | some t => (c, .Satisfied t)
    | none =>
      match (c.literals.drop 2).findIdx? (fun l => l.is_free vars) with
      | some j => ({ c with literals := listSwap c.literals 0 (j + 2) }, .FoundNewWatch)
      | none => (c, .Unit (c.literals.getD 1 default))

/-- Processing of one affected clause inside `State::assign` (`state.rs`,
lines 66–94): skip when the blocking literal is true, otherwise dispatch on
the watch update; the modified clause is written back in every case (the
source mutates it through a `&mut` borrow). `i` is the position of
`clause_id` in the scanned watch list, used by the `FoundNewWatch`
tombstone. -/
def assignStepClause (lit : Literal) (su : State × UnitPropagator) (i : Nat)
    (clause_id : ClauseId) : State × UnitPropagator :=
  if (su.1.clause_database.clauses.getD clause_id default).check_blocking_literal su.1.vars
  then su
  else
    match update_clause_spec
        (su.1.clause_database.clauses.getD clause_id default) (-lit) su.1.vars with
    | (c', WatchUpdate.FoundNewWatch) =>
      ({ su.1 with
          clause_database := { su.1.clause_database with
            clauses := su.1.clause_database.clauses.set clause_id c' }
          literal_watcher :=
            (su.1.literal_watcher.setAffected lit
              ((su.1.literal_watcher.affected_clauses lit).set i MARKED_FOR_DELETION
              )).add_watch (c'.literals.getD 0 default) clause_id },
        su.2)
    | (c', WatchUpdate.Satisfied b) =>
      ({ su.1 with
          clause_database := { su.1.clause_database with
            clauses := su.1.clause_database.clauses.set clause_id
              { c' with blocking_literal := b } } },
        su.2)
    | (c', WatchUpdate.Unit u) =>
      ({ su.1 with
          clause_database := { su.1.clause_database with
            clauses := su.1.clause_database.clauses.set clause_id c' } },
        su.2.enqueue u clause_id)
    | (c', WatchUpdate.Conflict) =>
      ({ su.1 with
          conflict_clause_id := some clause_id
          clause_database := { su.1.clause_database with
            clauses := su.1.clause_database.clauses.set clause_id c' } },
        su.2)

/-- One iteration of the watch-list loop of `State::assign` (`state.rs`,
lines 60–95): read the clause id at index `i` of the affected list, skip
when a conflict is already flagged, otherwise process that clause. -/
def assignStep (lit : Literal) (su : State × UnitPropagator) (i : Nat) :
    State × UnitPropagator :=
  if su.1.conflict_clause_id.isSome then su
  else assignStepClause lit su i ((su.1.literal_watcher.affected_clauses lit).getD i 0)

/-- `State::assign` (`state.rs`, lines 49–100): record the assignment and
the phase, loop over the affected watch list (its length snapshotted before
the loop, conflicts short-circuiting the rest), then compact the tombstoned
entries with `retain`. The statistics update and the double-assignment
panic are omitted (all theorems assume the variable is free). -/
def State.assign (s : State) (up : UnitPropagator) (lit : Literal) :
    State × UnitPropagator :=
  let s := { s with
    vars := s.vars.set lit.id (some lit.positive)
    var_phases := s.var_phases.set lit.id lit.positive }
  let len := (s.literal_watcher.affected_clauses lit).length
  let su := (List.range len).foldl (assignStep lit) (s, up)
  let s := su.1
  let retained := (s.literal_watcher.affected_clauses lit).filter (· ≠ MARKED_FOR_DELETION)
  let s := { s with literal_watcher := s.literal_watcher.setAffected lit retained }
  (s, su.2)

/-- `State::unassign` (`state.rs`, lines 102–104). -/
def State.unassign (s : State) (lit : Literal) : State :=
  { s with vars := s.vars.set lit.id none }

/-- The intermediate state at the top of `State::assign`, after the
assignment and the phase are recorded and before the watch-list loop runs
(`state.rs`, lines 56–57). -/
def assignEntry (s : State) (lit : Literal) : State :=
  { s with
      vars := s.vars.set lit.id (some lit.positive)
      var_phases := s.var_phases.set lit.id lit.positive }

/-- `ProofLogger::new`. -/
def ProofLogger.new (active : Bool) : ProofLogger := { active := active, proof := [] }

/-- `LiteralWatcher::create_watches` (`literal_watching.rs`, lines 130–150):
watch the first two literals of every clause of length ≥ 2. -/
def LiteralWatcher.create_watches (clauses : List Clause) (num_vars : Nat) : LiteralWatcher :=
  clauses.enum.foldl
    (fun w p =>
      if p.2.literals.length < 2 then w
      else (p.2.literals.take 2).foldl (fun w' l => w'.add_watch l p.1) w)
    ⟨List.replicate (num_vars + 1) default⟩

/-- `ClauseDatabase::init`. -/
def ClauseDatabase.init (clauses : List Clause) (proof_logging : Bool) : ClauseDatabase :=
  { clauses := clauses
    free_clause_ids := []
    num_deletions := 0
    conflicts_since_last_deletion := 0
    proof_logger := ProofLogger.new proof_logging }

/-- `State::init` (`state.rs`, lines 25–47): drop tautological clauses,
then build the watcher and the clause database. -/
def State.init (clauses : List Clause) (n_vars : Nat) (proof_logging : Bool) : State :=
  let relevant := clauses.filter (fun c => ¬ c.literals.any (fun l => (-l) ∈ c.literals))
  { conflict_clause_id := none
    vars := List.replicate (n_vars + 1) none
    var_phases := List.replicate (n_vars + 1) true
    literal_watcher := LiteralWatcher.create_watches relevant n_vars
    clause_database := ClauseDatabase.init relevant proof_logging
    num_vars := n_vars }

/-! ### The watched-literal invariant, as claimed and as implemented -/

/-- Both watched positions (`literals[0]` and `literals[1]`) are non-false. -/
def bothWatchesNonFalse (c : Clause) (vars : Literal.Vars) : Prop :=
  (c.literals.getD 0 default).non_false vars = true ∧
  (c.literals.getD 1 default).non_false vars = true

instance (c : Clause) (vars : Literal.Vars) : Decidable (bothWatchesNonFalse c vars) := by
  unfold bothWatchesNonFalse; infer_instance

/-- Claim C2's disjunct (b), as stated: the clause's sole non-false literal
has been enqueued with this clause as its antecedent. -/
def soleNonFalseEnqueuedFor (c : Clause) (id : ClauseId) (vars : Literal.Vars)
    (up : UnitPropagator) : Prop :=
  ∃ u ∈ c.literals, u.non_false vars = true ∧
    (∀ l ∈ c.literals, l ≠ u → l.is_false vars = true) ∧ (u, id) ∈ up.unit_queue

instance (c : Clause) (id : ClauseId) (vars : Literal.Vars) (up : UnitPropagator) :
    Decidable (soleNonFalseEnqueuedFor c id vars up) := by
  unfold soleNonFalseEnqueuedFor; infer_instance

/-- Claim C2 as stated: after an `assign` that does not set the conflict
flag, every live clause of length ≥ 2 has both watched positions non-false,
or its sole non-false literal pending with this clause as antecedent. -/
def watchInvariantStrict (s : State) (up : UnitPropagator) : Prop :=
  ∀ id, id < s.clause_database.clauses.length → s.clause_database.live id →
    2 ≤ (s.clause_database.clauses.getD id default).literals.length →
      bothWatchesNonFalse (s.clause_database.clauses.getD id default) s.vars ∨
      soleNonFalseEnqueuedFor (s.clause_database.clauses.getD id default) id s.vars up

instance (s : State) (up : UnitPropagator) : Decidable (watchInvariantStrict s up) := by
  unfold watchInvariantStrict; infer_instance

/-- The corrected disjunct (b): the sole non-false literal is free, sits at
a watched position, and is pending in the unit queue (possibly with another
antecedent, because `enqueue` drops duplicate literals). -/
def soleNonFalsePending (c : Clause) (vars : Literal.Vars) (up : UnitPropagator) : Prop :=
  ∃ u ∈ c.literals.take 2, u.is_free vars = true ∧
    (∀ l ∈ c.literals, l ≠ u → l.is_false vars = true) ∧
    ∃ p ∈ up.unit_queue, p.1 = u

instance (c : Clause) (vars : Literal.Vars) (up : UnitPropagator) :
    Decidable (soleNonFalsePending c vars up) := by
  unfold soleNonFalsePending; infer_instance

/-- The watched-literal invariant as maintained by the code (cf.
`State::verify_watches`): satisfied clauses are exempt. -/
def watchInvariant (s : State) (up : UnitPropagator) : Prop :=
  ∀ id, id < s.clause_database.clauses.length → s.clause_database.live id →
    2 ≤ (s.clause_database.clauses.getD id default).literals.length →
    (s.clause_database.clauses.getD id default).literals.any
      (fun l => l.is_true s.vars) = false →
      bothWatchesNonFalse (s.clause_database.clauses.getD id default) s.vars ∨
      soleNonFalsePending (s.clause_database.clauses.getD id default) s.vars up

instance (s : State) (up : UnitPropagator) : Decidable (watchInvariant s up) := by
  unfold watchInvariant; infer_instance

/-! ### Inprocessor timing predicates (`inprocessor.rs`) -/

/-- `const INPROCESSING_RATIO: f64 = 0.10` (`inprocessor.rs`, line 10):
the fraction of wall time the inprocessor may use. `f64` second counts are
modelled as exact rationals; every comparison stated about them is far from
any rounding boundary of the `f64` computation. -/
def inprocessingBudgetFraction : ℚ := 10 / 100

/-- `const DETERMINISTIC: bool = false` (`inprocessor.rs`, line 12). -/
def DETERMINISTIC : Bool := false

/-- `Inprocessor::should_interrupt` (`inprocessor.rs`, lines 120–126):
interrupt once the accumulated inprocessing time plus the current session
exceeds the budget fraction of the wall time since initialization. -/
def should_interrupt (total current initElapsed : ℚ) : Bool :=
  if DETERMINISTIC then true
  else total + current > initElapsed * inprocessingBudgetFraction

/-- `Inprocessor::should_start_inprocessing` (`inprocessor.rs`, lines
128–134): start only while the accumulated time plus 0.1 s is below the
budget fraction of the wall time since initialization. -/
def should_start_inprocessing (total initElapsed : ℚ) : Bool :=
  if DETERMINISTIC then true
  else total + 1 / 10 < initElapsed * inprocessingBudgetFraction

/-! ### The BVE queue of `Inprocessor::init` (`inprocessor.rs`) -/

/-- Occurrences of one exact literal in the CNF
(`lit_ocurrences` in `Inprocessor::init`). -/
def litOccurrenceCount (cnf : List Clause) (lit : Literal) : Nat :=
  ((cnf.map Clause.literals).flatten).count lit

/-- The sort key used by `Inprocessor::init` (lines 37–49): the occurrence
count of the positive literal of the variable, multiplied by itself (the
same lookup appears twice in the source), with the variable id as tie
breaker. -/
def bveKey (cnf : List Clause) (v : VarId) : Nat × Nat :=
  (litOccurrenceCount cnf (Literal.from_value v true) *
    litOccurrenceCount cnf (Literal.from_value v true), v)

/-- Insertion into a list sorted by `le`. -/
def insertSortedBy {α : Type} (le : α → α → Bool) (x : α) : List α → List α
  | [] => [x]
  | y :: ys => if le x y then x :: y :: ys else y :: insertSortedBy le x ys

/-- Insertion sort by `le` (`Itertools::sorted_by_cached_key`; the keys of
`Inprocessor::init` are distinct, so any correct sort produces the same
list). -/
def sortListBy {α : Type} (le : α → α → Bool) : List α → List α
  | [] => []
  | x :: xs => insertSortedBy le x (sortListBy le xs)

/-- First-occurrence de-duplication (`Itertools::unique`). -/
def uniqueAux {α : Type} [DecidableEq α] (seen : List α) : List α → List α
  | [] => []
  | x :: xs => if x ∈ seen then uniqueAux seen xs else x :: uniqueAux (x :: seen) xs

/-- First-occurrence de-duplication (`Itertools::unique`). -/
def uniqueKeepFirst {α : Type} [DecidableEq α] (l : List α) : List α :=
  uniqueAux [] l

/-- Lexicographic order on the BVE keys. -/
def bveKeyLE (cnf : List Clause) (a b : VarId) : Bool :=
  decide ((bveKey cnf a).1 < (bveKey cnf b).1 ∨
    ((bveKey cnf a).1 = (bveKey cnf b).1 ∧ a ≤ b))

/-- The BVE queue built by `Inprocessor::init` (lines 25–61): every
variable occurring in the CNF, sorted by `bveKey` (the iteration order of
the intermediate hash map does not matter because the keys are distinct). -/
def bve_queue_init (cnf : List Clause) : List VarId :=
  sortListBy (bveKeyLE cnf)
    (uniqueKeepFirst (((cnf.map Clause.literals).flatten).map Literal.id))

/-- The ordering stated by the spec for C8: the total number of occurrences
of the variable, over both polarities. -/
def occurrenceCount (cnf : List Clause) (v : VarId) : Nat :=
  litOccurrenceCount cnf (Literal.from_value v true) +
  litOccurrenceCount cnf (Literal.from_value v false)

/-! ### Blocking-literal invariant and the SAT check (`state.rs`) -/

/-- For a nonempty clause, the blocking literal is one of its literals. -/
def blockingOk (c : Clause) : Prop :=
  c.literals ≠ [] → c.blocking_literal ∈ c.literals

instance (c : Clause) : Decidable (blockingOk c) := by
  unfold blockingOk; infer_instance

/-- The ids yielded by `ClauseDatabase::iter` (`clause_database.rs`,
lines 38–69): all in-range ids that are not free. The iterator skips holes
by walking the free list in ascending positions; the free list is kept
sorted and duplicate-free by `delete_clause_if_allowed`, so this filter is
its semantics. -/
def ClauseDatabase.iterIds (db : ClauseDatabase) : List ClauseId :=
  (List.range db.clauses.length).filter (fun id => id ∉ db.free_clause_ids)

/-- The ids yielded by `ClauseDatabase::necessary_clauses_iter`: live ids
whose clause has no LBD tag. -/
def ClauseDatabase.necessaryIds (db : ClauseDatabase) : List ClauseId :=
  (List.range db.clauses.length).filter
    (fun id => id ∉ db.free_clause_ids ∧ (db.clauses.getD id default).lbd = none)

/-- The collection loop of
`State::check_satisfied_and_update_blocking_literals` (`state.rs`, lines
107–121): walk the necessary clauses, skipping those whose blocking literal
is true; record a new blocking literal for each clause with a true literal;
stop (keeping what was collected) at the first clause with none. -/
def collectBlockings (db : ClauseDatabase) (vars : Literal.Vars) :
    List ClauseId → List (ClauseId × Literal) → List (ClauseId × Literal) × Bool
  | [], acc => (acc, true)
  | id :: rest, acc =>
    let c := db.clauses.getD id default
    if c.check_blocking_literal vars then collectBlockings db vars rest acc
    else
      match c.literals.find? (fun l => l.is_true vars) with
      | some l => collectBlockings db vars rest (acc ++ [(id, l)])
      | none => (acc, false)

/-- `State::check_satisfied_and_update_blocking_literals` (`state.rs`,
lines 106–126). -/
def State.check_satisfied_and_update_blocking_literals (s : State) : State × Bool :=
  let r := collectBlockings s.clause_database s.vars s.clause_database.necessaryIds []
  let cls := r.1.foldl
    (fun cl p => cl.set p.1 { cl.getD p.1 default with blocking_literal := p.2 })
    s.clause_database.clauses
  ({ s with clause_database := { s.clause_database with clauses := cls } }, r.2)

/-- The resolvent construction of
`Inprocessor::bounded_variable_elimination` (`inprocessor.rs`, lines
208–225): chain the two literal lists, drop every literal of the pivot
variable, de-duplicate keeping first occurrences (`Itertools::unique`) and
form a clause via `Clause::from` unless the result is a tautology (two
remaining literals sharing a variable id). -/
def bve_resolvent (c1 c2 : Clause) (var_id : VarId) : Option Clause :=
  let unique := uniqueKeepFirst
    ((c1.literals ++ c2.literals).filter (fun l => l.id ≠ var_id))
  if unique.length = (uniqueKeepFirst (unique.map Literal.id)).length
  then some (Clause.ofLiterals unique)
  else none

/-! ### Conflict analysis (`clause_learning.rs`) -/

instance : Inhabited Assignment := ⟨⟨⟨0⟩, AssignmentReason.Heuristic, 0⟩⟩

/-- The inner literal loop of `ClauseLearner::analyse_conflict`
(`clause_learning.rs`, lines 35–50): fold the reason clause's literals over
`(seen, count, learned)`, skipping the current literal's variable, marking
unseen variables of positive decision level, counting those at the current
decision level and collecting the others. -/
def analyseClauseLits (trail : Trail) (cur : Option Literal)
    (acc : List VarId × Int × List Literal) (lits : List Literal) :
    List VarId × Int × List Literal :=
  lits.foldl
    (fun a lit =>
      if (match cur with | some cl => decide (lit.id = cl.id) | none => false) then a
      else if lit.id ∉ a.1 ∧ 0 < trail.var_decision_level.getD lit.id 0 then
        if trail.var_decision_level.getD lit.id 0 = trail.decision_level then
          (a.1 ++ [lit.id], a.2.1 + 1, a.2.2)
        else
          (a.1 ++ [lit.id], a.2.1, a.2.2 ++ [lit])
      else a)
    acc

/-- The trail walk of `ClauseLearner::analyse_conflict` (lines 53–55):
step `trail_position` downward until the variable there is marked seen;
`none` models the panic of stepping below the stack. -/
def findSeenPos (stack : List Assignment) (seen : List VarId) : Nat → Option Nat
  | 0 => if (stack.getD 0 default).literal.id ∈ seen then some 0 else none
  | p + 1 =>
    if (stack.getD (p + 1) default).literal.id ∈ seen then some (p + 1)
    else findSeenPos stack seen p

/-- The loop state of `ClauseLearner::analyse_conflict`. -/
structure AnalysisState where
  learned_clause : List Literal
  count : Int
  current_literal : Option Literal
  current_reason_clause_id : ClauseId
  trail_position : Nat
  seen : List VarId
deriving DecidableEq, Repr

/-- The main loop of `ClauseLearner::analyse_conflict` (lines 32–69),
with explicit fuel; `none` models the panics (trail underflow, a
`Heuristic` reason, fuel exhaustion — the source loop always terminates
under the preconditions proved below). -/
def analysisLoop (trail : Trail) (db : ClauseDatabase) :
    Nat → AnalysisState → Option AnalysisState
  | 0, _ => none
  | fuel + 1, st =>
    let clause := db.clauses.getD st.current_reason_clause_id default
    let a := analyseClauseLits trail st.current_literal
      (st.seen, st.count, st.learned_clause) clause.literals
    match findSeenPos trail.assignment_stack a.1 st.trail_position with
    | none => none
    | some pos =>
      let curLit := (trail.assignment_stack.getD pos default).literal
      let seen := a.1.filter (· ≠ curLit.id)
      let count := a.2.1 - 1
      if count = 0 then
        some { learned_clause := a.2.2, count := count, current_literal := some curLit,
               current_reason_clause_id := st.current_reason_clause_id,
               trail_position := pos, seen := seen }
      else
        match (trail.assignment_stack.getD pos default).reason with
        | AssignmentReason.Forced r =>
          analysisLoop trail db fuel
            { learned_clause := a.2.2, count := count, current_literal := some curLit,
              current_reason_clause_id := r, trail_position := pos, seen := seen }
        | AssignmentReason.Heuristic => none

/-- The result of `ClauseLearner::analyse_conflict`; the final `seen` set
of the loop is exposed alongside the returned pair. -/
structure AnalysisResult where
  clause : Clause
  assertion_level : Nat
  seen : List VarId
deriving DecidableEq, Repr

/-- `ClauseLearner::analyse_conflict` (`clause_learning.rs`, lines 17–129):
run the first-UIP loop, append the negated UIP and swap it to position 0,
compute the assertion level (the second entry of the decision levels sorted
in descending order, 0 for a unit clause), swap the literal at the
assertion level into position 1, and tag the clause with its LBD. The
commented-out call to `conflict_clause_minimization` (line 117) is absent
here exactly as it is absent from the compiled code. -/
def analyse_conflict (trail : Trail) (db : ClauseDatabase)
    (conflict_clause_id : ClauseId) (fuel : Nat) : Option AnalysisResult :=
  match analysisLoop trail db fuel
      { learned_clause := [], count := 0, current_literal := none,
        current_reason_clause_id := conflict_clause_id,
        trail_position := trail.assignment_stack.length - 1, seen := [] } with
  | none => none
  | some st =>
    match st.current_literal with
    | none => none
    | some cur =>
      let learned := st.learned_clause ++ [-cur]
      let learned := listSwap learned 0 (learned.length - 1)
      let levels := learned.map (fun l => trail.var_decision_level.getD l.id 0)
      let assertion_level := (sortListBy (fun a b => decide (b ≤ a)) levels).getD 1 0
      let learned :=
        match learned.findIdx?
            (fun l => trail.var_decision_level.getD l.id 0 = assertion_level) with
        | some idx => listSwap learned 1 idx
        | none => learned
      let lbd := (uniqueKeepFirst
        (learned.map (fun l => trail.var_decision_level.getD l.id 0))).length
      some { clause := Clause.from_literals_and_lbd learned lbd
             assertion_level := assertion_level
             seen := st.seen }

/-- The marking test of `conflict_clause_minimization` (lines 142–173):
the literal's negation was assigned with a `Forced(r)` reason and every
literal of `r` except the forced one already belongs to the clause. The
reason lookup searches the trail for the assignment of the literal's
negation (`unwrap` panics when it is absent; theorems assume presence, and
the absent case here keeps the literal). -/
def minimizationRedundant (clause : List Literal) (db : ClauseDatabase)
    (trail : Trail) (lit : Literal) : Bool :=
  match trail.assignment_stack.find? (fun a => a.literal = -lit) with
  | some a =>
    match a.reason with
    | AssignmentReason.Forced reason_clause_id =>
      decide (∀ l ∈ (db.clauses.getD reason_clause_id default).literals,
        l ≠ -lit → l ∈ clause)
    | AssignmentReason.Heuristic => false
  | none => false

/-- `ClauseLearner::conflict_clause_minimization` (`clause_learning.rs`,
lines 132–179): mark every literal at position ≥ 2 satisfying
`minimizationRedundant`, then drop the marked literals. -/
def conflict_clause_minimization (clause : List Literal) (db : ClauseDatabase)
    (trail : Trail) : List Literal :=
  let marked := (clause.drop 2).filter (minimizationRedundant clause db trail)
  clause.filter (fun lit => lit ∉ marked)

/-- The skip test of the literal loop: the literal is on the current
variable (`analyse_conflict`, line 36). -/
def skipLit (cur : Option Literal) (l : Literal) : Bool :=
  match cur with
  | some cl => decide (l.id = cl.id)
  | none => false

/-- Specification device for the first-UIP proof: the number of marked
variables whose decision level is the current one. -/
def dlCount (trail : Trail) (seen : List VarId) : Nat :=
  (seen.filter
    (fun v => trail.var_decision_level.getD v 0 = trail.decision_level)).length

/-! ### Generic lemmas about `listSwap` -/

theorem cons_set_perm {α : Type} (c : α) :
    ∀ (xs : List α) (k : Nat) (a : α), xs[k]? = some a →
      (a :: xs.set k c).Perm (c :: xs)
  | [], k, a, h => by simp at h
  | x :: xs, 0, a, h => by
      simp only [List.getElem?_cons_zero, Option.some.injEq] at h
      rw [← h]
      simpa [List.set] using List.Perm.swap c x xs
  | x :: xs, k + 1, a, h => by
      simp only [List.getElem?_cons_succ] at h
      have ih := cons_set_perm c xs k a h
      have h1 : (a :: (x :: xs).set (k + 1) c) = a :: x :: xs.set k c := by
        simp [List.set]
      rw [h1]
      exact ((List.Perm.swap x a _).trans ((ih.cons x).trans (List.Perm.swap c x xs)))

theorem set_set_perm {α : Type} :
    ∀ (l : List α) (i j : Nat) (a b : α), l[i]? = some a → l[j]? = some b →
      ((l.set i b).set j a).Perm l
  | [], _, _, _, _, hi, _ => by simp at hi
  | x :: xs, 0, 0, a, b, hi, hj => by
      simp only [List.getElem?_cons_zero, Option.some.injEq] at hi hj
      rw [← hi]
      simp [List.set]
  | x :: xs, 0, j + 1, a, b, hi, hj => by
      simp only [List.getElem?_cons_zero, List.getElem?_cons_succ,
        Option.some.injEq] at hi hj
      have h1 : ((x :: xs).set 0 b).set (j + 1) a = b :: xs.set j a := by
        simp [List.set]
      rw [h1, hi]
      exact cons_set_perm a xs j b hj
  | x :: xs, i + 1, 0, a, b, hi, hj => by
      simp only [List.getElem?_cons_zero, List.getElem?_cons_succ,
        Option.some.injEq] at hi hj
      have h1 : ((x :: xs).set (i + 1) b).set 0 a = a :: xs.set i b := by
        simp [List.set]
      rw [h1, hj]
      exact cons_set_perm b xs i a hi
  | x :: xs, i + 1, j + 1, a, b, hi, hj => by
      simp only [List.getElem?_cons_succ] at hi hj
      have ih := set_set_perm xs i j a b hi hj
      have h1 : ((x :: xs).set (i + 1) b).set (j + 1) a = x :: (xs.set i b).set j a := by
        simp [List.set]
      rw [h1]
      exact ih.cons x

/-- `listSwap` permutes the list. -/
theorem listSwap_perm {α : Type} (l : List α) (i j : Nat) : (listSwap l i j).Perm l := by
  unfold listSwap
  rw [List.get?_eq_getElem?, List.get?_eq_getElem?]
  cases hi : l[i]? with
  | none => exact List.Perm.refl l
  | some a =>
    cases hj : l[j]? with
    | none => exact List.Perm.refl l
    | some b => exact set_set_perm l i j a b hi hj

theorem listSwap_length {α : Type} (l : List α) (i j : Nat) :
    (listSwap l i j).length = l.length :=
  (listSwap_perm l i j).length_eq

theorem listSwap_mem {α : Type} {l : List α} {i j : Nat} {x : α} :
    x ∈ listSwap l i j ↔ x ∈ l :=
  (listSwap_perm l i j).mem_iff

theorem listSwap_getElem?_left {α : Type} (l : List α) {i j : Nat}
    (hi : i < l.length) (hj : j < l.length) : (listSwap l i j)[i]? = l[j]? := by
  unfold listSwap
  rw [List.get?_eq_getElem?, List.get?_eq_getElem?,
    List.getElem?_eq_getElem hi, List.getElem?_eq_getElem hj]
  by_cases h : i = j
  · subst h
    show ((l.set i (l.get ⟨i, hi⟩)).set i (l.get ⟨i, hi⟩))[i]? = some (l.get ⟨i, hi⟩)
    rw [List.set_set, List.getElem?_set_self (by simpa using hi)]
  · show ((l.set i (l.get ⟨j, hj⟩)).set j (l.get ⟨i, hi⟩))[i]? = some (l.get ⟨j, hj⟩)
    rw [List.getElem?_set_ne (fun he => h he.symm),
      List.getElem?_set_self (by simpa using hi)]

theorem listSwap_getElem?_right {α : Type} (l : List α) {i j : Nat}
    (hi : i < l.length) (hj : j < l.length) : (listSwap l i j)[j]? = l[i]? := by
  unfold listSwap
  rw [List.get?_eq_getElem?, List.get?_eq_getElem?,
    List.getElem?_eq_getElem hi, List.getElem?_eq_getElem hj]
  show ((l.set i (l.get ⟨j, hj⟩)).set j (l.get ⟨i, hi⟩))[j]? = some (l.get ⟨i, hi⟩)
  rw [List.getElem?_set_self (by simpa using hj)]

theorem listSwap_getElem?_other {α : Type} (l : List α) {i j k : Nat}
    (hki : k ≠ i) (hkj : k ≠ j) : (listSwap l i j)[k]? = l[k]? := by
  unfold listSwap
  rw [List.get?_eq_getElem?, List.get?_eq_getElem?]
  cases hi : l[i]? with
  | none => rfl
  | some a =>
    cases hj : l[j]? with
    | none => rfl
    | some b =>
      rw [List.getElem?_set_ne (fun h => hkj h.symm),
        List.getElem?_set_ne (fun h => hki h.symm)]

/-! ### Lemmas about literal values -/

theorem Literal.negative_eq_not_positive {l : Literal} (h : l.value ≠ 0) :
    l.negative = !l.positive := by
  unfold Literal.negative Literal.positive
  rcases lt_trichotomy l.value 0 with hlt | heq | hgt
  · simp [hlt, not_lt.mpr hlt.le]
  · exact absurd heq h
  · simp [hgt, not_lt.mpr hgt.le]

theorem Literal.not_true_not_free_is_false {l : Literal} {vars : Literal.Vars}
    (h0 : l.value ≠ 0) (ht : l.is_true vars = false) (hf : l.is_free vars = false) :
    l.is_false vars = true := by
  unfold Literal.is_true at ht
  unfold Literal.is_free at hf
  unfold Literal.is_false
  cases hv : vars.getD l.id none with
  | none => rw [hv] at hf; simp at hf
  | some b =>
    rw [hv] at ht
    rw [Literal.negative_eq_not_positive h0]
    simp only [hv, decide_eq_true_eq, Option.some.injEq] at ht ⊢
    cases b <;> cases hb : l.positive <;> simp_all

theorem Literal.not_false_not_true_is_free {l : Literal} {vars : Literal.Vars}
    (h0 : l.value ≠ 0) (hfa : l.is_false vars = false) (ht : l.is_true vars = false) :
    l.is_free vars = true := by
  unfold Literal.is_true at ht
  unfold Literal.is_false at hfa
  unfold Literal.is_free
  cases hv : vars.getD l.id none with
  | none => simp [hv]
  | some b =>
    rw [hv] at ht hfa
    rw [Literal.negative_eq_not_positive h0] at hfa
    simp only [decide_eq_true_eq, Option.some.injEq] at ht hfa
    cases b <;> cases hb : l.positive <;> simp_all

theorem Literal.neg_value (l : Literal) : (-l).value = -l.value := rfl

theorem Literal.neg_id (l : Literal) : (-l).id = l.id := by
  show (-l.value).natAbs = l.value.natAbs
  exact Int.natAbs_neg l.value

theorem Literal.neg_neg (l : Literal) : -(-l) = l := by
  show Literal.mk (- - l.value) = l
  simp

/-! ### Lemmas about the watch-update scan -/

theorem scanStep_none {vars : Literal.Vars} :
    ∀ {lits : List Literal} {i : Nat}, scanStep vars lits i = none →
      ∀ k l, lits[k]? = some l →
        l.is_true vars = false ∧ (1 < i + k → l.is_free vars = false)
  | [], _, _, k, l, hk => by simp at hk
  | x :: xs, i, h, 0, l, hk => by
      simp only [List.getElem?_cons_zero, Option.some.injEq] at hk
      subst hk
      unfold scanStep at h
      by_cases h1 : x.is_true vars = true
      · rw [if_pos h1] at h; cases h
      · rw [if_neg h1] at h
        by_cases h2 : 1 < i ∧ x.is_free vars = true
        · rw [if_pos h2] at h; cases h
        · refine ⟨by simpa using h1, fun hi => ?_⟩
          rcases Decidable.not_and_iff_or_not.mp h2 with h3 | h3
          · exact absurd (by omega) h3
          · simpa using h3
  | x :: xs, i, h, k + 1, l, hk => by
      simp only [List.getElem?_cons_succ] at hk
      unfold scanStep at h
      by_cases h1 : x.is_true vars = true
      · rw [if_pos h1] at h; cases h
      · rw [if_neg h1] at h
        by_cases h2 : 1 < i ∧ x.is_free vars = true
        · rw [if_pos h2] at h; cases h
        · rw [if_neg h2] at h
          have := scanStep_none h k l hk
          exact ⟨this.1, fun hi => this.2 (by omega)⟩

theorem scanStep_inl {vars : Literal.Vars} :
    ∀ {lits : List Literal} {i : Nat} {t : Literal},
      scanStep vars lits i = some (Sum.inl t) → t ∈ lits ∧ t.is_true vars = true
  | [], _, _, h => by simp [scanStep] at h
  | x :: xs, i, t, h => by
      unfold scanStep at h
      by_cases h1 : x.is_true vars = true
      · rw [if_pos h1] at h
        simp only [Option.some.injEq, Sum.inl.injEq] at h
        subst h
        exact ⟨List.mem_cons_self _ _, h1⟩
      · rw [if_neg h1] at h
        by_cases h2 : 1 < i ∧ x.is_free vars = true
        · rw [if_pos h2] at h; cases h
        · rw [if_neg h2] at h
          have := scanStep_inl h
          exact ⟨List.mem_cons_of_mem _ this.1, this.2⟩

theorem scanStep_inr {vars : Literal.Vars} :
    ∀ {lits : List Literal} {i j : Nat},
      scanStep vars lits i = some (Sum.inr j) →
        1 < j ∧ i ≤ j ∧ ∃ l, lits[j - i]? = some l ∧ l.is_free vars = true
  | [], _, _, h => by simp [scanStep] at h
  | x :: xs, i, j, h => by
      unfold scanStep at h
      by_cases h1 : x.is_true vars = true
      · rw [if_pos h1] at h; cases h
      · rw [if_neg h1] at h
        by_cases h2 : 1 < i ∧ x.is_free vars = true
        · rw [if_pos h2] at h
          simp only [Option.some.injEq, Sum.inr.injEq] at h
          subst h
          exact ⟨h2.1, le_refl _, x, by simp, h2.2⟩
        · rw [if_neg h2] at h
          obtain ⟨hj, hij, l, hl, hfree⟩ := scanStep_inr h
          refine ⟨hj, by omega, l, ?_, hfree⟩
          have h3 : j - i = (j - (i + 1)) + 1 := by omega
          rw [h3]
          simpa using hl

theorem Literal.non_false_eq_not_is_false (l : Literal) (vars : Literal.Vars) :
    l.non_false vars = !l.is_false vars := by
  unfold Literal.non_false Literal.is_false
  by_cases h : vars.getD l.id none = some l.negative <;> simp [h]

/-! ### Characterization of the front swap -/

theorem frontSwap_spec {c : Clause} {invalid : Literal}
    (hlen : 2 ≤ c.literals.length)
    (hmem : invalid ∈ c.literals.take 2)
    (hids : (c.literals.getD 0 default).id ≠ (c.literals.getD 1 default).id) :
    (frontSwap c invalid).literals[0]? = some invalid ∧
    ((frontSwap c invalid).literals[1]? = c.literals[1]? ∨
     (frontSwap c invalid).literals[1]? = c.literals[0]?) ∧
    (∀ k, 2 ≤ k → (frontSwap c invalid).literals[k]? = c.literals[k]?) ∧
    (frontSwap c invalid).literals.Perm c.literals ∧
    (frontSwap c invalid).blocking_literal = c.blocking_literal ∧
    (frontSwap c invalid).lbd = c.lbd := by
  have h0 : 0 < c.literals.length := by omega
  have h1 : 1 < c.literals.length := by omega
  obtain ⟨l0, hl0⟩ : ∃ l0, c.literals[0]? = some l0 :=
    ⟨c.literals[0], List.getElem?_eq_getElem h0⟩
  obtain ⟨l1, hl1⟩ : ∃ l1, c.literals[1]? = some l1 :=
    ⟨c.literals[1], List.getElem?_eq_getElem h1⟩
  have htake : c.literals.take 2 = [l0, l1] := by
    match c.literals, hl0, hl1 with
    | a :: b :: t, ha, hb => simp_all
  have hg0 : c.literals.getD 0 default = l0 := by
    rw [List.getD_eq_getElem?_getD, hl0]; rfl
  have hg1 : c.literals.getD 1 default = l1 := by
    rw [List.getD_eq_getElem?_getD, hl1]; rfl
  rw [htake] at hmem
  rw [hg0, hg1] at hids
  simp only [List.mem_cons, List.mem_singleton, List.not_mem_nil, or_false] at hmem
  unfold frontSwap
  rw [hg0]
  rcases hmem with rfl | rfl
  · rw [if_neg (by simp)]
    exact ⟨hl0, Or.inl rfl, fun k _ => rfl, List.Perm.refl _, rfl, rfl⟩
  · have hne : l0.id ≠ invalid.id := fun h =>
      hids (h.trans rfl)
    rw [if_pos hne]
    refine ⟨?_, Or.inr ?_, fun k hk => ?_, listSwap_perm _ _ _, rfl, rfl⟩
    · rw [listSwap_getElem?_left c.literals h0 h1]; exact hl1
    · rw [listSwap_getElem?_right c.literals h0 h1]
    · exact listSwap_getElem?_other c.literals (by omega) (by omega)

/-- C2, counterexample. Start from `State::init` on the single clause
`(-1 ∨ 2 ∨ 3)` with 3 variables, assign literal `3`, then assign literal
`1`. The second `assign` does not set the conflict flag, yet the (satisfied)
clause has its watched position 0 (`-1`) false and nothing was enqueued:
the claim's disjunction fails. (The spec's own §4.2 invariant and
`State::verify_watches` restrict the invariant to unsatisfied clauses.) -/
theorem C2_counterexample :
    (((State.init [Clause.ofLiterals [⟨-1⟩, ⟨2⟩, ⟨3⟩]] 3 false).assign
        ⟨[], []⟩ ⟨3⟩).1.assign
        ((State.init [Clause.ofLiterals [⟨-1⟩, ⟨2⟩, ⟨3⟩]] 3 false).assign
        ⟨[], []⟩ ⟨3⟩).2 ⟨1⟩).1.conflict_clause_id = none ∧
    ¬ watchInvariantStrict
      (((State.init [Clause.ofLiterals [⟨-1⟩, ⟨2⟩, ⟨3⟩]] 3 false).assign
        ⟨[], []⟩ ⟨3⟩).1.assign
        ((State.init [Clause.ofLiterals [⟨-1⟩, ⟨2⟩, ⟨3⟩]] 3 false).assign
        ⟨[], []⟩ ⟨3⟩).2 ⟨1⟩).1
      (((State.init [Clause.ofLiterals [⟨-1⟩, ⟨2⟩, ⟨3⟩]] 3 false).assign
        ⟨[], []⟩ ⟨3⟩).1.assign
        ((State.init [Clause.ofLiterals [⟨-1⟩, ⟨2⟩, ⟨3⟩]] 3 false).assign
        ⟨[], []⟩ ⟨3⟩).2 ⟨1⟩).2 := by
  decide

/-- C3, counterexample. For the clause `(-1 ∨ 2 ∨ 3)` under the assignment
`{1 ↦ true, 2 ↦ true}` (so the invalid watched literal `-1` is false, the
other watched literal `2` is true and position 2 holds the free literal
`3`), `update_clause` returns `Satisfied(2)` — the true literal it found at
watched position 1 during its scan from position 0 — whereas the claim's
contract (scan positions ≥ 2 for a true literal, else swap in a free one)
yields `FoundNewWatch`. -/
theorem C3_counterexample :
    (Literal.is_false ⟨-1⟩ [none, some true, some true, none] = true) ∧
    (LiteralWatcher.update_clause ⟨List.replicate 4 default⟩
        (Clause.ofLiterals [⟨-1⟩, ⟨2⟩, ⟨3⟩]) 0 ⟨-1⟩
        [none, some true, some true, none]).2.2 = WatchUpdate.Satisfied ⟨2⟩ ∧
    (update_clause_spec (Clause.ofLiterals [⟨-1⟩, ⟨2⟩, ⟨3⟩]) ⟨-1⟩
        [none, some true, some true, none]).2 = WatchUpdate.FoundNewWatch ∧
    WatchUpdate.Satisfied ⟨2⟩ ≠ WatchUpdate.FoundNewWatch := by
  decide

theorem getD_of_getElem? {α : Type} {l : List α} {k : Nat} {x : α}
    (h : l[k]? = some x) (d : α) : l.getD k d = x := by
  rw [List.getD_eq_getElem?_getD, h]; rfl

/-- C3 (amended): characterization of `LiteralWatcher::update_clause` as
implemented. For a watched clause (length ≥ 2, the false invalid literal at
one of the first two positions, distinct watched variables, non-zero
literal values): the returned clause is a permutation of the input with the
same blocking literal and LBD; `Conflict` is returned exactly when the
other watched literal is false; a `Satisfied(t)` result names a true
literal of the clause — found by a single scan over all positions from 0,
so `t` may be the other watched literal, and a free literal earlier in the
clause pre-empts a later true one; `FoundNewWatch` leaves both watched
positions non-false; `Unit(u)` returns the other watched literal, which is
then the clause's sole non-false literal (all other positions false, `u`
free). -/
theorem C3_update_clause_characterization
    (w : LiteralWatcher) (c : Clause) (cid : ClauseId) (invalid : Literal)
    (vars : Literal.Vars)
    (hlen : 2 ≤ c.literals.length)
    (hvals : ∀ l ∈ c.literals, l.value ≠ 0)
    (hmem : invalid ∈ c.literals.take 2)
    (hids : (c.literals.getD 0 default).id ≠ (c.literals.getD 1 default).id)
    (hfalse : invalid.is_false vars = true) :
    ((w.update_clause c cid invalid vars).2.1.literals.Perm c.literals) ∧
    (w.update_clause c cid invalid vars).2.1.blocking_literal = c.blocking_literal ∧
    (w.update_clause c cid invalid vars).2.1.lbd = c.lbd ∧
    ((w.update_clause c cid invalid vars).2.2 = WatchUpdate.Conflict ↔
      ((frontSwap c invalid).literals.getD 1 default).is_false vars = true) ∧
    (∀ t, (w.update_clause c cid invalid vars).2.2 = WatchUpdate.Satisfied t →
      t ∈ c.literals ∧ t.is_true vars = true) ∧
    ((w.update_clause c cid invalid vars).2.2 = WatchUpdate.FoundNewWatch →
      ((w.update_clause c cid invalid vars).2.1.literals.getD 0 default).is_free vars = true ∧
      ((w.update_clause c cid invalid vars).2.1.literals.getD 1 default).non_false vars
        = true) ∧
    (∀ t, (w.update_clause c cid invalid vars).2.2 = WatchUpdate.Unit t →
      t = (w.update_clause c cid invalid vars).2.1.literals.getD 1 default ∧
      t.is_free vars = true ∧
      (w.update_clause c cid invalid vars).2.1.literals.getD 0 default = invalid ∧
      ∀ k l, (w.update_clause c cid invalid vars).2.1.literals[k]? = some l → k ≠ 1 →
        l.is_false vars = true) := by
  obtain ⟨hf0, hf1or, hfk, hperm, hbl, hlbd⟩ := frontSwap_spec hlen hmem hids
  have hlen1 : (frontSwap c invalid).literals.length = c.literals.length := hperm.length_eq
  have hvals1 : ∀ l ∈ (frontSwap c invalid).literals, l.value ≠ 0 :=
    fun l hl => hvals l (hperm.subset hl)
  obtain ⟨l1, hl1⟩ : ∃ l1, (frontSwap c invalid).literals[1]? = some l1 :=
    ⟨(frontSwap c invalid).literals.get ⟨1, by omega⟩,
      List.getElem?_eq_getElem (by omega)⟩
  have hg1 : (frontSwap c invalid).literals.getD 1 default = l1 := getD_of_getElem? hl1 _
  have hg0 : (frontSwap c invalid).literals.getD 0 default = invalid := getD_of_getElem? hf0 _
  unfold LiteralWatcher.update_clause
  by_cases hb : ((frontSwap c invalid).literals.getD 1 default).is_false vars = true
  · rw [if_pos hb]
    refine ⟨hperm, hbl, hlbd, iff_of_true rfl hb, ?_, ?_, ?_⟩
    · intro t h; exact absurd h (by simp)
    · intro h; exact absurd h (by simp)
    · intro t h; exact absurd h (by simp)
  · rw [if_neg hb]
    cases hscan : scanStep vars (frontSwap c invalid).literals 0 with
    | some ev =>
      cases ev with
      | inl t0 =>
        refine ⟨hperm, hbl, hlbd, iff_of_false (by simp) hb, ?_, ?_, ?_⟩
        · intro t h
          simp only [WatchUpdate.Satisfied.injEq] at h
          subst h
          obtain ⟨hmem0, htrue⟩ := scanStep_inl hscan
          exact ⟨hperm.subset hmem0, htrue⟩
        · intro h; exact absurd h (by simp)
        · intro t h; exact absurd h (by simp)
      | inr j =>
        obtain ⟨hj, -, lf, hlf, hfree⟩ := scanStep_inr hscan
        rw [Nat.sub_zero] at hlf
        have hjlt : j < (frontSwap c invalid).literals.length :=
          (List.getElem?_eq_some.mp hlf).1
        have h0lt : 0 < (frontSwap c invalid).literals.length := by omega
        refine ⟨(listSwap_perm _ _ _).trans hperm, hbl, hlbd,
          iff_of_false (by simp) hb, ?_, ?_, ?_⟩
        · intro t h; exact absurd h (by simp)
        · intro _
          constructor
          · rw [getD_of_getElem?
              ((listSwap_getElem?_left _ h0lt hjlt).trans hlf) default]
            exact hfree
          · rw [getD_of_getElem?
              ((listSwap_getElem?_other _ (by omega) (by omega)).trans hl1) default]
            rw [Literal.non_false_eq_not_is_false]
            rw [hg1] at hb
            simp [Bool.not_eq_true] at hb
            simp [hb]
        · intro t h; exact absurd h (by simp)
    | none =>
      have hall := scanStep_none hscan
      have hl1props : l1.is_true vars = false := (hall 1 l1 hl1).1
      have hl1free : l1.is_free vars = true := by
        rw [hg1] at hb
        refine Literal.not_false_not_true_is_free
          (hvals1 l1 (List.getElem?_mem hl1)) ?_ hl1props
        simpa using hb
      refine ⟨hperm, hbl, hlbd, iff_of_false (by simp) hb, ?_, ?_, ?_⟩
      · intro t h; exact absurd h (by simp)
      · intro h; exact absurd h (by simp)
      · intro t h
        simp only [WatchUpdate.Unit.injEq] at h
        subst h
        refine ⟨rfl, by rw [hg1]; exact hl1free, hg0, ?_⟩
        intro k l hk hk1
        match k, hk1 with
        | 0, _ =>
          rw [hf0] at hk
          cases hk
          exact hfalse
        | (m + 2), _ =>
          have := (hall (m + 2) l hk).2 (by omega)
          exact Literal.not_true_not_free_is_false
            (hvals1 l (List.getElem?_mem hk)) (hall (m + 2) l hk).1 this

/-- Witness for the C3 characterization: the clause `(1 ∨ 2)` with variable
1 assigned false; the update reports `Unit(2)`. -/
theorem C3_witness :
    (2 ≤ (Clause.ofLiterals [⟨1⟩, ⟨2⟩]).literals.length) ∧
    ((LiteralWatcher.update_clause ⟨List.replicate 3 default⟩
        (Clause.ofLiterals [⟨1⟩, ⟨2⟩]) 0 ⟨1⟩ [none, some false, none]).2.2 =
      WatchUpdate.Unit ⟨2⟩) ∧
    ((LiteralWatcher.update_clause ⟨List.replicate 3 default⟩
        (Clause.ofLiterals [⟨1⟩, ⟨2⟩]) 0 ⟨1⟩ [none, some false, none]).2.1.literals.Perm
      (Clause.ofLiterals [⟨1⟩, ⟨2⟩]).literals) :=
  ⟨by decide,
   by decide,
   (C3_update_clause_characterization ⟨List.replicate 3 default⟩
      (Clause.ofLiterals [⟨1⟩, ⟨2⟩]) 0 ⟨1⟩ [none, some false, none]
      (by decide) (by decide) (by decide) (by decide) (by decide)).1⟩

/-! ### Slot lemmas for the literal watcher -/

theorem getD_set_self {α : Type} {l : List α} {i : Nat} (h : i < l.length) (a d : α) :
    (l.set i a).getD i d = a := by
  rw [List.getD_eq_getElem?_getD, List.getElem?_set_self h]; rfl

theorem getD_set_ne {α : Type} {l : List α} {i j : Nat} (h : i ≠ j) (a d : α) :
    (l.set i a).getD j d = l.getD j d := by
  rw [List.getD_eq_getElem?_getD, List.getElem?_set_ne h, ← List.getD_eq_getElem?_getD]

theorem LiteralWatcher.setAffected_length (w : LiteralWatcher) (lit : Literal)
    (l : List ClauseId) : (w.setAffected lit l).var_watches.length = w.var_watches.length :=
  List.length_set _ _ _

theorem LiteralWatcher.add_watch_length (w : LiteralWatcher) (lit : Literal)
    (id : ClauseId) : (w.add_watch lit id).var_watches.length = w.var_watches.length :=
  List.length_set _ _ _

theorem LiteralWatcher.setAffected_read_same (w : LiteralWatcher) {lit : Literal}
    (l : List ClauseId) (h : lit.id < w.var_watches.length) :
    (w.setAffected lit l).affected_clauses lit = l := by
  cases hq : lit.positive <;>
    simp_all [LiteralWatcher.setAffected, LiteralWatcher.affected_clauses,
      getD_set_self h]

theorem LiteralWatcher.setAffected_read_other (w : LiteralWatcher) {lit m : Literal}
    (l : List ClauseId) (h : m.id ≠ lit.id ∨ m.positive ≠ lit.positive) :
    (w.setAffected lit l).affected_clauses m = w.affected_clauses m := by
  by_cases hmi : m.id = lit.id
  · have hp : m.positive ≠ lit.positive := by
      rcases h with h | h
      · exact absurd hmi h
      · exact h
    by_cases hb : lit.id < w.var_watches.length
    · cases hq : lit.positive <;> cases hr : m.positive <;>
        simp_all [LiteralWatcher.setAffected, LiteralWatcher.affected_clauses,
          getD_set_self hb]
    · have hle : w.var_watches.length ≤ lit.id := Nat.le_of_not_lt hb
      simp only [LiteralWatcher.setAffected, LiteralWatcher.affected_clauses,
        List.set_eq_of_length_le hle]
  · simp only [LiteralWatcher.setAffected, LiteralWatcher.affected_clauses,
      getD_set_ne (fun he => hmi he.symm)]

theorem LiteralWatcher.add_watch_read_same (w : LiteralWatcher) {lit m : Literal}
    (id : ClauseId) (hid : m.id = lit.id) (hpol : m.positive = !lit.positive)
    (h : lit.id < w.var_watches.length) :
    (w.add_watch lit id).affected_clauses m = w.affected_clauses m ++ [id] := by
  cases hq : lit.positive <;>
    simp_all [LiteralWatcher.add_watch, LiteralWatcher.affected_clauses,
      getD_set_self h]

theorem LiteralWatcher.add_watch_read_other (w : LiteralWatcher) {lit m : Literal}
    (id : ClauseId) (h : m.id ≠ lit.id ∨ m.positive = lit.positive) :
    (w.add_watch lit id).affected_clauses m = w.affected_clauses m := by
  by_cases hmi : m.id = lit.id
  · have hp : m.positive = lit.positive := by
      rcases h with h | h
      · exact absurd hmi h
      · exact h
    by_cases hb : lit.id < w.var_watches.length
    · cases hq : lit.positive <;>
        simp_all [LiteralWatcher.add_watch, LiteralWatcher.affected_clauses,
          getD_set_self hb]
    · have hle : w.var_watches.length ≤ lit.id := Nat.le_of_not_lt hb
      simp only [LiteralWatcher.add_watch, LiteralWatcher.affected_clauses,
        List.set_eq_of_length_le hle]
  · simp only [LiteralWatcher.add_watch, LiteralWatcher.affected_clauses,
      getD_set_ne (fun he => hmi he.symm)]

/-- `affected_clauses` depends only on the variable id and the polarity. -/
theorem LiteralWatcher.affected_congr (w : LiteralWatcher) {m n : Literal}
    (hid : m.id = n.id) (hpol : m.positive = n.positive) :
    w.affected_clauses m = w.affected_clauses n := by
  unfold LiteralWatcher.affected_clauses
  rw [hid, hpol]

theorem not_mem_filter_ne {l : List ClauseId} (id : ClauseId) :
    id ∉ l.filter (· ≠ id) := fun hmem => by
  have := (List.mem_filter.mp hmem).2
  simp at this

/-- After `LiteralWatcher::delete_clause`, the clause id is gone from the
watch lists of both watched literals. -/
theorem LiteralWatcher.delete_clause_removes (w : LiteralWatcher) (c : Clause)
    (id : ClauseId)
    (hb : ∀ lit ∈ c.literals.take 2, lit.id < w.var_watches.length) :
    ∀ lit ∈ c.literals.take 2, id ∉ (w.delete_clause c id).affected_clauses (-lit) := by
  unfold LiteralWatcher.delete_clause
  match ht : c.literals.take 2 with
  | [] => intro lit h; simp at h
  | [a] =>
    intro lit h
    simp only [List.mem_singleton] at h
    subst h
    rw [ht] at hb
    simp only [List.foldl_cons, List.foldl_nil]
    rw [LiteralWatcher.setAffected_read_same _ _
      (by rw [Literal.neg_id]; exact hb lit (by simp))]
    exact not_mem_filter_ne id
  | [a, b] =>
    rw [ht] at hb
    have hba : (-a).id < w.var_watches.length := by
      rw [Literal.neg_id]; exact hb a (by simp)
    have hbb : (-b).id < w.var_watches.length := by
      rw [Literal.neg_id]; exact hb b (by simp)
    intro lit h
    simp only [List.foldl_cons, List.foldl_nil]
    rcases List.mem_pair.mp h with rfl | rfl
    · by_cases hsame : (-lit).id = (-b).id ∧ (-lit).positive = (-b).positive
      · rw [LiteralWatcher.affected_congr _ hsame.1 hsame.2]
        rw [LiteralWatcher.setAffected_read_same _ _
          (by rw [LiteralWatcher.setAffected_length]; exact hbb)]
        exact not_mem_filter_ne id
      · rw [LiteralWatcher.setAffected_read_other _ _
          (by rcases Decidable.not_and_iff_or_not.mp hsame with h' | h'
              · exact Or.inl h'
              · exact Or.inr h')]
        rw [LiteralWatcher.setAffected_read_same _ _ hba]
        exact not_mem_filter_ne id
    · rw [LiteralWatcher.setAffected_read_same _ _
        (by rw [LiteralWatcher.setAffected_length]; exact hbb)]
      exact not_mem_filter_ne id
  | a :: b :: x :: xs =>
    have h2 : (c.literals.take 2).length ≤ 2 := by
      rw [List.length_take]; omega
    rw [ht] at h2
    simp at h2

/-- C6: `ClauseDatabase::delete_clause_if_allowed` refuses silently — with
the database, watcher, free list and proof log unchanged — whenever the
clause is the `Forced` reason of a trail entry, the id is already free, or
the clause has fewer than 2 literals; otherwise it keeps the clause slots
intact, appends the deletion to the proof log, removes the clause's two
watch-list entries and returns the id to the (sorted) free list. In
particular a clause that is a current reason is never deleted. -/
theorem C6_delete_clause_if_allowed (db : ClauseDatabase) (id : ClauseId)
    (w : LiteralWatcher) (trail : Trail)
    (hwb : ∀ lit ∈ (db.clauses.getD id default).literals.take 2,
      lit.id < w.var_watches.length) :
    (((trail.assignment_stack.any fun a => a.reason = AssignmentReason.Forced id) = true ∨
      id ∈ db.free_clause_ids ∨
      (db.clauses.getD id default).literals.length < 2) →
      db.delete_clause_if_allowed id w trail = (db, w)) ∧
    ((trail.assignment_stack.any fun a => a.reason = AssignmentReason.Forced id) = false →
     id ∉ db.free_clause_ids →
     2 ≤ (db.clauses.getD id default).literals.length →
      (db.delete_clause_if_allowed id w trail).1.clauses = db.clauses ∧
      (db.delete_clause_if_allowed id w trail).1.free_clause_ids =
        (db.free_clause_ids ++ [id]).mergeSort (· ≤ ·) ∧
      (db.delete_clause_if_allowed id w trail).1.proof_logger =
        db.proof_logger.delete (db.clauses.getD id default) ∧
      (db.delete_clause_if_allowed id w trail).2 =
        w.delete_clause (db.clauses.getD id default) id ∧
      ∀ lit ∈ (db.clauses.getD id default).literals.take 2,
        id ∉ (db.delete_clause_if_allowed id w trail).2.affected_clauses (-lit)) := by
  constructor
  · intro h
    unfold ClauseDatabase.delete_clause_if_allowed
    rcases h with h | h | h
    · rw [if_pos h]
    · by_cases h1 : (trail.assignment_stack.any fun a =>
        a.reason = AssignmentReason.Forced id) = true
      · rw [if_pos h1]
      · rw [if_neg h1, if_pos h]
    · by_cases h1 : (trail.assignment_stack.any fun a =>
        a.reason = AssignmentReason.Forced id) = true
      · rw [if_pos h1]
      · by_cases h2 : id ∈ db.free_clause_ids
        · rw [if_neg h1, if_pos h2]
        · rw [if_neg h1, if_neg h2, if_pos h]
  · intro h1 h2 h3
    unfold ClauseDatabase.delete_clause_if_allowed
    rw [if_neg (by simp [h1]), if_neg h2, if_neg (by omega)]
    exact ⟨rfl, rfl, rfl, rfl,
      LiteralWatcher.delete_clause_removes w (db.clauses.getD id default) id hwb⟩

/-- Witness for C6: a database holding the single clause `(1 ∨ 2)` with an
empty trail; the deletion succeeds, the id returns to the free list and
both watch entries disappear. -/
theorem C6_witness :
    (ClauseDatabase.delete_clause_if_allowed
        ⟨[Clause.ofLiterals [⟨1⟩, ⟨2⟩]], [], 0, ⟨true, []⟩, 0⟩ 0
        ⟨[⟨[], []⟩, ⟨[0], []⟩, ⟨[0], []⟩]⟩
        ⟨[], [0, 0, 0], [0, 0, 0], 0⟩).1.free_clause_ids =
      (([] ++ [0] : List ClauseId).mergeSort (· ≤ ·)) ∧
    (ClauseDatabase.delete_clause_if_allowed
        ⟨[Clause.ofLiterals [⟨1⟩, ⟨2⟩]], [], 0, ⟨true, []⟩, 0⟩ 0
        ⟨[⟨[], []⟩, ⟨[0], []⟩, ⟨[0], []⟩]⟩
        ⟨[], [0, 0, 0], [0, 0, 0], 0⟩).2 =
      LiteralWatcher.delete_clause ⟨[⟨[], []⟩, ⟨[0], []⟩, ⟨[0], []⟩]⟩
        (Clause.ofLiterals [⟨1⟩, ⟨2⟩]) 0 :=
  ⟨((C6_delete_clause_if_allowed
      ⟨[Clause.ofLiterals [⟨1⟩, ⟨2⟩]], [], 0, ⟨true, []⟩, 0⟩ 0
      ⟨[⟨[], []⟩, ⟨[0], []⟩, ⟨[0], []⟩]⟩ ⟨[], [0, 0, 0], [0, 0, 0], 0⟩
      (by decide)).2 (by decide) (by decide) (by decide)).2.1,
   ((C6_delete_clause_if_allowed
      ⟨[Clause.ofLiterals [⟨1⟩, ⟨2⟩]], [], 0, ⟨true, []⟩, 0⟩ 0
      ⟨[⟨[], []⟩, ⟨[0], []⟩, ⟨[0], []⟩]⟩ ⟨[], [0, 0, 0], [0, 0, 0], 0⟩
      (by decide)).2 (by decide) (by decide) (by decide)).2.2.2.1⟩

/-- C5, counterexample. Decision level 1: decide `1`, clause 0 `(-1 ∨ 2)`
forces `2`. Decision level 2: decide `3`, clause 1 `(-3 ∨ -2 ∨ 4)` forces
`4`, clause 2 `(-4 ∨ -1 ∨ 5)` forces `5`, and clause 3 `(-5 ∨ -2 ∨ -1)` is
the conflict. `analyse_conflict` returns the clause `(-5 ∨ -1 ∨ -2)` with
the non-UIP literal `-2` still present — yet `-2` meets the claim's
redundancy test: the reason of `2` is `Forced(clause 0)` and the only other
literal of clause 0, `-1`, is marked seen during the analysis. The
minimization (`clause_learning.rs`, line 117) is commented out and never
runs inside `analyse_conflict`. -/
theorem C5_counterexample :
    analyse_conflict
        ⟨[⟨⟨1⟩, .Heuristic, 1⟩, ⟨⟨2⟩, .Forced 0, 1⟩, ⟨⟨3⟩, .Heuristic, 2⟩,
          ⟨⟨4⟩, .Forced 1, 2⟩, ⟨⟨5⟩, .Forced 2, 2⟩],
         [0, 1, 1, 2, 2, 2], [0, 0, 1, 2, 3, 4], 2⟩
        ⟨[Clause.ofLiterals [⟨-1⟩, ⟨2⟩],
          Clause.ofLiterals [⟨-3⟩, ⟨-2⟩, ⟨4⟩],
          Clause.ofLiterals [⟨-4⟩, ⟨-1⟩, ⟨5⟩],
          Clause.ofLiterals [⟨-5⟩, ⟨-2⟩, ⟨-1⟩]], [], 0, ⟨false, []⟩, 0⟩ 3 6 =
      some ⟨Clause.from_literals_and_lbd [⟨-5⟩, ⟨-1⟩, ⟨-2⟩] 2, 1, [2, 1]⟩ ∧
    (⟨-2⟩ : Literal) ∈ ([⟨-5⟩, ⟨-1⟩, ⟨-2⟩] : List Literal) ∧
    (([⟨-5⟩, ⟨-1⟩, ⟨-2⟩] : List Literal).getD 0 default ≠ ⟨-2⟩) ∧
    (([⟨⟨1⟩, .Heuristic, 1⟩, ⟨⟨2⟩, .Forced 0, 1⟩, ⟨⟨3⟩, .Heuristic, 2⟩,
       ⟨⟨4⟩, .Forced 1, 2⟩, ⟨⟨5⟩, .Forced 2, 2⟩] : List Assignment).find?
      (fun a => a.literal = -(⟨-2⟩ : Literal)) = some ⟨⟨2⟩, .Forced 0, 1⟩) ∧
    (∀ l ∈ (Clause.ofLiterals [⟨-1⟩, ⟨2⟩]).literals, l ≠ ⟨2⟩ →
      (l.id ∈ ([2, 1] : List VarId) ∨
        ([0, 1, 1, 2, 2, 2] : List Nat).getD l.id 0 = 0)) := by
  decide

/-- C5 (amended): conflict-clause minimization is implemented but never
invoked — `analyse_conflict` returns the learned clause unminimized (see
the counterexample). The routine `conflict_clause_minimization`, when
called directly on a duplicate-free clause, removes exactly the literals
at positions ≥ 2 whose negation's trail reason is `Forced(r)` with every
literal of `r` other than the forced one already contained in the clause;
the result is a subsequence of the clause, and the UIP at position 0 and
the asserting literal at position 1 are never dropped. -/
theorem C5_minimization_characterization (clause : List Literal)
    (db : ClauseDatabase) (trail : Trail) (hnd : clause.Nodup) :
    (conflict_clause_minimization clause db trail).Sublist clause ∧
    (∀ l ∈ clause.take 2, l ∈ conflict_clause_minimization clause db trail) ∧
    (∀ l ∈ clause, l ∉ conflict_clause_minimization clause db trail →
      l ∈ clause.drop 2 ∧ minimizationRedundant clause db trail l = true) ∧
    (∀ l ∈ clause.drop 2, minimizationRedundant clause db trail l = true →
      l ∉ conflict_clause_minimization clause db trail) := by
  unfold conflict_clause_minimization
  have hdisj := List.disjoint_take_drop (m := 2) (n := 2) hnd (le_refl 2)
  refine ⟨List.filter_sublist _, ?_, ?_, ?_⟩
  · intro l hl
    rw [List.mem_filter]
    refine ⟨List.mem_of_mem_take hl, ?_⟩
    rw [decide_eq_true_eq]
    intro hmark
    exact hdisj hl ((List.mem_filter.mp hmark).1)
  · intro l hl hnot
    by_cases hm : l ∈ (clause.drop 2).filter (minimizationRedundant clause db trail)
    · exact ⟨(List.mem_filter.mp hm).1, (List.mem_filter.mp hm).2⟩
    · exact absurd (List.mem_filter.mpr ⟨hl, by rw [decide_eq_true_eq]; exact hm⟩) hnot
  · intro l hl hred hmem
    have := (List.mem_filter.mp hmem).2
    rw [decide_eq_true_eq] at this
    exact this (List.mem_filter.mpr ⟨hl, hred⟩)

/-- Witness for the C5 characterization at the counterexample's data: the
UIP `-5` of the clause `(-5 ∨ -1 ∨ -2)` survives direct minimization. -/
theorem C5_witness :
    ([⟨-5⟩, ⟨-1⟩, ⟨-2⟩] : List Literal).Nodup ∧
    (⟨-5⟩ : Literal) ∈ conflict_clause_minimization [⟨-5⟩, ⟨-1⟩, ⟨-2⟩]
      ⟨[Clause.ofLiterals [⟨-1⟩, ⟨2⟩],
        Clause.ofLiterals [⟨-3⟩, ⟨-2⟩, ⟨4⟩],
        Clause.ofLiterals [⟨-4⟩, ⟨-1⟩, ⟨5⟩],
        Clause.ofLiterals [⟨-5⟩, ⟨-2⟩, ⟨-1⟩]], [], 0, ⟨false, []⟩, 0⟩
      ⟨[⟨⟨1⟩, .Heuristic, 1⟩, ⟨⟨2⟩, .Forced 0, 1⟩, ⟨⟨3⟩, .Heuristic, 2⟩,
        ⟨⟨4⟩, .Forced 1, 2⟩, ⟨⟨5⟩, .Forced 2, 2⟩],
       [0, 1, 1, 2, 2, 2], [0, 0, 1, 2, 3, 4], 2⟩ :=
  ⟨by decide,
   (C5_minimization_characterization [⟨-5⟩, ⟨-1⟩, ⟨-2⟩]
      ⟨[Clause.ofLiterals [⟨-1⟩, ⟨2⟩],
        Clause.ofLiterals [⟨-3⟩, ⟨-2⟩, ⟨4⟩],
        Clause.ofLiterals [⟨-4⟩, ⟨-1⟩, ⟨5⟩],
        Clause.ofLiterals [⟨-5⟩, ⟨-2⟩, ⟨-1⟩]], [], 0, ⟨false, []⟩, 0⟩
      ⟨[⟨⟨1⟩, .Heuristic, 1⟩, ⟨⟨2⟩, .Forced 0, 1⟩, ⟨⟨3⟩, .Heuristic, 2⟩,
        ⟨⟨4⟩, .Forced 1, 2⟩, ⟨⟨5⟩, .Forced 2, 2⟩],
       [0, 1, 1, 2, 2, 2], [0, 0, 1, 2, 3, 4], 2⟩
      (by decide)).2.1 ⟨-5⟩ (by decide)⟩

/-- C9, counterexample. With 1/8 s of accumulated inprocessing time and
1 s of wall time — comfortably inside a 15% budget — `should_interrupt`
already fires and `should_start_inprocessing` refuses to start: the
predicates compare against `INPROCESSING_RATIO = 0.10` of the wall time,
not the 15% stated by the spec. -/
theorem C9_counterexample :
    should_interrupt (1 / 8) 0 1 = true ∧
    should_start_inprocessing (1 / 8) 1 = false ∧
    (1 / 8 + 0 : ℚ) ≤ (15 / 100) * 1 := by
  refine ⟨?_, ?_, by norm_num⟩ <;>
    · simp only [should_interrupt, should_start_inprocessing, DETERMINISTIC,
        inprocessingBudgetFraction, Bool.false_eq_true, if_false,
        decide_eq_true_eq, decide_eq_false_iff_not]
      norm_num

/-- C9 (amended): the budget fraction is 10%, not 15%. Whenever
`should_interrupt` does not fire, the total inprocessing time including the
current session is at most 10% of the wall time since initialization; and
`should_start_inprocessing` lets a session begin only while the total is
strictly below 10% of the wall time (a single variable elimination may
still overshoot before the next check). -/
theorem C9_budget (total current initElapsed : ℚ) :
    (should_interrupt total current initElapsed = false →
      total + current ≤ (10 / 100) * initElapsed) ∧
    (should_start_inprocessing total initElapsed = true →
      total < (10 / 100) * initElapsed) := by
  constructor
  · intro h
    simp only [should_interrupt, DETERMINISTIC, Bool.false_eq_true, if_false,
      decide_eq_false_iff_not, not_lt, inprocessingBudgetFraction] at h
    linarith [h]
  · intro h
    simp only [should_start_inprocessing, DETERMINISTIC, Bool.false_eq_true, if_false,
      decide_eq_true_eq, inprocessingBudgetFraction] at h
    linarith [h]

/-- Witness for C9: at 0 s of inprocessing time and 1 s (resp. 2 s) of wall
time the interrupt predicate is quiet and the start predicate permits. -/
theorem C9_witness :
    (should_interrupt 0 0 1 = false ∧ (0 + 0 : ℚ) ≤ (10 / 100) * 1) ∧
    (should_start_inprocessing 0 2 = true ∧ (0 : ℚ) < (10 / 100) * 2) :=
  ⟨⟨by norm_num [should_interrupt, DETERMINISTIC, inprocessingBudgetFraction],
    (C9_budget 0 0 1).1
      (by norm_num [should_interrupt, DETERMINISTIC, inprocessingBudgetFraction])⟩,
   ⟨by norm_num [should_start_inprocessing, DETERMINISTIC, inprocessingBudgetFraction],
    (C9_budget 0 0 2).2
      (by norm_num [should_start_inprocessing, DETERMINISTIC,
        inprocessingBudgetFraction])⟩⟩

/-! ### Insertion sort lemmas (for the BVE queue) -/

theorem insertSortedBy_perm {α : Type} (le : α → α → Bool) (x : α) :
    ∀ l : List α, (insertSortedBy le x l).Perm (x :: l)
  | [] => List.Perm.refl _
  | y :: ys => by
    unfold insertSortedBy
    by_cases h : le x y = true
    · rw [if_pos h]
    · rw [if_neg h]
      exact ((insertSortedBy_perm le x ys).cons y).trans (List.Perm.swap x y ys)

theorem sortListBy_perm {α : Type} (le : α → α → Bool) :
    ∀ l : List α, (sortListBy le l).Perm l
  | [] => List.Perm.refl _
  | x :: xs => by
    unfold sortListBy
    exact (insertSortedBy_perm le x _).trans ((sortListBy_perm le xs).cons x)

theorem insertSortedBy_pairwise {α : Type} {le : α → α → Bool}
    (htot : ∀ a b, le a b = true ∨ le b a = true)
    (htrans : ∀ a b c, le a b = true → le b c = true → le a c = true) (x : α) :
    ∀ l : List α, l.Pairwise (fun a b => le a b = true) →
      (insertSortedBy le x l).Pairwise (fun a b => le a b = true)
  | [], _ => List.pairwise_singleton _ _
  | y :: ys, h => by
    unfold insertSortedBy
    obtain ⟨hy, hys⟩ := List.pairwise_cons.mp h
    by_cases hxy : le x y = true
    · rw [if_pos hxy]
      refine List.pairwise_cons.mpr ⟨?_, h⟩
      intro z hz
      rcases List.mem_cons.mp hz with rfl | hz
      · exact hxy
      · exact htrans x y z hxy (hy z hz)
    · rw [if_neg hxy]
      refine List.pairwise_cons.mpr ⟨?_, insertSortedBy_pairwise htot htrans x ys hys⟩
      intro z hz
      rcases List.mem_cons.mp ((insertSortedBy_perm le x ys).mem_iff.mp hz) with rfl | h1
      · rcases htot z y with h2 | h2
        · exact absurd h2 hxy
        · exact h2
      · exact hy z h1

theorem sortListBy_pairwise {α : Type} {le : α → α → Bool}
    (htot : ∀ a b, le a b = true ∨ le b a = true)
    (htrans : ∀ a b c, le a b = true → le b c = true → le a c = true) :
    ∀ l : List α, (sortListBy le l).Pairwise (fun a b => le a b = true)
  | [] => List.Pairwise.nil
  | x :: xs => by
    unfold sortListBy
    exact insertSortedBy_pairwise htot htrans x _ (sortListBy_pairwise htot htrans xs)

theorem mem_uniqueAux {α : Type} [DecidableEq α] {x : α} :
    ∀ {l seen : List α}, x ∈ uniqueAux seen l ↔ x ∈ l ∧ x ∉ seen
  | [], seen => by simp [uniqueAux]
  | y :: ys, seen => by
    unfold uniqueAux
    by_cases hy : y ∈ seen
    · rw [if_pos hy, mem_uniqueAux]
      constructor
      · exact fun ⟨h1, h2⟩ => ⟨List.mem_cons_of_mem _ h1, h2⟩
      · rintro ⟨h1, h2⟩
        rcases List.mem_cons.mp h1 with rfl | h1
        · exact absurd hy h2
        · exact ⟨h1, h2⟩
    · rw [if_neg hy]
      constructor
      · intro h
        rcases List.mem_cons.mp h with rfl | h
        · exact ⟨List.mem_cons_self _ _, hy⟩
        · obtain ⟨h1, h2⟩ := mem_uniqueAux.mp h
          exact ⟨List.mem_cons_of_mem _ h1, fun hc => h2 (List.mem_cons_of_mem _ hc)⟩
      · rintro ⟨h1, h2⟩
        rcases List.mem_cons.mp h1 with rfl | h1
        · exact List.mem_cons_self _ _
        · by_cases hxy : x = y
          · subst hxy; exact List.mem_cons_self _ _
          · exact List.mem_cons_of_mem _
              (mem_uniqueAux.mpr ⟨h1, by simp [hxy, h2]⟩)

theorem mem_uniqueKeepFirst {α : Type} [DecidableEq α] {x : α} {l : List α} :
    x ∈ uniqueKeepFirst l ↔ x ∈ l := by
  unfold uniqueKeepFirst
  rw [mem_uniqueAux]
  simp

/-- C8, counterexample. In the CNF `{(1), (1), (-2), (-2), (-2)}` variable
1 occurs in 2 clauses and variable 2 in 3 clauses, yet the queue is
`[2, 1]`: the sort key of `Inprocessor::init` is the squared count of the
*positive* literal only (the same positive lookup is multiplied by itself),
so the queue is not ascending in occurrence count. -/
theorem C8_counterexample :
    bve_queue_init [Clause.ofLiterals [⟨1⟩], Clause.ofLiterals [⟨1⟩],
      Clause.ofLiterals [⟨-2⟩], Clause.ofLiterals [⟨-2⟩],
      Clause.ofLiterals [⟨-2⟩]] = [2, 1] ∧
    occurrenceCount [Clause.ofLiterals [⟨1⟩], Clause.ofLiterals [⟨1⟩],
      Clause.ofLiterals [⟨-2⟩], Clause.ofLiterals [⟨-2⟩],
      Clause.ofLiterals [⟨-2⟩]] 1 <
    occurrenceCount [Clause.ofLiterals [⟨1⟩], Clause.ofLiterals [⟨1⟩],
      Clause.ofLiterals [⟨-2⟩], Clause.ofLiterals [⟨-2⟩],
      Clause.ofLiterals [⟨-2⟩]] 2 ∧
    ¬ (bve_queue_init [Clause.ofLiterals [⟨1⟩], Clause.ofLiterals [⟨1⟩],
      Clause.ofLiterals [⟨-2⟩], Clause.ofLiterals [⟨-2⟩],
      Clause.ofLiterals [⟨-2⟩]]).Pairwise
      (fun a b =>
        occurrenceCount [Clause.ofLiterals [⟨1⟩], Clause.ofLiterals [⟨1⟩],
          Clause.ofLiterals [⟨-2⟩], Clause.ofLiterals [⟨-2⟩],
          Clause.ofLiterals [⟨-2⟩]] a ≤
        occurrenceCount [Clause.ofLiterals [⟨1⟩], Clause.ofLiterals [⟨1⟩],
          Clause.ofLiterals [⟨-2⟩], Clause.ofLiterals [⟨-2⟩],
          Clause.ofLiterals [⟨-2⟩]] b) := by
  decide

/-- C8 (amended): the BVE queue contains exactly the variables occurring in
the CNF, in ascending order of the key `(p·p, var id)` where `p` is the
occurrence count of the variable's **positive** literal (the source looks
the positive literal up twice and multiplies) — not the total occurrence
count. -/
theorem C8_bve_queue_characterization (cnf : List Clause) :
    (bve_queue_init cnf).Pairwise (fun a b => bveKeyLE cnf a b = true) ∧
    (∀ v, v ∈ bve_queue_init cnf ↔
      ∃ c ∈ cnf, ∃ l ∈ c.literals, l.id = v) := by
  constructor
  · refine sortListBy_pairwise ?_ ?_ _
    · intro a b
      unfold bveKeyLE
      rcases Nat.lt_trichotomy (bveKey cnf a).1 (bveKey cnf b).1 with h | h | h
      · left; simp [h]
      · rcases Nat.le_total a b with h' | h'
        · left; simp [h, h']
        · right; simp [h.symm, h']
      · right; simp [h]
    · intro a b c hab hbc
      unfold bveKeyLE at hab hbc ⊢
      rw [decide_eq_true_eq] at hab hbc
      rw [decide_eq_true_eq]
      rcases hab with hab | ⟨hab, hab'⟩ <;> rcases hbc with hbc | ⟨hbc, hbc'⟩
      · exact Or.inl (hab.trans hbc)
      · exact Or.inl (hbc ▸ hab)
      · exact Or.inl (hab ▸ hbc)
      · exact Or.inr ⟨hab.trans hbc, hab'.trans hbc'⟩
  · intro v
    unfold bve_queue_init
    rw [(sortListBy_perm _ _).mem_iff, mem_uniqueKeepFirst]
    simp only [List.mem_map, List.mem_flatten]
    constructor
    · rintro ⟨l, ⟨lits, ⟨c, hc, rfl⟩, hmem⟩, rfl⟩
      exact ⟨c, hc, l, hmem, rfl⟩
    · rintro ⟨c, hc, l, hmem, rfl⟩
      exact ⟨l, ⟨c.literals, ⟨c, hc, rfl⟩, hmem⟩, rfl⟩

/-! ### Frame lemmas for `State::assign` -/

theorem set_getElem?_self {α : Type} {l : List α} {i : Nat} {a : α}
    (h : l[i]? = some a) : l.set i a = l := by
  apply List.ext_getElem?
  intro n
  by_cases hn : i = n
  · subst hn
    rw [List.getElem?_set_self (List.getElem?_eq_some.mp h).1, h]
  · rw [List.getElem?_set_ne hn]

/-- Writing a watch list back unchanged is the identity. -/
theorem LiteralWatcher.setAffected_self (w : LiteralWatcher) (lit : Literal) :
    w.setAffected lit (w.affected_clauses lit) = w := by
  by_cases hb : lit.id < w.var_watches.length
  · have hvw : w.var_watches[lit.id]? = some (w.var_watches.getD lit.id default) := by
      rw [List.getD_eq_getElem?_getD, List.getElem?_eq_getElem hb]; rfl
    cases hq : lit.positive <;>
      · simp only [LiteralWatcher.setAffected, LiteralWatcher.affected_clauses, hq,
          Bool.false_eq_true, if_false, if_true]
        rw [set_getElem?_self hvw]
  · cases hq : lit.positive <;>
      · simp only [LiteralWatcher.setAffected, LiteralWatcher.affected_clauses, hq,
          Bool.false_eq_true, if_false, if_true]
        rw [List.set_eq_of_length_le (Nat.le_of_not_lt hb)]

/-- In a duplicate-free list, the `n`-th element does not occur earlier. -/
theorem nodup_getElem_not_mem_take {α : Type} {l : List α} {n : Nat}
    (hnd : l.Nodup) (hn : n < l.length) : l[n] ∉ l.take n := by
  intro hmem
  obtain ⟨j, hj, hje⟩ := List.getElem_of_mem hmem
  have hjn : j < n := by
    have h2 := hj
    rw [List.length_take] at h2
    omega
  rw [List.getElem_take] at hje
  have := (hnd.getElem_inj_iff).mp hje
  omega

/-- One clause-processing step changes neither the assignment vector, the
phases, the variable count, the free list nor the clause count; it only
appends to the unit queue; and it can set the conflict flag only while
leaving the propagator untouched. -/
theorem assignStepClause_frame (lit : Literal) (su : State × UnitPropagator)
    (i : Nat) (cid : ClauseId) :
    (assignStepClause lit su i cid).1.vars = su.1.vars ∧
    (assignStepClause lit su i cid).1.var_phases = su.1.var_phases ∧
    (assignStepClause lit su i cid).1.num_vars = su.1.num_vars ∧
    (assignStepClause lit su i cid).1.clause_database.free_clause_ids
      = su.1.clause_database.free_clause_ids ∧
    (assignStepClause lit su i cid).1.clause_database.clauses.length
      = su.1.clause_database.clauses.length ∧
    (∃ d, (assignStepClause lit su i cid).2.unit_queue = su.2.unit_queue ++ d) ∧
    (∃ d, (assignStepClause lit su i cid).2.units = su.2.units ++ d) ∧
    ((assignStepClause lit su i cid).1.conflict_clause_id.isSome = true →
      su.1.conflict_clause_id.isSome = true ∨
      (assignStepClause lit su i cid).1.conflict_clause_id = some cid) := by
  unfold assignStepClause
  by_cases hbl : (su.1.clause_database.clauses.getD cid default
      ).check_blocking_literal su.1.vars = true
  · rw [if_pos hbl]
    exact ⟨rfl, rfl, rfl, rfl, rfl, ⟨[], by simp⟩, ⟨[], by simp⟩, fun h => Or.inl h⟩
  · rw [if_neg hbl]
    rcases hu : update_clause_spec
      (su.1.clause_database.clauses.getD cid default) (-lit) su.1.vars with ⟨c2, u⟩
    cases u with
    | FoundNewWatch =>
      exact ⟨rfl, rfl, rfl, rfl, List.length_set .., ⟨[], by simp⟩, ⟨[], by simp⟩,
        fun h => Or.inl h⟩
    | Unit v =>
      refine ⟨rfl, rfl, rfl, rfl, List.length_set .., ?_, ?_, fun h => Or.inl h⟩
      · show ∃ d, (su.2.enqueue v cid).unit_queue = su.2.unit_queue ++ d
        unfold UnitPropagator.enqueue
        by_cases hv : v ∈ su.2.units
        · rw [if_pos hv]; exact ⟨[], by simp⟩
        · rw [if_neg hv]; exact ⟨_, rfl⟩
      · show ∃ d, (su.2.enqueue v cid).units = su.2.units ++ d
        unfold UnitPropagator.enqueue
        by_cases hv : v ∈ su.2.units
        · rw [if_pos hv]; exact ⟨[], by simp⟩
        · rw [if_neg hv]; exact ⟨_, rfl⟩
    | Conflict =>
      exact ⟨rfl, rfl, rfl, rfl, List.length_set .., ⟨[], by simp⟩, ⟨[], by simp⟩,
        fun _ => Or.inr rfl⟩
    | Satisfied b =>
      exact ⟨rfl, rfl, rfl, rfl, List.length_set .., ⟨[], by simp⟩, ⟨[], by simp⟩,
        fun h => Or.inl h⟩

/-- The full-step version of `assignStepClause_frame`, including that a
step after a conflict is the identity. -/
theorem assignStep_frame (lit : Literal) (su : State × UnitPropagator) (i : Nat) :
    (assignStep lit su i).1.vars = su.1.vars ∧
    (assignStep lit su i).1.var_phases = su.1.var_phases ∧
    (assignStep lit su i).1.num_vars = su.1.num_vars ∧
    (assignStep lit su i).1.clause_database.free_clause_ids
      = su.1.clause_database.free_clause_ids ∧
    (assignStep lit su i).1.clause_database.clauses.length
      = su.1.clause_database.clauses.length ∧
    (∃ d, (assignStep lit su i).2.unit_queue = su.2.unit_queue ++ d) ∧
    (∃ d, (assignStep lit su i).2.units = su.2.units ++ d) ∧
    (su.1.conflict_clause_id.isSome = true → assignStep lit su i = su) := by
  unfold assignStep
  by_cases hc : su.1.conflict_clause_id.isSome = true
  · rw [if_pos hc]
    exact ⟨rfl, rfl, rfl, rfl, rfl, ⟨[], by simp⟩, ⟨[], by simp⟩, fun _ => rfl⟩
  · rw [if_neg hc]
    obtain ⟨h1, h2, h3, h4, h5, h6, h7, _⟩ := assignStepClause_frame lit su i
      ((su.1.literal_watcher.affected_clauses lit).getD i 0)
    exact ⟨h1, h2, h3, h4, h5, h6, h7, fun h => absurd h hc⟩

/-- The loop of `State::assign` preserves the assignment vector, phases,
variable count, free list and clause count, and only appends to the unit
queue. -/
theorem assignFold_frame (lit : Literal) (s1 : State) (up : UnitPropagator) :
    ∀ n,
      ((List.range n).foldl (assignStep lit) (s1, up)).1.vars = s1.vars ∧
      ((List.range n).foldl (assignStep lit) (s1, up)).1.var_phases = s1.var_phases ∧
      ((List.range n).foldl (assignStep lit) (s1, up)).1.num_vars = s1.num_vars ∧
      ((List.range n).foldl (assignStep lit) (s1, up)).1.clause_database.free_clause_ids
        = s1.clause_database.free_clause_ids ∧
      ((List.range n).foldl (assignStep lit) (s1, up)).1.clause_database.clauses.length
        = s1.clause_database.clauses.length ∧
      (∃ d, ((List.range n).foldl (assignStep lit) (s1, up)).2.unit_queue
        = up.unit_queue ++ d) ∧
      (∃ d, ((List.range n).foldl (assignStep lit) (s1, up)).2.units = up.units ++ d)
  | 0 => ⟨rfl, rfl, rfl, rfl, rfl, ⟨[], by simp⟩, ⟨[], by simp⟩⟩
  | n + 1 => by
    obtain ⟨h1, h2, h3, h4, h5, ⟨d6, h6⟩, ⟨d7, h7⟩⟩ := assignFold_frame lit s1 up n
    rw [List.range_succ, List.foldl_append]
    simp only [List.foldl_cons, List.foldl_nil]
    obtain ⟨g1, g2, g3, g4, g5, ⟨e6, g6⟩, ⟨e7, g7⟩, _⟩ :=
      assignStep_frame lit ((List.range n).foldl (assignStep lit) (s1, up)) n
    exact ⟨g1.trans h1, g2.trans h2, g3.trans h3, g4.trans h4, g5.trans h5,
      ⟨d6 ++ e6, by rw [g6, h6, List.append_assoc]⟩,
      ⟨d7 ++ e7, by rw [g7, h7, List.append_assoc]⟩⟩

theorem take_subset_take_succ {α : Type} (l : List α) (n : Nat) :
    l.take n ⊆ l.take (n + 1) := by
  intro x hx
  have hx2 : x ∈ (l.take (n + 1)).take n := by
    rw [List.take_take, Nat.min_eq_left (by omega)]
    exact hx
  exact List.take_subset n (l.take (n + 1)) hx2

theorem assignStep_eq_of_not_conflict {lit : Literal} {su : State × UnitPropagator}
    {i : Nat} (hc : ¬ su.1.conflict_clause_id.isSome = true) :
    assignStep lit su i
      = assignStepClause lit su i ((su.1.literal_watcher.affected_clauses lit).getD i 0) := by
  unfold assignStep
  rw [if_neg hc]

theorem getElem_mem_take_succ {α : Type} (l : List α) {n : Nat} (h : n < l.length) :
    l[n] ∈ l.take (n + 1) := by
  have hb : n < (l.take (n + 1)).length := by
    rw [List.length_take]; omega
  have he : (l.take (n + 1))[n] = l[n] := List.getElem_take _
  rw [← he]
  exact List.getElem_mem _

/-- When no affected clause finds a new watch, the loop of `State::assign`
leaves the watcher untouched, and clauses outside the processed prefix keep
their contents. -/
theorem assignFold_no_move (lit : Literal) (s1 : State) (up : UnitPropagator)
    (hnodup : (s1.literal_watcher.affected_clauses lit).Nodup)
    (hno : ∀ id ∈ s1.literal_watcher.affected_clauses lit,
      (update_clause_spec (s1.clause_database.clauses.getD id default) (-lit)
        s1.vars).2 ≠ WatchUpdate.FoundNewWatch) :
    ∀ n, n ≤ (s1.literal_watcher.affected_clauses lit).length →
      ((List.range n).foldl (assignStep lit) (s1, up)).1.literal_watcher
        = s1.literal_watcher ∧
      (∀ id, id ∉ (s1.literal_watcher.affected_clauses lit).take n →
        ((List.range n).foldl (assignStep lit) (s1, up)
          ).1.clause_database.clauses.getD id default
          = s1.clause_database.clauses.getD id default)
  | 0, _ => ⟨rfl, fun _ _ => rfl⟩
  | n + 1, hn => by
    have hlt : n < (s1.literal_watcher.affected_clauses lit).length := by omega
    obtain ⟨ihw, ihc⟩ := assignFold_no_move lit s1 up hnodup hno n (by omega)
    have hvars := (assignFold_frame lit s1 up n).1
    have hsub := take_subset_take_succ (s1.literal_watcher.affected_clauses lit) n
    have hgd : (s1.literal_watcher.affected_clauses lit).getD n 0
        = (s1.literal_watcher.affected_clauses lit)[n] :=
      getD_of_getElem? (List.getElem?_eq_getElem hlt) 0
    have hcid_mem : (s1.literal_watcher.affected_clauses lit)[n]
        ∈ (s1.literal_watcher.affected_clauses lit) := List.getElem_mem _
    have hcid_take : (s1.literal_watcher.affected_clauses lit)[n]
        ∈ (s1.literal_watcher.affected_clauses lit).take (n + 1) :=
      getElem_mem_take_succ _ hlt
    have hcid_not : (s1.literal_watcher.affected_clauses lit)[n]
        ∉ (s1.literal_watcher.affected_clauses lit).take n :=
      nodup_getElem_not_mem_take hnodup hlt
    rw [List.range_succ, List.foldl_append]
    simp only [List.foldl_cons, List.foldl_nil]
    by_cases hc : ((List.range n).foldl (assignStep lit) (s1, up)
        ).1.conflict_clause_id.isSome = true
    · rw [(assignStep_frame lit ((List.range n).foldl (assignStep lit) (s1, up))
        n).2.2.2.2.2.2.2 hc]
      exact ⟨ihw, fun id hid => ihc id (fun hm => hid (hsub hm))⟩
    · rw [assignStep_eq_of_not_conflict hc, ihw, hgd]
      have hceq : ((List.range n).foldl (assignStep lit) (s1, up)
          ).1.clause_database.clauses.getD
            ((s1.literal_watcher.affected_clauses lit)[n]) default
          = s1.clause_database.clauses.getD
            ((s1.literal_watcher.affected_clauses lit)[n]) default :=
        ihc _ hcid_not
      unfold assignStepClause
      rw [hceq, hvars]
      by_cases hbl : (s1.clause_database.clauses.getD
          ((s1.literal_watcher.affected_clauses lit)[n]) default
          ).check_blocking_literal s1.vars = true
      · rw [if_pos hbl]
        exact ⟨ihw, fun id hid => ihc id (fun hm => hid (hsub hm))⟩
      · rw [if_neg hbl]
        rcases hu : update_clause_spec (s1.clause_database.clauses.getD
            ((s1.literal_watcher.affected_clauses lit)[n]) default) (-lit) s1.vars
          with ⟨c2, u⟩
        cases u with
        | FoundNewWatch =>
          exact absurd (by rw [hu]) (hno _ hcid_mem)
        | Satisfied b =>
          refine ⟨ihw, fun id hid => ?_⟩
          have hne : (s1.literal_watcher.affected_clauses lit)[n] ≠ id :=
            fun he => hid (he ▸ hcid_take)
          show (((List.range n).foldl (assignStep lit) (s1, up)
            ).1.clause_database.clauses.set _ _).getD id default = _
          rw [getD_set_ne hne, ihc id (fun hm => hid (hsub hm))]
        | Unit v =>
          refine ⟨ihw, fun id hid => ?_⟩
          have hne : (s1.literal_watcher.affected_clauses lit)[n] ≠ id :=
            fun he => hid (he ▸ hcid_take)
          show (((List.range n).foldl (assignStep lit) (s1, up)
            ).1.clause_database.clauses.set _ _).getD id default = _
          rw [getD_set_ne hne, ihc id (fun hm => hid (hsub hm))]
        | Conflict =>
          refine ⟨ihw, fun id hid => ?_⟩
          have hne : (s1.literal_watcher.affected_clauses lit)[n] ≠ id :=
            fun he => hid (he ▸ hcid_take)
          show (((List.range n).foldl (assignStep lit) (s1, up)
            ).1.clause_database.clauses.set _ _).getD id default = _
          rw [getD_set_ne hne, ihc id (fun hm => hid (hsub hm))]

/-! ### Claim C7: assign followed by unassign -/

/-- **C7** (counterexample). The claim says `assign(lit); unassign(lit)`
restores the assignment vector and all watch lists bit-for-bit, up to the
order of elements within a single watch list. On `State::init [[1,2,3]]`
with `assign(-1); unassign(-1)`, the `FoundNewWatch` branch removes clause
0 from variable 1's positive watch list and adds it to variable 3's: the
list for variable 1 goes from `[0]` to `[]`, which is not a permutation of
its previous contents. `unassign` only clears the variable (`state.rs`,
lines 102–104) and restores no watch list. -/
theorem C7_counterexample :
    ((((State.init [Clause.ofLiterals [⟨1⟩, ⟨2⟩, ⟨3⟩]] 3 false).assign ⟨[], []⟩
        ⟨-1⟩).1.unassign ⟨-1⟩).vars
      = (State.init [Clause.ofLiterals [⟨1⟩, ⟨2⟩, ⟨3⟩]] 3 false).vars) ∧
    ¬ (((((State.init [Clause.ofLiterals [⟨1⟩, ⟨2⟩, ⟨3⟩]] 3 false).assign ⟨[], []⟩
        ⟨-1⟩).1.unassign ⟨-1⟩).literal_watcher.var_watches.getD 1 default).pos.Perm
      (((State.init [Clause.ofLiterals [⟨1⟩, ⟨2⟩, ⟨3⟩]] 3 false
        ).literal_watcher.var_watches.getD 1 default).pos)) := by
  decide

/-- **C7** (amended). `assign(lit); unassign(lit)` on a free variable always
restores the assignment vector bit-for-bit; the watch lists are restored
(in fact unchanged) exactly in the absence of `FoundNewWatch` updates,
since only that branch moves a clause between watch lists. Hypotheses: the
variable is in bounds and free, the scanned watch list has no duplicates
and no tombstone, and no affected clause yields `FoundNewWatch` under the
assignment extended with `lit`. -/
theorem C7_assign_unassign (s : State) (up : UnitPropagator) (lit : Literal)
    (hlt : lit.id < s.vars.length)
    (hfree : s.vars.getD lit.id none = none)
    (hnodup : (s.literal_watcher.affected_clauses lit).Nodup)
    (hmark : MARKED_FOR_DELETION ∉ s.literal_watcher.affected_clauses lit)
    (hno : ∀ id ∈ s.literal_watcher.affected_clauses lit,
      (update_clause_spec (s.clause_database.clauses.getD id default) (-lit)
        (s.vars.set lit.id (some lit.positive))).2 ≠ WatchUpdate.FoundNewWatch) :
    (((s.assign up lit).1).unassign lit).vars = s.vars ∧
    (((s.assign up lit).1).unassign lit).literal_watcher = s.literal_watcher := by
  rw [List.getD_eq_getElem?_getD, List.getElem?_eq_getElem hlt, Option.getD_some] at hfree
  have hsome : s.vars[lit.id]? = some none := by
    rw [List.getElem?_eq_getElem hlt, hfree]
  constructor
  · show ((s.assign up lit).1.vars.set lit.id none) = s.vars
    have hv : (s.assign up lit).1.vars = (assignEntry s lit).vars :=
      (assignFold_frame lit (assignEntry s lit) up
        ((assignEntry s lit).literal_watcher.affected_clauses lit).length).1
    rw [hv]
    show ((s.vars.set lit.id (some lit.positive)).set lit.id none) = s.vars
    rw [List.set_set]
    exact set_getElem?_self hsome
  · show (s.assign up lit).1.literal_watcher = s.literal_watcher
    obtain ⟨h1, -⟩ := assignFold_no_move lit (assignEntry s lit) up hnodup hno
      ((assignEntry s lit).literal_watcher.affected_clauses lit).length le_rfl
    show ((List.range ((assignEntry s lit).literal_watcher.affected_clauses lit).length
      ).foldl (assignStep lit) (assignEntry s lit, up)).1.literal_watcher.setAffected lit
      ((((List.range ((assignEntry s lit).literal_watcher.affected_clauses lit).length
        ).foldl (assignStep lit) (assignEntry s lit, up)
        ).1.literal_watcher.affected_clauses lit).filter (· ≠ MARKED_FOR_DELETION))
      = s.literal_watcher
    rw [h1]
    show s.literal_watcher.setAffected lit
      ((s.literal_watcher.affected_clauses lit).filter (· ≠ MARKED_FOR_DELETION))
      = s.literal_watcher
    have hfilter : (s.literal_watcher.affected_clauses lit).filter
        (· ≠ MARKED_FOR_DELETION) = s.literal_watcher.affected_clauses lit :=
      List.filter_eq_self.mpr (fun a ha => decide_eq_true (fun he => hmark (he ▸ ha)))
    rw [hfilter]
    exact LiteralWatcher.setAffected_self s.literal_watcher lit

/-- Witness for C7: `State::init [[1,2]]`, `assign(-1)` (the clause becomes
unit on literal 2, no watch moves), then `unassign(-1)`. -/
theorem C7_witness :
    (((State.init [Clause.ofLiterals [⟨1⟩, ⟨2⟩]] 2 false).assign ⟨[], []⟩ ⟨-1⟩
      ).1.unassign ⟨-1⟩).vars = (State.init [Clause.ofLiterals [⟨1⟩, ⟨2⟩]] 2 false).vars ∧
    (((State.init [Clause.ofLiterals [⟨1⟩, ⟨2⟩]] 2 false).assign ⟨[], []⟩ ⟨-1⟩
      ).1.unassign ⟨-1⟩).literal_watcher
      = (State.init [Clause.ofLiterals [⟨1⟩, ⟨2⟩]] 2 false).literal_watcher :=
  C7_assign_unassign (State.init [Clause.ofLiterals [⟨1⟩, ⟨2⟩]] 2 false) ⟨[], []⟩ ⟨-1⟩
    (by decide) (by decide) (by decide) (by decide) (by decide)

/-! ### Claim C10: the blocking-literal membership invariant -/

/-- `Clause::from(Vec<Literal>)` produces a clause whose blocking literal is
its first literal, hence a member whenever the clause is nonempty. -/
theorem blockingOk_ofLiterals (lits : List Literal) : blockingOk (Clause.ofLiterals lits) := by
  intro hne
  show lits.headD ⟨0⟩ ∈ lits
  cases lits with
  | nil => exact absurd rfl hne
  | cons a l => exact List.mem_cons_self a l

/-- Same for `Clause::from_literals_and_lbd`. -/
theorem blockingOk_from_literals_and_lbd (lits : List Literal) (lbd : Nat) :
    blockingOk (Clause.from_literals_and_lbd lits lbd) := by
  intro hne
  show lits.headD ⟨0⟩ ∈ lits
  cases lits with
  | nil => exact absurd rfl hne
  | cons a l => exact List.mem_cons_self a l

theorem blockingOk_default : blockingOk (default : Clause) :=
  blockingOk_ofLiterals []

/-- `blockingOk` transfers along an equal blocking literal and a
permutation of the literal list. -/
theorem blockingOk_congr {c c' : Clause}
    (hb : c'.blocking_literal = c.blocking_literal)
    (hp : c'.literals.Perm c.literals) (h : blockingOk c) : blockingOk c' := by
  intro hne
  rw [hb]
  refine hp.mem_iff.mpr (h ?_)
  intro he
  exact hne (List.eq_nil_of_length_eq_zero (by rw [hp.length_eq, he]; rfl))

/-- `frontSwap` keeps the blocking literal and permutes the literals. -/
theorem frontSwap_blocking (c : Clause) (invalid : Literal) :
    (frontSwap c invalid).blocking_literal = c.blocking_literal ∧
    (frontSwap c invalid).literals.Perm c.literals := by
  unfold frontSwap
  by_cases h : (c.literals.getD 0 default).id ≠ invalid.id
  · rw [if_pos h]; exact ⟨rfl, listSwap_perm _ 0 1⟩
  · rw [if_neg h]; exact ⟨rfl, List.Perm.refl _⟩

/-- `update_clause_spec` keeps the blocking literal and permutes the
literals of the clause it returns. -/
theorem update_clause_spec_fst (c : Clause) (invalid : Literal) (vars : Literal.Vars) :
    (update_clause_spec c invalid vars).1.blocking_literal = c.blocking_literal ∧
    (update_clause_spec c invalid vars).1.literals.Perm c.literals := by
  obtain ⟨hb, hp⟩ := frontSwap_blocking c invalid
  simp only [update_clause_spec]
  split
  · exact ⟨hb, hp⟩
  · split
    · exact ⟨hb, hp⟩
    · split
      · exact ⟨hb, (listSwap_perm _ 0 _).trans hp⟩
      · exact ⟨hb, hp⟩

/-- The literal reported by the `Satisfied` branch of `update_clause_spec`
is a literal of the returned clause. -/
theorem update_clause_spec_satisfied_mem {c : Clause} {invalid : Literal}
    {vars : Literal.Vars} {c' : Clause} {b : Literal}
    (h : update_clause_spec c invalid vars = (c', WatchUpdate.Satisfied b)) :
    b ∈ c'.literals := by
  simp only [update_clause_spec] at h
  split at h
  · cases congrArg (fun p => p.2) h
  · split at h
    next t heq =>
      injection h with h1 h2
      injection h2 with h3
      subst h1; subst h3
      exact List.drop_subset 2 _ (List.mem_of_find?_eq_some heq)
    next heq =>
      split at h
      · cases congrArg (fun p => p.2) h
      · cases congrArg (fun p => p.2) h

/-- The literal reported by the `Satisfied` branch of the in-repo
`LiteralWatcher::update_clause` is a literal of the returned clause. -/
theorem update_clause_satisfied_mem {w : LiteralWatcher} {c : Clause} {id : ClauseId}
    {invalid : Literal} {vars : Literal.Vars} {w' : LiteralWatcher} {c' : Clause}
    {b : Literal}
    (h : w.update_clause c id invalid vars = (w', c', WatchUpdate.Satisfied b)) :
    b ∈ c'.literals := by
  simp only [LiteralWatcher.update_clause] at h
  split at h
  · cases congrArg (fun p => p.2.2) h
  · split at h
    next t heq =>
      injection h with h1 h2
      injection h2 with h3 h4
      injection h4 with h5
      subst h3; subst h5
      exact (scanStep_inl heq).1
    next i heq =>
      cases congrArg (fun p => p.2.2) h
    next heq =>
      cases congrArg (fun p => p.2.2) h

/-- Every branch of the clause-processing step of `State::assign` writes
back a clause whose blocking literal is among its literals. -/
theorem assignStepClause_blockingOk (lit : Literal) (su : State × UnitPropagator)
    (i : Nat) (cid : ClauseId)
    (h : ∀ c ∈ su.1.clause_database.clauses, blockingOk c) :
    ∀ c ∈ (assignStepClause lit su i cid).1.clause_database.clauses, blockingOk c := by
  have hold : blockingOk (su.1.clause_database.clauses.getD cid default) := by
    rw [List.getD_eq_getElem?_getD]
    cases hq : su.1.clause_database.clauses[cid]? with
    | none => exact blockingOk_default
    | some a =>
      obtain ⟨hlt2, rfl⟩ := List.getElem?_eq_some.mp hq
      exact h _ (List.getElem_mem hlt2)
  unfold assignStepClause
  split
  · exact h
  · rcases hu : update_clause_spec (su.1.clause_database.clauses.getD cid default)
        (-lit) su.1.vars with ⟨c', u⟩
    have hfst := update_clause_spec_fst (su.1.clause_database.clauses.getD cid default)
        (-lit) su.1.vars
    rw [hu] at hfst
    cases u with
    | FoundNewWatch =>
      intro c hc
      have hc' : c ∈ su.1.clause_database.clauses.set cid c' := hc
      rcases List.mem_or_eq_of_mem_set hc' with hm | rfl
      · exact h c hm
      · exact blockingOk_congr hfst.1 hfst.2 hold
    | Satisfied b =>
      intro c hc
      have hc' : c ∈ su.1.clause_database.clauses.set cid
          { c' with blocking_literal := b } := hc
      rcases List.mem_or_eq_of_mem_set hc' with hm | rfl
      · exact h c hm
      · exact fun _ => (update_clause_spec_satisfied_mem hu : b ∈ c'.literals)
    | Unit v =>
      intro c hc
      have hc' : c ∈ su.1.clause_database.clauses.set cid c' := hc
      rcases List.mem_or_eq_of_mem_set hc' with hm | rfl
      · exact h c hm
      · exact blockingOk_congr hfst.1 hfst.2 hold
    | Conflict =>
      intro c hc
      have hc' : c ∈ su.1.clause_database.clauses.set cid c' := hc
      rcases List.mem_or_eq_of_mem_set hc' with hm | rfl
      · exact h c hm
      · exact blockingOk_congr hfst.1 hfst.2 hold

theorem assignStep_blockingOk (lit : Literal) (su : State × UnitPropagator) (i : Nat)
    (h : ∀ c ∈ su.1.clause_database.clauses, blockingOk c) :
    ∀ c ∈ (assignStep lit su i).1.clause_database.clauses, blockingOk c := by
  unfold assignStep
  split
  · exact h
  · exact assignStepClause_blockingOk lit su i _ h

theorem assignFold_blockingOk (lit : Literal) (s1 : State) (up : UnitPropagator)
    (h : ∀ c ∈ s1.clause_database.clauses, blockingOk c) :
    ∀ n, ∀ c ∈ ((List.range n).foldl (assignStep lit) (s1, up)).1.clause_database.clauses,
      blockingOk c
  | 0 => h
  | n + 1 => by
    rw [List.range_succ, List.foldl_append]
    simp only [List.foldl_cons, List.foldl_nil]
    exact assignStep_blockingOk lit _ n (assignFold_blockingOk lit s1 up h n)

/-- `State::assign` preserves the blocking-literal invariant across the
whole clause database. -/
theorem assign_blockingOk (s : State) (up : UnitPropagator) (lit : Literal)
    (h : ∀ c ∈ s.clause_database.clauses, blockingOk c) :
    ∀ c ∈ (s.assign up lit).1.clause_database.clauses, blockingOk c := by
  show ∀ c ∈ ((List.range ((assignEntry s lit).literal_watcher.affected_clauses lit).length
      ).foldl (assignStep lit) (assignEntry s lit, up)).1.clause_database.clauses,
    blockingOk c
  exact assignFold_blockingOk lit (assignEntry s lit) up h _

/-- Every pair collected by `check_satisfied_and_update_blocking_literals`
pairs a clause id with a literal of that clause (found by `find?`). -/
theorem collectBlockings_sound (db : ClauseDatabase) (vars : Literal.Vars) :
    ∀ (ids : List ClauseId) (acc : List (ClauseId × Literal)),
      ∀ p ∈ (collectBlockings db vars ids acc).1,
        p ∈ acc ∨ p.2 ∈ (db.clauses.getD p.1 default).literals
  | [], acc => fun _ hp => Or.inl hp
  | id :: rest, acc => by
    intro p hp
    simp only [collectBlockings] at hp
    split at hp
    · exact collectBlockings_sound db vars rest acc p hp
    · split at hp
      next l hl =>
        rcases collectBlockings_sound db vars rest (acc ++ [(id, l)]) p hp with hin | hmem
        · rcases List.mem_append.mp hin with h1 | h2
          · exact Or.inl h1
          · have hpe : p = (id, l) := by simpa using h2
            refine Or.inr ?_
            rw [hpe]
            exact List.mem_of_find?_eq_some hl
        · exact Or.inr hmem
      next hl => exact Or.inl hp

/-- The write-back fold of `check_satisfied_and_update_blocking_literals`
keeps every clause blocking-sound, provided each written pair is. -/
theorem setBlocking_fold_blockingOk (db : ClauseDatabase) :
    ∀ (pairs : List (ClauseId × Literal)) (cl : List Clause),
      (∀ c ∈ cl, blockingOk c) →
      (∀ id, (cl.getD id default).literals = (db.clauses.getD id default).literals) →
      (∀ p ∈ pairs, p.2 ∈ (db.clauses.getD p.1 default).literals) →
      ∀ c ∈ pairs.foldl
        (fun cl p => cl.set p.1 { cl.getD p.1 default with blocking_literal := p.2 }) cl,
        blockingOk c
  | [], _, hok, _, _ => hok
  | p :: rest, cl, hok, hlits, hgood => by
    simp only [List.foldl_cons]
    refine setBlocking_fold_blockingOk db rest _ ?_ ?_ ?_
    · intro c hc
      rcases List.mem_or_eq_of_mem_set hc with hm | rfl
      · exact hok c hm
      · intro hne
        show p.2 ∈ (cl.getD p.1 default).literals
        rw [hlits p.1]
        exact hgood p (List.mem_cons_self p rest)
    · intro id
      by_cases hid : p.1 = id
      · subst hid
        by_cases hlen : p.1 < cl.length
        · rw [getD_set_self hlen]
          exact hlits p.1
        · rw [List.set_eq_of_length_le (Nat.le_of_not_lt hlen)]
          exact hlits p.1
      · rw [getD_set_ne hid]
        exact hlits id
    · intro q hq
      exact hgood q (List.mem_cons_of_mem p hq)

/-- `check_satisfied_and_update_blocking_literals` preserves the
blocking-literal invariant. -/
theorem check_satisfied_blockingOk (s : State)
    (h : ∀ c ∈ s.clause_database.clauses, blockingOk c) :
    ∀ c ∈ s.check_satisfied_and_update_blocking_literals.1.clause_database.clauses,
      blockingOk c := by
  have hsound := collectBlockings_sound s.clause_database s.vars
    s.clause_database.necessaryIds []
  show ∀ c ∈ (collectBlockings s.clause_database s.vars
      s.clause_database.necessaryIds []).1.foldl
      (fun cl p => cl.set p.1 { cl.getD p.1 default with blocking_literal := p.2 })
      s.clause_database.clauses, blockingOk c
  refine setBlocking_fold_blockingOk s.clause_database _ _ h (fun _ => rfl) ?_
  intro p hp
  rcases hsound p hp with hin | hmem
  · simp at hin
  · exact hmem

/-- The BVE resolvent, when it is not discarded as a tautology, is built by
`Clause::from` and therefore blocking-sound. -/
theorem bve_resolvent_blockingOk {c1 c2 : Clause} {v : VarId} {c : Clause}
    (h : bve_resolvent c1 c2 v = some c) : blockingOk c := by
  simp only [bve_resolvent] at h
  split at h
  · obtain rfl := Option.some.inj h
    exact blockingOk_ofLiterals _
  · cases h

/-- **C10**: for every nonempty clause, `blocking_literal` is one of the
clause's own literals, and this is an invariant of the solver: clause
construction (`Clause::from`, `from_literals_and_lbd`), the BVE resolvent,
the `Satisfied` branch of watch updating (both the spec-modelled
`update_clause_spec` and the in-repo `LiteralWatcher::update_clause`),
`State::assign` as a whole and
`check_satisfied_and_update_blocking_literals` all produce or preserve it;
consequently the `check_blocking_literal` fast path reports a nonempty
clause satisfied only if the clause contains a true literal. -/
theorem C10_blocking_literal_invariant :
    (∀ lits : List Literal, blockingOk (Clause.ofLiterals lits)) ∧
    (∀ (lits : List Literal) (lbd : Nat),
      blockingOk (Clause.from_literals_and_lbd lits lbd)) ∧
    (∀ (c1 c2 : Clause) (v : VarId) (c : Clause),
      bve_resolvent c1 c2 v = some c → blockingOk c) ∧
    (∀ (c : Clause) (invalid : Literal) (vars : Literal.Vars) (c' : Clause) (b : Literal),
      update_clause_spec c invalid vars = (c', WatchUpdate.Satisfied b) →
      blockingOk { c' with blocking_literal := b }) ∧
    (∀ (w : LiteralWatcher) (c : Clause) (id : ClauseId) (invalid : Literal)
      (vars : Literal.Vars) (w' : LiteralWatcher) (c' : Clause) (b : Literal),
      w.update_clause c id invalid vars = (w', c', WatchUpdate.Satisfied b) →
      blockingOk { c' with blocking_literal := b }) ∧
    (∀ (s : State) (up : UnitPropagator) (lit : Literal),
      (∀ c ∈ s.clause_database.clauses, blockingOk c) →
      ∀ c ∈ (s.assign up lit).1.clause_database.clauses, blockingOk c) ∧
    (∀ s : State, (∀ c ∈ s.clause_database.clauses, blockingOk c) →
      ∀ c ∈ s.check_satisfied_and_update_blocking_literals.1.clause_database.clauses,
        blockingOk c) ∧
    (∀ (c : Clause) (vars : Literal.Vars), blockingOk c → c.literals ≠ [] →
      c.check_blocking_literal vars = true → ∃ l ∈ c.literals, l.is_true vars = true) :=
  ⟨blockingOk_ofLiterals,
   fun lits lbd => blockingOk_from_literals_and_lbd lits lbd,
   fun _ _ _ _ h => bve_resolvent_blockingOk h,
   fun c invalid vars cc b h hne => (update_clause_spec_satisfied_mem h : b ∈ cc.literals),
   fun w c id invalid vars w2 cc b h hne => (update_clause_satisfied_mem h : b ∈ cc.literals),
   fun s up lit h => assign_blockingOk s up lit h,
   fun s h => check_satisfied_blockingOk s h,
   fun c vars hok hne hch => ⟨c.blocking_literal, hok hne, hch⟩⟩

/-- Witness for C10: the final consequence at the concrete clause `[1, 2]`
under the assignment setting variable 1 true. -/
theorem C10_witness :
    ∃ l ∈ (Clause.ofLiterals [⟨1⟩, ⟨2⟩]).literals,
      l.is_true [none, some true, none] = true :=
  C10_blocking_literal_invariant.2.2.2.2.2.2.2 (Clause.ofLiterals [⟨1⟩, ⟨2⟩])
    [none, some true, none] (by decide) (by decide) (by decide)

/-! ### Claim C2: small transfer lemmas -/

theorem take_two_eq {α : Type} [Inhabited α] :
    ∀ {l : List α}, 2 ≤ l.length → l.take 2 = [l.getD 0 default, l.getD 1 default]
  | _ :: _ :: _, _ => rfl

theorem getD_mem {α : Type} {l : List α} {k : Nat} (h : k < l.length) (d : α) :
    l.getD k d ∈ l := by
  rw [getD_of_getElem? (List.getElem?_eq_getElem h) d]
  exact List.getElem_mem h

/-- Two literals over the same variable are equal or negations. -/
theorem Literal.eq_or_eq_neg_of_id_eq {l m : Literal} (h : l.id = m.id) :
    l = m ∨ l = -m := by
  rcases Int.natAbs_eq_natAbs_iff.mp h with h' | h'
  · left
    cases l; cases m
    simpa using h'
  · right
    cases l with
    | mk a =>
      cases m with
      | mk b =>
        show Literal.mk a = Literal.mk (-b)
        simpa using h'

theorem Literal.is_true_set_ne {l : Literal} {vars : Literal.Vars} {i : Nat}
    {b : Option Bool} (h : l.id ≠ i) : l.is_true (vars.set i b) = l.is_true vars := by
  unfold Literal.is_true
  rw [getD_set_ne (fun he => h he.symm)]

theorem Literal.is_false_set_ne {l : Literal} {vars : Literal.Vars} {i : Nat}
    {b : Option Bool} (h : l.id ≠ i) : l.is_false (vars.set i b) = l.is_false vars := by
  unfold Literal.is_false
  rw [getD_set_ne (fun he => h he.symm)]

theorem Literal.is_free_set_ne {l : Literal} {vars : Literal.Vars} {i : Nat}
    {b : Option Bool} (h : l.id ≠ i) : l.is_free (vars.set i b) = l.is_free vars := by
  unfold Literal.is_free
  rw [getD_set_ne (fun he => h he.symm)]

theorem Literal.non_false_set_ne {l : Literal} {vars : Literal.Vars} {i : Nat}
    {b : Option Bool} (h : l.id ≠ i) : l.non_false (vars.set i b) = l.non_false vars := by
  unfold Literal.non_false
  rw [getD_set_ne (fun he => h he.symm)]

theorem Literal.is_true_mono {l : Literal} {vars : Literal.Vars} {i : Nat} {b : Bool}
    (hfree : vars.getD i none = none) (h : l.is_true vars = true) :
    l.is_true (vars.set i (some b)) = true := by
  by_cases hid : l.id = i
  · subst hid
    simp only [Literal.is_true, decide_eq_true_eq, List.getD_eq_getElem?_getD] at h
    rw [List.getD_eq_getElem?_getD] at hfree
    rw [hfree] at h
    cases h
  · rw [Literal.is_true_set_ne hid]
    exact h

theorem Literal.is_false_mono {l : Literal} {vars : Literal.Vars} {i : Nat} {b : Bool}
    (hfree : vars.getD i none = none) (h : l.is_false vars = true) :
    l.is_false (vars.set i (some b)) = true := by
  by_cases hid : l.id = i
  · subst hid
    simp only [Literal.is_false, decide_eq_true_eq, List.getD_eq_getElem?_getD] at h
    rw [List.getD_eq_getElem?_getD] at hfree
    rw [hfree] at h
    cases h
  · rw [Literal.is_false_set_ne hid]
    exact h

theorem Literal.is_true_set_self {l : Literal} {vars : Literal.Vars}
    (h : l.id < vars.length) : l.is_true (vars.set l.id (some l.positive)) = true := by
  unfold Literal.is_true
  rw [getD_set_self h]
  simp

theorem Literal.neg_is_false_set_self {l : Literal} {vars : Literal.Vars}
    (h : l.id < vars.length) :
    (-l).is_false (vars.set l.id (some l.positive)) = true := by
  unfold Literal.is_false
  rw [Literal.neg_id, getD_set_self h]
  have hneg : (-l).negative = l.positive := by
    simp [Literal.negative, Literal.positive, Literal.neg_value, neg_lt_zero]
  rw [hneg]
  simp

theorem Literal.is_free_non_false {l : Literal} {vars : Literal.Vars}
    (h : l.is_free vars = true) : l.non_false vars = true := by
  unfold Literal.is_free at h
  unfold Literal.non_false
  simp only [decide_eq_true_eq, List.getD_eq_getElem?_getD] at h
  simp only [decide_eq_true_eq, List.getD_eq_getElem?_getD, h]
  simp

theorem Literal.is_true_non_false {l : Literal} {vars : Literal.Vars}
    (h0 : l.value ≠ 0) (h : l.is_true vars = true) : l.non_false vars = true := by
  unfold Literal.is_true at h
  unfold Literal.non_false
  simp only [decide_eq_true_eq] at h
  rw [h, Literal.negative_eq_not_positive h0]
  simp

/-- `UnitPropagator::enqueue` keeps the units/queue correspondence and
guarantees the enqueued literal is pending. -/
theorem enqueue_units_sound (up : UnitPropagator) (l : Literal) (cid : ClauseId)
    (h : ∀ x ∈ up.units, ∃ p ∈ up.unit_queue, p.1 = x) :
    (∀ x ∈ (up.enqueue l cid).units, ∃ p ∈ (up.enqueue l cid).unit_queue, p.1 = x) ∧
    (∃ p ∈ (up.enqueue l cid).unit_queue, p.1 = l) := by
  unfold UnitPropagator.enqueue
  by_cases hv : l ∈ up.units
  · rw [if_pos hv]
    exact ⟨h, h l hv⟩
  · rw [if_neg hv]
    constructor
    · intro x hx
      rcases List.mem_append.mp hx with hx | hx
      · obtain ⟨p, hp, he⟩ := h x hx
        exact ⟨p, List.mem_append_left _ hp, he⟩
      · have hxl : x = l := by simpa using hx
        subst hxl
        exact ⟨(x, cid), List.mem_append_right _ (by simp), rfl⟩
    · exact ⟨(l, cid), List.mem_append_right _ (by simp), rfl⟩

/-- A pending sole-non-false literal stays pending when the queue is only
appended to. -/
theorem soleNonFalsePending_mono {c : Clause} {vars : Literal.Vars}
    {up up2 : UnitPropagator} (hq : ∃ d, up2.unit_queue = up.unit_queue ++ d)
    (h : soleNonFalsePending c vars up) : soleNonFalsePending c vars up2 := by
  obtain ⟨u, hu, hf, hrest, p, hp, he⟩ := h
  obtain ⟨d, hd⟩ := hq
  exact ⟨u, hu, hf, hrest, p, by rw [hd]; exact List.mem_append_left _ hp, he⟩

/-! ### Claim C2: branch characterization of the spec-modelled watch update -/

/-- The clause swapped in by a `FoundNewWatch` update has its new first
literal free (no watched-clause well-formedness needed: `findIdx?`
returning an index implies the bounds). -/
theorem update_clause_spec_fnw_free {c : Clause} {invalid : Literal} {vars : Literal.Vars}
    {c' : Clause}
    (h : update_clause_spec c invalid vars = (c', WatchUpdate.FoundNewWatch)) :
    (c'.literals.getD 0 default).is_free vars = true := by
  simp only [update_clause_spec] at h
  split at h
  · cases congrArg (fun p => p.2) h
  · split at h
    next t heq => cases congrArg (fun p => p.2) h
    next heq =>
      split at h
      next j hj =>
        injection h with h1 h2
        subst h1
        obtain ⟨hjl, hpj, -⟩ := List.findIdx?_eq_some_iff_getElem.mp hj
        have hl2 : j + 2 < (frontSwap c invalid).literals.length := by
          rw [List.length_drop] at hjl
          omega
        have h0 : 0 < (frontSwap c invalid).literals.length := by omega
        have hsome : (listSwap (frontSwap c invalid).literals 0 (j + 2))[0]?
            = some (((frontSwap c invalid).literals.drop 2)[j]) := by
          rw [listSwap_getElem?_left _ h0 hl2,
            (by omega : j + 2 = 2 + j), ← List.getElem?_drop,
            List.getElem?_eq_getElem hjl]
        show ((listSwap (frontSwap c invalid).literals 0 (j + 2)).getD 0 default
          ).is_free vars = true
        rw [getD_of_getElem? hsome default]
        exact hpj
      next hidx => cases congrArg (fun p => p.2) h

/-- Branch facts of `update_clause_spec` on a well-formed watched clause:
a `FoundNewWatch` leaves both watched positions non-false, a `Unit` exposes
the other watched literal as the only possibly-non-false literal, and a
`Satisfied` reports a true literal of the clause. -/
theorem update_clause_spec_cases {c : Clause} {invalid : Literal} {vars : Literal.Vars}
    {c' : Clause} {u : WatchUpdate}
    (hlen : 2 ≤ c.literals.length) (hmem : invalid ∈ c.literals.take 2)
    (hids : (c.literals.getD 0 default).id ≠ (c.literals.getD 1 default).id)
    (hinv : invalid.is_false vars = true)
    (hvals : ∀ l ∈ c.literals, l.value ≠ 0)
    (h : update_clause_spec c invalid vars = (c', u)) :
    (u = WatchUpdate.FoundNewWatch → bothWatchesNonFalse c' vars) ∧
    (∀ w, u = WatchUpdate.Unit w →
      w = c'.literals.getD 1 default ∧ w.is_false vars = false ∧
      ∀ l ∈ c'.literals, l ≠ w → l.is_false vars = true) ∧
    (∀ t, u = WatchUpdate.Satisfied t → t ∈ c'.literals ∧ t.is_true vars = true) := by
  obtain ⟨fs0, fs1, fs2, fsperm, fsb, fslbd⟩ := frontSwap_spec hlen hmem hids
  have hlenf : (frontSwap c invalid).literals.length = c.literals.length := fsperm.length_eq
  simp only [update_clause_spec] at h
  split at h
  next hcond =>
    injection h with h1 h2
    subst h1
    subst h2
    exact ⟨(fun hfnw => nomatch hfnw), (fun w hw => nomatch hw), (fun t ht => nomatch ht)⟩
  next hcond =>
    have hnf1 : ((frontSwap c invalid).literals.getD 1 default).is_false vars = false := by
      simpa using hcond
    split at h
    next t heq =>
      injection h with h1 h2
      subst h1
      subst h2
      refine ⟨(fun hfnw => nomatch hfnw), (fun w hw => nomatch hw), fun t2 ht2 => ?_⟩
      injection ht2 with ht3
      subst ht3
      have ht4 := List.find?_some heq
      exact ⟨List.drop_subset 2 _ (List.mem_of_find?_eq_some heq), ht4⟩
    next hfind =>
      split at h
      next j hj =>
        injection h with h1 h2
        subst h1
        subst h2
        refine ⟨fun _ => ?_, (fun w hw => nomatch hw), (fun t ht => nomatch ht)⟩
        obtain ⟨hjl, hpj, -⟩ := List.findIdx?_eq_some_iff_getElem.mp hj
        have hl2 : j + 2 < (frontSwap c invalid).literals.length := by
          rw [List.length_drop] at hjl
          omega
        have h0 : 0 < (frontSwap c invalid).literals.length := by omega
        constructor
        · have hsome : (listSwap (frontSwap c invalid).literals 0 (j + 2))[0]?
              = some (((frontSwap c invalid).literals.drop 2)[j]) := by
            rw [listSwap_getElem?_left _ h0 hl2,
              (by omega : j + 2 = 2 + j), ← List.getElem?_drop,
              List.getElem?_eq_getElem hjl]
          show ((listSwap (frontSwap c invalid).literals 0 (j + 2)).getD 0 default
            ).non_false vars = true
          rw [getD_of_getElem? hsome default]
          exact Literal.is_free_non_false hpj
        · have hsome1 : (listSwap (frontSwap c invalid).literals 0 (j + 2))[1]?
              = (frontSwap c invalid).literals[1]? :=
            listSwap_getElem?_other _ (by omega) (by omega)
          show ((listSwap (frontSwap c invalid).literals 0 (j + 2)).getD 1 default
            ).non_false vars = true
          rw [List.getD_eq_getElem?_getD, hsome1, ← List.getD_eq_getElem?_getD,
            Literal.non_false_eq_not_is_false, hnf1]
          rfl
      next hidx =>
        injection h with h1 h2
        subst h1
        subst h2
        refine ⟨(fun hfnw => nomatch hfnw), fun w hw => ?_, (fun t ht => nomatch ht)⟩
        injection hw with hw2
        subst hw2
        refine ⟨rfl, hnf1, ?_⟩
        intro l hl hlw
        obtain ⟨k, hk⟩ := List.mem_iff_getElem?.mp hl
        cases k with
        | zero =>
          rw [fs0] at hk
          injection hk with hk2
          rw [← hk2]
          exact hinv
        | succ k2 =>
          cases k2 with
          | zero => exact absurd (getD_of_getElem? hk default).symm hlw
          | succ k3 =>
            have hmem2 : l ∈ (frontSwap c invalid).literals.drop 2 := by
              refine List.mem_iff_getElem?.mpr ⟨k3, ?_⟩
              rw [List.getElem?_drop]
              have he : 2 + k3 = k3 + 1 + 1 := by omega
              rw [he]
              exact hk
            have htr : l.is_true vars = false := by
              have hq := List.find?_eq_none.mp hfind l hmem2
              simpa using hq
            have hfr : l.is_free vars = false := by
              have hq := List.findIdx?_eq_none_iff.mp hidx l hmem2
              simpa using hq
            exact Literal.not_true_not_free_is_false
              (hvals l (fsperm.mem_iff.mp hl)) htr hfr

/-- A clause-processing step leaves every other clause entry unchanged. -/
theorem assignStepClause_getD_ne (lit : Literal) (su : State × UnitPropagator)
    (i : Nat) {cid id : ClauseId} (hne : cid ≠ id) :
    (assignStepClause lit su i cid).1.clause_database.clauses.getD id default
      = su.1.clause_database.clauses.getD id default := by
  unfold assignStepClause
  split
  · rfl
  · rcases hu : update_clause_spec (su.1.clause_database.clauses.getD cid default)
        (-lit) su.1.vars with ⟨c2, u⟩
    cases u with
    | FoundNewWatch =>
      show (su.1.clause_database.clauses.set cid c2).getD id default = _
      exact getD_set_ne hne _ _
    | Satisfied b =>
      show (su.1.clause_database.clauses.set cid
        { c2 with blocking_literal := b }).getD id default = _
      exact getD_set_ne hne _ _
    | Unit v =>
      show (su.1.clause_database.clauses.set cid c2).getD id default = _
      exact getD_set_ne hne _ _
    | Conflict =>
      show (su.1.clause_database.clauses.set cid c2).getD id default = _
      exact getD_set_ne hne _ _

/-- If the fold has not set the conflict flag after `n + 1` steps, it had
not set it after `n` steps either. -/
theorem assignFold_conflict_earlier (lit : Literal) (s1 : State) (up : UnitPropagator)
    (n : Nat)
    (h : ((List.range (n + 1)).foldl (assignStep lit) (s1, up)).1.conflict_clause_id
      = none) :
    ((List.range n).foldl (assignStep lit) (s1, up)).1.conflict_clause_id = none := by
  rw [List.range_succ, List.foldl_append] at h
  simp only [List.foldl_cons, List.foldl_nil] at h
  cases hx : ((List.range n).foldl (assignStep lit) (s1, up)).1.conflict_clause_id with
  | none => rfl
  | some a =>
    exfalso
    have hc : ((List.range n).foldl (assignStep lit) (s1, up)
        ).1.conflict_clause_id.isSome = true := by
      rw [hx]
      rfl
    rw [(assignStep_frame lit ((List.range n).foldl (assignStep lit) (s1, up))
      n).2.2.2.2.2.2.2 hc] at h
    rw [hx] at h
    cases h

theorem assignFold_conflict_none_of_le (lit : Literal) (s1 : State)
    (up : UnitPropagator) :
    ∀ (m n : Nat), m ≤ n →
      ((List.range n).foldl (assignStep lit) (s1, up)).1.conflict_clause_id = none →
      ((List.range m).foldl (assignStep lit) (s1, up)).1.conflict_clause_id = none
  | m, 0, h, hc => by
    have hm : m = 0 := Nat.le_zero.mp h
    subst hm
    exact hc
  | m, n + 1, h, hc => by
    rcases Nat.eq_or_lt_of_le h with rfl | hlt
    · exact hc
    · exact assignFold_conflict_none_of_le lit s1 up m n (by omega)
        (assignFold_conflict_earlier lit s1 up n hc)

/-! ### Claim C2: the watch list scanned by the loop is stable -/

/-- A clause-processing step either keeps the watcher or (exactly on
`FoundNewWatch`) tombstones position `i` of the scanned list and registers
the new watch. -/
theorem assignStepClause_watcher (lit : Literal) (su : State × UnitPropagator)
    (i : Nat) (cid : ClauseId) :
    (assignStepClause lit su i cid).1.literal_watcher = su.1.literal_watcher ∨
    ((assignStepClause lit su i cid).1.literal_watcher
      = (su.1.literal_watcher.setAffected lit
          ((su.1.literal_watcher.affected_clauses lit).set i MARKED_FOR_DELETION)
        ).add_watch
          ((update_clause_spec (su.1.clause_database.clauses.getD cid default) (-lit)
            su.1.vars).1.literals.getD 0 default) cid
      ∧ (update_clause_spec (su.1.clause_database.clauses.getD cid default) (-lit)
          su.1.vars).2 = WatchUpdate.FoundNewWatch) := by
  unfold assignStepClause
  split
  · exact Or.inl rfl
  · rcases hu : update_clause_spec (su.1.clause_database.clauses.getD cid default)
        (-lit) su.1.vars with ⟨c2, u⟩
    cases u with
    | FoundNewWatch => exact Or.inr ⟨rfl, rfl⟩
    | Satisfied b => exact Or.inl rfl
    | Unit v => exact Or.inl rfl
    | Conflict => exact Or.inl rfl

/-- Along the scan loop the watcher keeps its shape: the per-variable table
keeps its length, and the scanned watch list keeps its length and all
entries at positions not yet processed. -/
theorem assignFold_watcher_tail (lit : Literal) (s1 : State) (up : UnitPropagator)
    (hv : ¬ s1.vars.getD lit.id none = none)
    (hwlt : lit.id < s1.literal_watcher.var_watches.length) :
    ∀ n,
      ((List.range n).foldl (assignStep lit) (s1, up)
        ).1.literal_watcher.var_watches.length
        = s1.literal_watcher.var_watches.length ∧
      (((List.range n).foldl (assignStep lit) (s1, up)
        ).1.literal_watcher.affected_clauses lit).length
        = (s1.literal_watcher.affected_clauses lit).length ∧
      ∀ k, n ≤ k →
        (((List.range n).foldl (assignStep lit) (s1, up)
          ).1.literal_watcher.affected_clauses lit).getD k 0
          = (s1.literal_watcher.affected_clauses lit).getD k 0
  | 0 => ⟨rfl, rfl, fun _ _ => rfl⟩
  | n + 1 => by
    obtain ⟨ihl, ihal, ihk⟩ := assignFold_watcher_tail lit s1 up hv hwlt n
    rw [List.range_succ, List.foldl_append]
    simp only [List.foldl_cons, List.foldl_nil]
    by_cases hc : ((List.range n).foldl (assignStep lit) (s1, up)
        ).1.conflict_clause_id.isSome = true
    · rw [(assignStep_frame lit ((List.range n).foldl (assignStep lit) (s1, up))
        n).2.2.2.2.2.2.2 hc]
      exact ⟨ihl, ihal, fun k hk => ihk k (by omega)⟩
    · rw [assignStep_eq_of_not_conflict hc]
      rcases assignStepClause_watcher lit ((List.range n).foldl (assignStep lit) (s1, up))
          n (((((List.range n).foldl (assignStep lit) (s1, up)
            ).1.literal_watcher.affected_clauses lit)).getD n 0) with hW | ⟨hW, hfnw⟩
      · rw [hW]
        exact ⟨ihl, ihal, fun k hk => ihk k (by omega)⟩
      · have hu2 : update_clause_spec (((List.range n).foldl (assignStep lit) (s1, up)
            ).1.clause_database.clauses.getD
            (((((List.range n).foldl (assignStep lit) (s1, up)
              ).1.literal_watcher.affected_clauses lit)).getD n 0) default) (-lit)
            ((List.range n).foldl (assignStep lit) (s1, up)).1.vars
            = ((update_clause_spec (((List.range n).foldl (assignStep lit) (s1, up)
              ).1.clause_database.clauses.getD
              (((((List.range n).foldl (assignStep lit) (s1, up)
                ).1.literal_watcher.affected_clauses lit)).getD n 0) default) (-lit)
              ((List.range n).foldl (assignStep lit) (s1, up)).1.vars).1,
              WatchUpdate.FoundNewWatch) := by
          rw [← hfnw]
        have hnlf := update_clause_spec_fnw_free hu2
        have hvars : ((List.range n).foldl (assignStep lit) (s1, up)).1.vars = s1.vars :=
          (assignFold_frame lit s1 up n).1
        have hni : ((update_clause_spec (((List.range n).foldl (assignStep lit) (s1, up)
              ).1.clause_database.clauses.getD
              (((((List.range n).foldl (assignStep lit) (s1, up)
                ).1.literal_watcher.affected_clauses lit)).getD n 0) default) (-lit)
              ((List.range n).foldl (assignStep lit) (s1, up)).1.vars
            ).1.literals.getD 0 default).id ≠ lit.id := by
          intro he
          unfold Literal.is_free at hnlf
          simp only [decide_eq_true_eq] at hnlf
          rw [he, hvars] at hnlf
          exact hv hnlf
        have hwl2 : lit.id < ((List.range n).foldl (assignStep lit) (s1, up)
            ).1.literal_watcher.var_watches.length := by
          rw [ihl]
          exact hwlt
        have hread : ((assignStepClause lit ((List.range n).foldl (assignStep lit) (s1, up))
            n (((((List.range n).foldl (assignStep lit) (s1, up)
              ).1.literal_watcher.affected_clauses lit)).getD n 0)
            ).1.literal_watcher.affected_clauses lit)
            = (((List.range n).foldl (assignStep lit) (s1, up)
              ).1.literal_watcher.affected_clauses lit).set n MARKED_FOR_DELETION := by
          rw [hW]
          rw [LiteralWatcher.add_watch_read_other _ _ (Or.inl (fun he => hni he.symm))]
          exact LiteralWatcher.setAffected_read_same _ _ hwl2
        refine ⟨?_, ?_, ?_⟩
        · rw [hW, LiteralWatcher.add_watch_length, LiteralWatcher.setAffected_length]
          exact ihl
        · rw [hread, List.length_set]
          exact ihal
        · intro k hk
          rw [hread, getD_set_ne (by omega : n ≠ k)]
          exact ihk k (by omega)

/-- Before a position of the scanned watch list is processed, the clause
entry it points to is still the original one. -/
theorem assignFold_untouched (lit : Literal) (s1 : State) (up : UnitPropagator)
    (hv : ¬ s1.vars.getD lit.id none = none)
    (hwlt : lit.id < s1.literal_watcher.var_watches.length) :
    ∀ n, n ≤ (s1.literal_watcher.affected_clauses lit).length →
      ∀ id, id ∉ (s1.literal_watcher.affected_clauses lit).take n →
        ((List.range n).foldl (assignStep lit) (s1, up)
          ).1.clause_database.clauses.getD id default
          = s1.clause_database.clauses.getD id default
  | 0, _, id, _ => rfl
  | n + 1, hn, id, hid => by
    have hlt : n < (s1.literal_watcher.affected_clauses lit).length := by omega
    have ih := assignFold_untouched lit s1 up hv hwlt n (by omega)
    have hsub := take_subset_take_succ (s1.literal_watcher.affected_clauses lit) n
    obtain ⟨-, -, ihk⟩ := assignFold_watcher_tail lit s1 up hv hwlt n
    have hgd : (((List.range n).foldl (assignStep lit) (s1, up)
        ).1.literal_watcher.affected_clauses lit).getD n 0
        = (s1.literal_watcher.affected_clauses lit).getD n 0 := ihk n le_rfl
    have hgd2 : (s1.literal_watcher.affected_clauses lit).getD n 0
        = (s1.literal_watcher.affected_clauses lit)[n] :=
      getD_of_getElem? (List.getElem?_eq_getElem hlt) 0
    have hne : (s1.literal_watcher.affected_clauses lit)[n] ≠ id :=
      fun he => hid (he ▸ getElem_mem_take_succ _ hlt)
    rw [List.range_succ, List.foldl_append]
    simp only [List.foldl_cons, List.foldl_nil]
    by_cases hc : ((List.range n).foldl (assignStep lit) (s1, up)
        ).1.conflict_clause_id.isSome = true
    · rw [(assignStep_frame lit ((List.range n).foldl (assignStep lit) (s1, up))
        n).2.2.2.2.2.2.2 hc]
      exact ih id (fun hm => hid (hsub hm))
    · rw [assignStep_eq_of_not_conflict hc]
      rw [assignStepClause_getD_ne lit _ n (by rw [hgd, hgd2]; exact hne)]
      exact ih id (fun hm => hid (hsub hm))

/-! ### Claim C2: one scan step establishes the invariant for its clause -/

/-- The clause entry a step writes keeps its literal count. -/
theorem assignStepClause_entry_length (lit : Literal) (su : State × UnitPropagator)
    (i : Nat) (cid : ClauseId) :
    ((assignStepClause lit su i cid).1.clause_database.clauses.getD cid default
      ).literals.length
      = ((su.1.clause_database.clauses.getD cid default)).literals.length := by
  have hfst := update_clause_spec_fst (su.1.clause_database.clauses.getD cid default)
      (-lit) su.1.vars
  unfold assignStepClause
  split
  · rfl
  · rcases hu : update_clause_spec (su.1.clause_database.clauses.getD cid default)
        (-lit) su.1.vars with ⟨c2, u⟩
    rw [hu] at hfst
    cases u with
    | FoundNewWatch =>
      show (((su.1.clause_database.clauses.set cid c2).getD cid default)
        ).literals.length = _
      by_cases hr : cid < su.1.clause_database.clauses.length
      · rw [getD_set_self hr]
        exact hfst.2.length_eq
      · rw [List.set_eq_of_length_le (Nat.le_of_not_lt hr)]
    | Satisfied b =>
      show (((su.1.clause_database.clauses.set cid
        { c2 with blocking_literal := b }).getD cid default)).literals.length = _
      by_cases hr : cid < su.1.clause_database.clauses.length
      · rw [getD_set_self hr]
        exact hfst.2.length_eq
      · rw [List.set_eq_of_length_le (Nat.le_of_not_lt hr)]
    | Unit v =>
      show (((su.1.clause_database.clauses.set cid c2).getD cid default)
        ).literals.length = _
      by_cases hr : cid < su.1.clause_database.clauses.length
      · rw [getD_set_self hr]
        exact hfst.2.length_eq
      · rw [List.set_eq_of_length_le (Nat.le_of_not_lt hr)]
    | Conflict =>
      show (((su.1.clause_database.clauses.set cid c2).getD cid default)
        ).literals.length = _
      by_cases hr : cid < su.1.clause_database.clauses.length
      · rw [getD_set_self hr]
        exact hfst.2.length_eq
      · rw [List.set_eq_of_length_le (Nat.le_of_not_lt hr)]

/-- Processing a well-formed watched clause either raises the conflict flag
on it, or afterwards the clause satisfies the watch invariant: units/queue
stay in correspondence, and the clause (if unsatisfied) has both watches
non-false or its sole non-false literal pending. -/
theorem assignStepClause_processed (lit : Literal) (su : State × UnitPropagator)
    (i : Nat) (cid : ClauseId)
    (hcid : cid < su.1.clause_database.clauses.length)
    (hblockc : blockingOk (su.1.clause_database.clauses.getD cid default))
    (hlen : 2 ≤ (su.1.clause_database.clauses.getD cid default).literals.length)
    (hmem : (-lit) ∈ (su.1.clause_database.clauses.getD cid default).literals.take 2)
    (hids : ((su.1.clause_database.clauses.getD cid default).literals.getD 0 default).id
      ≠ ((su.1.clause_database.clauses.getD cid default).literals.getD 1 default).id)
    (hinv : (-lit).is_false su.1.vars = true)
    (hvals : ∀ l ∈ (su.1.clause_database.clauses.getD cid default).literals, l.value ≠ 0)
    (hunits : ∀ x ∈ su.2.units, ∃ p ∈ su.2.unit_queue, p.1 = x) :
    (assignStepClause lit su i cid).1.conflict_clause_id = some cid ∨
    ((∀ x ∈ (assignStepClause lit su i cid).2.units,
        ∃ p ∈ (assignStepClause lit su i cid).2.unit_queue, p.1 = x) ∧
     (((assignStepClause lit su i cid).1.clause_database.clauses.getD cid default
        ).literals.any (fun l => l.is_true su.1.vars) = false →
      bothWatchesNonFalse ((assignStepClause lit su i cid).1.clause_database.clauses.getD
        cid default) su.1.vars ∨
      soleNonFalsePending ((assignStepClause lit su i cid).1.clause_database.clauses.getD
        cid default) su.1.vars (assignStepClause lit su i cid).2)) := by
  have hne : (su.1.clause_database.clauses.getD cid default).literals ≠ [] := by
    intro he
    rw [he] at hlen
    simp at hlen
  unfold assignStepClause
  split
  · next hbl =>
    refine Or.inr ⟨hunits, fun hunsat => ?_⟩
    exfalso
    have hany : (su.1.clause_database.clauses.getD cid default).literals.any
        (fun l => l.is_true su.1.vars) = true :=
      List.any_eq_true.mpr ⟨(su.1.clause_database.clauses.getD cid default
        ).blocking_literal, hblockc hne, hbl⟩
    rw [hany] at hunsat
    cases hunsat
  · next hbl =>
    rcases hu : update_clause_spec (su.1.clause_database.clauses.getD cid default)
        (-lit) su.1.vars with ⟨c2, u⟩
    obtain ⟨hfnwC, hunitC, hsatC⟩ := update_clause_spec_cases hlen hmem hids hinv hvals hu
    have hfst := update_clause_spec_fst (su.1.clause_database.clauses.getD cid default)
        (-lit) su.1.vars
    rw [hu] at hfst
    cases u with
    | Conflict => exact Or.inl rfl
    | FoundNewWatch =>
      refine Or.inr ⟨hunits, fun hunsat => Or.inl ?_⟩
      show bothWatchesNonFalse ((su.1.clause_database.clauses.set cid c2).getD cid default)
        su.1.vars
      rw [getD_set_self hcid]
      exact hfnwC rfl
    | Satisfied b =>
      refine Or.inr ⟨hunits, fun hunsat => ?_⟩
      exfalso
      obtain ⟨hbmem, hbtrue⟩ := hsatC b rfl
      have hunsat2 : (((su.1.clause_database.clauses.set cid
          { c2 with blocking_literal := b }).getD cid default)).literals.any
          (fun l => l.is_true su.1.vars) = false := hunsat
      rw [getD_set_self hcid] at hunsat2
      have hany : ({ c2 with blocking_literal := b } : Clause).literals.any
          (fun l => l.is_true su.1.vars) = true :=
        List.any_eq_true.mpr ⟨b, hbmem, hbtrue⟩
      rw [hany] at hunsat2
      cases hunsat2
    | Unit w =>
      obtain ⟨hw1, hwnf, hothers⟩ := hunitC w rfl
      obtain ⟨hus, hpend⟩ := enqueue_units_sound su.2 w cid hunits
      refine Or.inr ⟨hus, fun hunsat => ?_⟩
      have hunsat2 : ((su.1.clause_database.clauses.set cid c2).getD cid default
          ).literals.any (fun l => l.is_true su.1.vars) = false := hunsat
      rw [getD_set_self hcid] at hunsat2
      have hc2len : 2 ≤ c2.literals.length := by
        rw [hfst.2.length_eq]
        exact hlen
      have hwmem : w ∈ c2.literals := by
        rw [hw1]
        exact getD_mem (by omega) default
      by_cases hwt : w.is_true su.1.vars = true
      · exfalso
        have hany : c2.literals.any (fun l => l.is_true su.1.vars) = true :=
          List.any_eq_true.mpr ⟨w, hwmem, hwt⟩
        rw [hany] at hunsat2
        cases hunsat2
      · have hwf : w.is_free su.1.vars = true :=
          Literal.not_false_not_true_is_free
            (hvals w (hfst.2.mem_iff.mp hwmem)) hwnf (by simpa using hwt)
        refine Or.inr ?_
        show soleNonFalsePending ((su.1.clause_database.clauses.set cid c2
          ).getD cid default) su.1.vars (su.2.enqueue w cid)
        rw [getD_set_self hcid]
        refine ⟨w, ?_, hwf, hothers, hpend⟩
        rw [take_two_eq hc2len, hw1]
        simp

/-- Any step keeps the units/queue correspondence. -/
theorem assignStepClause_units_sound (lit : Literal) (su : State × UnitPropagator)
    (i : Nat) (cid : ClauseId)
    (h : ∀ x ∈ su.2.units, ∃ p ∈ su.2.unit_queue, p.1 = x) :
    ∀ x ∈ (assignStepClause lit su i cid).2.units,
      ∃ p ∈ (assignStepClause lit su i cid).2.unit_queue, p.1 = x := by
  unfold assignStepClause
  split
  · exact h
  · rcases hu : update_clause_spec (su.1.clause_database.clauses.getD cid default)
        (-lit) su.1.vars with ⟨c2, u⟩
    cases u with
    | FoundNewWatch => exact h
    | Satisfied b => exact h
    | Conflict => exact h
    | Unit w => exact (enqueue_units_sound su.2 w cid h).1

/-- The scan loop of `State::assign` establishes the watch invariant for
every clause of the scanned prefix, as long as no conflict has been hit. -/
theorem assignFold_processed_good (s : State) (up : UnitPropagator) (lit : Literal)
    (hvlt : lit.id < s.vars.length)
    (hwlt : lit.id < s.literal_watcher.var_watches.length)
    (hnodup : (s.literal_watcher.affected_clauses lit).Nodup)
    (hvals : ∀ c ∈ s.clause_database.clauses, ∀ l ∈ c.literals, l.value ≠ 0)
    (hdist : ∀ c ∈ s.clause_database.clauses, 2 ≤ c.literals.length →
      (c.literals.getD 0 default).id ≠ (c.literals.getD 1 default).id)
    (hblock : ∀ c ∈ s.clause_database.clauses, blockingOk c)
    (hsound : ∀ id ∈ s.literal_watcher.affected_clauses lit,
      id < s.clause_database.clauses.length →
      2 ≤ (s.clause_database.clauses.getD id default).literals.length →
      (-lit) ∈ (s.clause_database.clauses.getD id default).literals.take 2)
    (hunits : ∀ x ∈ up.units, ∃ p ∈ up.unit_queue, p.1 = x) :
    ∀ n, n ≤ (s.literal_watcher.affected_clauses lit).length →
      ((List.range n).foldl (assignStep lit) (assignEntry s lit, up)
        ).1.conflict_clause_id = none →
      (∀ x ∈ ((List.range n).foldl (assignStep lit) (assignEntry s lit, up)).2.units,
        ∃ p ∈ ((List.range n).foldl (assignStep lit) (assignEntry s lit, up)
          ).2.unit_queue, p.1 = x) ∧
      (∀ id ∈ (s.literal_watcher.affected_clauses lit).take n,
        2 ≤ (((List.range n).foldl (assignStep lit) (assignEntry s lit, up)
          ).1.clause_database.clauses.getD id default).literals.length →
        (((List.range n).foldl (assignStep lit) (assignEntry s lit, up)
          ).1.clause_database.clauses.getD id default).literals.any
          (fun l => l.is_true (assignEntry s lit).vars) = false →
        bothWatchesNonFalse (((List.range n).foldl (assignStep lit)
          (assignEntry s lit, up)).1.clause_database.clauses.getD id default)
          (assignEntry s lit).vars ∨
        soleNonFalsePending (((List.range n).foldl (assignStep lit)
          (assignEntry s lit, up)).1.clause_database.clauses.getD id default)
          (assignEntry s lit).vars
          ((List.range n).foldl (assignStep lit) (assignEntry s lit, up)).2)
  | 0, _, _ => ⟨hunits, fun id hid => absurd hid (by simp)⟩
  | n + 1, hn1, hcn1 => by
    have hlt : n < (s.literal_watcher.affected_clauses lit).length := by omega
    have hv1 : ¬ (assignEntry s lit).vars.getD lit.id none = none := by
      show ¬ (s.vars.set lit.id (some lit.positive)).getD lit.id none = none
      rw [getD_set_self hvlt]
      simp
    have hcn : ((List.range n).foldl (assignStep lit) (assignEntry s lit, up)
        ).1.conflict_clause_id = none :=
      assignFold_conflict_earlier lit (assignEntry s lit) up n hcn1
    obtain ⟨ihu, ihg⟩ := assignFold_processed_good s up lit hvlt hwlt hnodup hvals hdist
      hblock hsound hunits n (by omega) hcn
    have hcb : ¬ ((List.range n).foldl (assignStep lit) (assignEntry s lit, up)
        ).1.conflict_clause_id.isSome = true := by
      rw [hcn]
      simp
    obtain ⟨-, -, ihk⟩ := assignFold_watcher_tail lit (assignEntry s lit) up hv1 hwlt n
    have hgd : (((List.range n).foldl (assignStep lit) (assignEntry s lit, up)
        ).1.literal_watcher.affected_clauses lit).getD n 0
        = ((assignEntry s lit).literal_watcher.affected_clauses lit).getD n 0 :=
      ihk n le_rfl
    have hgd2 : ((assignEntry s lit).literal_watcher.affected_clauses lit).getD n 0
        = (s.literal_watcher.affected_clauses lit)[n] :=
      getD_of_getElem? (List.getElem?_eq_getElem hlt) 0
    have hunt := assignFold_untouched lit (assignEntry s lit) up hv1 hwlt n
      (Nat.le_of_lt hlt)
    have hvars : ((List.range n).foldl (assignStep lit) (assignEntry s lit, up)).1.vars
        = (assignEntry s lit).vars := (assignFold_frame lit (assignEntry s lit) up n).1
    have hcn1' : (assignStepClause lit ((List.range n).foldl (assignStep lit)
        (assignEntry s lit, up)) n
        ((s.literal_watcher.affected_clauses lit)[n])).1.conflict_clause_id = none := by
      rw [List.range_succ, List.foldl_append] at hcn1
      simp only [List.foldl_cons, List.foldl_nil] at hcn1
      rw [assignStep_eq_of_not_conflict hcb, hgd, hgd2] at hcn1
      exact hcn1
    have hentry : ((List.range n).foldl (assignStep lit) (assignEntry s lit, up)
        ).1.clause_database.clauses.getD ((s.literal_watcher.affected_clauses lit)[n])
          default
        = s.clause_database.clauses.getD ((s.literal_watcher.affected_clauses lit)[n])
          default :=
      hunt ((s.literal_watcher.affected_clauses lit)[n])
        (nodup_getElem_not_mem_take hnodup hlt)
    rw [List.range_succ, List.foldl_append]
    simp only [List.foldl_cons, List.foldl_nil]
    rw [assignStep_eq_of_not_conflict hcb, hgd, hgd2]
    refine ⟨assignStepClause_units_sound lit _ n _ ihu, ?_⟩
    intro id hid hlen2 hunsat
    rw [List.take_succ, List.getElem?_eq_getElem hlt] at hid
    rcases List.mem_append.mp hid with hidold | hidnew
    · have hne2 : (s.literal_watcher.affected_clauses lit)[n] ≠ id := by
        intro he
        exact (nodup_getElem_not_mem_take hnodup hlt) (he ▸ hidold)
      have hent2 : (assignStepClause lit ((List.range n).foldl (assignStep lit)
          (assignEntry s lit, up)) n ((s.literal_watcher.affected_clauses lit)[n])
          ).1.clause_database.clauses.getD id default
          = ((List.range n).foldl (assignStep lit) (assignEntry s lit, up)
            ).1.clause_database.clauses.getD id default :=
        assignStepClause_getD_ne lit _ n hne2
      rw [hent2] at hlen2 hunsat ⊢
      rcases ihg id hidold hlen2 hunsat with hA | hB
      · exact Or.inl hA
      · refine Or.inr (soleNonFalsePending_mono ?_ hB)
        exact (assignStepClause_frame lit ((List.range n).foldl (assignStep lit)
          (assignEntry s lit, up)) n ((s.literal_watcher.affected_clauses lit)[n])
          ).2.2.2.2.2.1
    · have hide : id = (s.literal_watcher.affected_clauses lit)[n] := by
        simpa using hidnew
      subst hide
      by_cases hrange : (s.literal_watcher.affected_clauses lit)[n]
          < s.clause_database.clauses.length ∧
          2 ≤ ((s.clause_database.clauses.getD
            ((s.literal_watcher.affected_clauses lit)[n]) default)).literals.length
      · have hcidlen : (s.literal_watcher.affected_clauses lit)[n]
            < ((List.range n).foldl (assignStep lit) (assignEntry s lit, up)
              ).1.clause_database.clauses.length := by
          rw [(assignFold_frame lit (assignEntry s lit) up n).2.2.2.2.1]
          exact hrange.1
        have hinv2 : (-lit).is_false (((List.range n).foldl (assignStep lit)
            (assignEntry s lit, up)).1.vars) = true := by
          rw [hvars]
          show (-lit).is_false (s.vars.set lit.id (some lit.positive)) = true
          exact Literal.neg_is_false_set_self hvlt
        rcases assignStepClause_processed lit
            ((List.range n).foldl (assignStep lit) (assignEntry s lit, up)) n
            ((s.literal_watcher.affected_clauses lit)[n])
            hcidlen
            (by rw [hentry]; exact hblock _ (getD_mem hrange.1 default))
            (by rw [hentry]; exact hrange.2)
            (by rw [hentry]
                exact hsound _ (List.getElem_mem hlt) hrange.1 hrange.2)
            (by rw [hentry]; exact hdist _ (getD_mem hrange.1 default) hrange.2)
            hinv2
            (by rw [hentry]; exact hvals _ (getD_mem hrange.1 default))
            ihu
          with hconf | ⟨hstepu, hstepg⟩
        · rw [hconf] at hcn1'
          cases hcn1'
        · rw [hvars] at hstepg
          exact hstepg hunsat
      · exfalso
        have hsteplen := assignStepClause_entry_length lit
          ((List.range n).foldl (assignStep lit) (assignEntry s lit, up)) n
          ((s.literal_watcher.affected_clauses lit)[n])
        rw [hentry] at hsteplen
        rw [hsteplen] at hlen2
        by_cases hr : (s.literal_watcher.affected_clauses lit)[n]
            < s.clause_database.clauses.length
        · exact hrange ⟨hr, hlen2⟩
        · have hdef : s.clause_database.clauses.getD
              ((s.literal_watcher.affected_clauses lit)[n]) default = default := by
            rw [List.getD_eq_getElem?_getD,
              List.getElem?_eq_none (Nat.le_of_not_lt hr)]
            rfl
          rw [hdef] at hlen2
          exact absurd hlen2 (by decide)

/-- A non-false watched literal stays non-false after the assignment,
unless it is the falsified literal itself (then the clause was affected). -/
theorem watchNonFalsePersist (s : State) (lit : Literal) {id : ClauseId} {w : Literal}
    (hvlt : lit.id < s.vars.length) (hv0 : lit.value ≠ 0)
    (hnotneg : (-lit) ∈ (s.clause_database.clauses.getD id default).literals.take 2
      → False)
    (hwmem : w ∈ (s.clause_database.clauses.getD id default).literals.take 2)
    (hnf : w.non_false s.vars = true) :
    w.non_false (s.vars.set lit.id (some lit.positive)) = true := by
  by_cases hki : w.id = lit.id
  · rcases Literal.eq_or_eq_neg_of_id_eq hki with rfl | hkneg
    · exact Literal.is_true_non_false hv0 (Literal.is_true_set_self hvlt)
    · exfalso
      apply hnotneg
      rw [← hkneg]
      exact hwmem
  · rw [Literal.non_false_set_ne hki]
    exact hnf

/-- **C2** (amended): the invariant `State::assign` actually maintains.
After an `assign` of a free, in-bounds, nonzero literal that does not set
the conflict flag — starting from a state whose watch lists are exact
(sound and complete for the first two literals of every live clause),
duplicate-free, with well-formed clauses (nonzero literal values, distinct
watched variables, blocking literal a member) and a unit queue covering the
`units` list — every live *unsatisfied* clause of length ≥ 2 has both
watched positions non-false, or a sole non-false literal that is free, at a
watched position, and pending in the unit queue (possibly under another
antecedent, since `enqueue` drops duplicate literals). Satisfied clauses
are exempt, unlike in the claim. -/
theorem C2_watch_invariant_preserved (s : State) (up : UnitPropagator) (lit : Literal)
    (hvlt : lit.id < s.vars.length)
    (hfree : s.vars.getD lit.id none = none)
    (hv0 : lit.value ≠ 0)
    (hwlt : lit.id < s.literal_watcher.var_watches.length)
    (hnodup : (s.literal_watcher.affected_clauses lit).Nodup)
    (hvals : ∀ c ∈ s.clause_database.clauses, ∀ l ∈ c.literals, l.value ≠ 0)
    (hdist : ∀ c ∈ s.clause_database.clauses, 2 ≤ c.literals.length →
      (c.literals.getD 0 default).id ≠ (c.literals.getD 1 default).id)
    (hblock : ∀ c ∈ s.clause_database.clauses, blockingOk c)
    (hsound : ∀ id ∈ s.literal_watcher.affected_clauses lit,
      id < s.clause_database.clauses.length →
      2 ≤ (s.clause_database.clauses.getD id default).literals.length →
      (-lit) ∈ (s.clause_database.clauses.getD id default).literals.take 2)
    (hcomp : ∀ id, id < s.clause_database.clauses.length →
      id ∉ s.clause_database.free_clause_ids →
      2 ≤ (s.clause_database.clauses.getD id default).literals.length →
      (-lit) ∈ (s.clause_database.clauses.getD id default).literals.take 2 →
      id ∈ s.literal_watcher.affected_clauses lit)
    (hpre : watchInvariant s up)
    (hunits : ∀ x ∈ up.units, ∃ p ∈ up.unit_queue, p.1 = x)
    (hconfl : (s.assign up lit).1.conflict_clause_id = none) :
    watchInvariant (s.assign up lit).1 (s.assign up lit).2 := by
  intro id hlen hlive hlen2 hunsat
  have hcfold : ((List.range ((s.literal_watcher.affected_clauses lit).length)).foldl
      (assignStep lit) (assignEntry s lit, up)).1.conflict_clause_id = none := hconfl
  have hv1 : ¬ (assignEntry s lit).vars.getD lit.id none = none := by
    show ¬ (s.vars.set lit.id (some lit.positive)).getD lit.id none = none
    rw [getD_set_self hvlt]
    simp
  obtain ⟨hgu, hgood⟩ := assignFold_processed_good s up lit hvlt hwlt hnodup hvals hdist
    hblock hsound hunits (s.literal_watcher.affected_clauses lit).length le_rfl hcfold
  have hfv : (s.assign up lit).1.vars = (assignEntry s lit).vars :=
    (assignFold_frame lit (assignEntry s lit) up
      ((s.literal_watcher.affected_clauses lit).length)).1
  have hLF : ((List.range ((s.literal_watcher.affected_clauses lit).length)).foldl
      (assignStep lit) (assignEntry s lit, up)).1.clause_database.clauses.length
      = s.clause_database.clauses.length :=
    (assignFold_frame lit (assignEntry s lit) up
      ((s.literal_watcher.affected_clauses lit).length)).2.2.2.2.1
  have hFF : ((List.range ((s.literal_watcher.affected_clauses lit).length)).foldl
      (assignStep lit) (assignEntry s lit, up)).1.clause_database.free_clause_ids
      = s.clause_database.free_clause_ids :=
    (assignFold_frame lit (assignEntry s lit) up
      ((s.literal_watcher.affected_clauses lit).length)).2.2.2.1
  have hliveF : id < ((List.range ((s.literal_watcher.affected_clauses lit).length)).foldl
      (assignStep lit) (assignEntry s lit, up)).1.clause_database.clauses.length ∧
      id ∉ ((List.range ((s.literal_watcher.affected_clauses lit).length)).foldl
        (assignStep lit) (assignEntry s lit, up)).1.clause_database.free_clause_ids :=
    hlive
  have hlenS : id < s.clause_database.clauses.length := by
    rw [← hLF]
    exact hliveF.1
  have hnfree : id ∉ s.clause_database.free_clause_ids := by
    rw [← hFF]
    exact hliveF.2
  have hliveS : s.clause_database.live id := ⟨hlenS, hnfree⟩
  rw [hfv] at hunsat
  have hlen2' : 2 ≤ (((List.range ((s.literal_watcher.affected_clauses lit).length)
      ).foldl (assignStep lit) (assignEntry s lit, up)).1.clause_database.clauses.getD id
      default).literals.length := hlen2
  have hunsat2 : (((List.range ((s.literal_watcher.affected_clauses lit).length)
      ).foldl (assignStep lit) (assignEntry s lit, up)).1.clause_database.clauses.getD id
      default).literals.any (fun l => l.is_true (assignEntry s lit).vars) = false :=
    hunsat
  rw [hfv]
  show bothWatchesNonFalse (((List.range ((s.literal_watcher.affected_clauses lit).length)
      ).foldl (assignStep lit) (assignEntry s lit, up)).1.clause_database.clauses.getD id
      default) (assignEntry s lit).vars ∨
    soleNonFalsePending (((List.range ((s.literal_watcher.affected_clauses lit).length)
      ).foldl (assignStep lit) (assignEntry s lit, up)).1.clause_database.clauses.getD id
      default) (assignEntry s lit).vars
      ((List.range ((s.literal_watcher.affected_clauses lit).length)).foldl
        (assignStep lit) (assignEntry s lit, up)).2
  by_cases hidA : id ∈ s.literal_watcher.affected_clauses lit
  · have hidA' : id ∈ (s.literal_watcher.affected_clauses lit).take
        (s.literal_watcher.affected_clauses lit).length := by
      rw [List.take_length]
      exact hidA
    exact hgood id hidA' hlen2' hunsat2
  · have hentry : ((List.range ((s.literal_watcher.affected_clauses lit).length)).foldl
        (assignStep lit) (assignEntry s lit, up)).1.clause_database.clauses.getD id
          default
        = s.clause_database.clauses.getD id default :=
      assignFold_untouched lit (assignEntry s lit) up hv1 hwlt
        (s.literal_watcher.affected_clauses lit).length le_rfl id
        (fun hm => hidA (List.take_subset _ _ hm))
    rw [hentry] at hlen2' hunsat2 ⊢
    have hpreunsat : (s.clause_database.clauses.getD id default).literals.any
        (fun l => l.is_true s.vars) = false := by
      rw [List.any_eq_false] at hunsat2 ⊢
      intro x hx
      by_cases hxt : x.is_true s.vars = true
      · exact absurd (show x.is_true (assignEntry s lit).vars = true from
          Literal.is_true_mono hfree hxt) (hunsat2 x hx)
      · simpa using hxt
    have hnotneg : (-lit) ∈ (s.clause_database.clauses.getD id default).literals.take 2
        → False :=
      fun hm => hidA (hcomp id hlenS hnfree hlen2' hm)
    rcases hpre id hlenS hliveS hlen2' hpreunsat with hA | hB
    · left
      refine ⟨?_, ?_⟩
      · exact watchNonFalsePersist s lit hvlt hv0 hnotneg
          (by rw [take_two_eq hlen2']; exact List.mem_cons_self _ _) hA.1
      · exact watchNonFalsePersist s lit hvlt hv0 hnotneg
          (by rw [take_two_eq hlen2']
              exact List.mem_cons_of_mem _ (List.mem_cons_self _ _)) hA.2
    · obtain ⟨u, hu2, huf, hrest, p, hp, hpe⟩ := hB
      by_cases hui : u.id = lit.id
      · rcases Literal.eq_or_eq_neg_of_id_eq hui with heq | hun
        · exfalso
          have hut : u.is_true ((assignEntry s lit).vars) = true := by
            rw [heq]
            exact Literal.is_true_set_self hvlt
          have hany : (s.clause_database.clauses.getD id default).literals.any
              (fun l => l.is_true (assignEntry s lit).vars) = true :=
            List.any_eq_true.mpr ⟨u, List.take_subset 2 _ hu2, hut⟩
          rw [hany] at hunsat2
          cases hunsat2
        · exfalso
          apply hnotneg
          rw [← hun]
          exact hu2
      · right
        refine ⟨u, hu2, ?_, ?_, p, ?_, hpe⟩
        · show u.is_free (s.vars.set lit.id (some lit.positive)) = true
          rw [Literal.is_free_set_ne hui]
          exact huf
        · intro l hl hlu
          show l.is_false (s.vars.set lit.id (some lit.positive)) = true
          exact Literal.is_false_mono hfree (hrest l hl hlu)
        · obtain ⟨d, hd⟩ := (assignFold_frame lit (assignEntry s lit) up
            ((s.literal_watcher.affected_clauses lit).length)).2.2.2.2.2.1
          rw [hd]
          exact List.mem_append_left _ hp

/-- Witness for C2: assigning literal 1 against the clause `[-1, 2, 3]`
moves the watch to the free literal 3 and the invariant holds afterwards. -/
theorem C2_witness :
    watchInvariant ((State.init [Clause.ofLiterals [⟨-1⟩, ⟨2⟩, ⟨3⟩]] 3 false).assign
      ⟨[], []⟩ ⟨1⟩).1
      ((State.init [Clause.ofLiterals [⟨-1⟩, ⟨2⟩, ⟨3⟩]] 3 false).assign ⟨[], []⟩ ⟨1⟩).2 :=
  C2_watch_invariant_preserved (State.init [Clause.ofLiterals [⟨-1⟩, ⟨2⟩, ⟨3⟩]] 3 false)
    ⟨[], []⟩ ⟨1⟩ (by decide) (by decide) (by decide) (by decide) (by decide) (by decide)
    (by decide) (by decide) (by decide)
    (by
      intro id h1
      have hl1 : (State.init [Clause.ofLiterals [⟨-1⟩, ⟨2⟩, ⟨3⟩]] 3 false
          ).clause_database.clauses.length = 1 := by decide
      rw [hl1] at h1
      have hid0 : id = 0 := by omega
      subst hid0
      decide)
    (by decide) (by decide) (by decide)

/-! ### Claim C4: counting lemmas and the trail walk -/

theorem dlCount_append (trail : Trail) (a b : List VarId) :
    dlCount trail (a ++ b) = dlCount trail a + dlCount trail b := by
  unfold dlCount
  rw [List.filter_append, List.length_append]

theorem dlCount_cons_dl (trail : Trail) {v : VarId} (b : List VarId)
    (h : trail.var_decision_level.getD v 0 = trail.decision_level) :
    dlCount trail (v :: b) = dlCount trail b + 1 := by
  unfold dlCount
  rw [List.filter_cons, if_pos (by simpa using h)]
  simp [Nat.add_comm]

theorem dlCount_cons_ne (trail : Trail) {v : VarId} (b : List VarId)
    (h : ¬ trail.var_decision_level.getD v 0 = trail.decision_level) :
    dlCount trail (v :: b) = dlCount trail b := by
  unfold dlCount
  rw [List.filter_cons, if_neg (by simpa using h)]

theorem dlCount_pos_of_mem (trail : Trail) {v : VarId} {seen : List VarId}
    (hm : v ∈ seen) (h : trail.var_decision_level.getD v 0 = trail.decision_level) :
    1 ≤ dlCount trail seen := by
  unfold dlCount
  have : v ∈ seen.filter
      (fun v => trail.var_decision_level.getD v 0 = trail.decision_level) :=
    List.mem_filter.mpr ⟨hm, by simpa using h⟩
  exact List.length_pos.mpr (List.ne_nil_of_mem this)

theorem dlCount_filter_ne (trail : Trail) :
    ∀ (seen : List VarId) (v : VarId), seen.Nodup → v ∈ seen →
      trail.var_decision_level.getD v 0 = trail.decision_level →
      dlCount trail (seen.filter (· ≠ v)) = dlCount trail seen - 1
  | [], v, _, hm, _ => absurd hm (by simp)
  | x :: xs, v, hnd, hm, hdl => by
    obtain ⟨hx, hxs⟩ := List.nodup_cons.mp hnd
    rcases List.mem_cons.mp hm with rfl | hm2
    · rw [List.filter_cons, if_neg (by simp)]
      have hfe : xs.filter (· ≠ v) = xs :=
        List.filter_eq_self.mpr (fun a ha => by
          simp only [decide_eq_true_eq]
          intro he
          exact hx (he ▸ ha))
      rw [hfe, dlCount_cons_dl trail xs hdl]
      omega
    · have hxv : x ≠ v := fun he => hx (he ▸ hm2)
      rw [List.filter_cons, if_pos (by simpa using hxv)]
      by_cases hxdl : trail.var_decision_level.getD x 0 = trail.decision_level
      · rw [dlCount_cons_dl trail _ hxdl, dlCount_cons_dl trail _ hxdl,
          dlCount_filter_ne trail xs v hxs hm2 hdl]
        have : 1 ≤ dlCount trail xs := dlCount_pos_of_mem trail hm2 hdl
        omega
      · rw [dlCount_cons_ne trail _ hxdl, dlCount_cons_ne trail _ hxdl]
        exact dlCount_filter_ne trail xs v hxs hm2 hdl

/-- The trail walk of `analyse_conflict`: the returned position is the
topmost seen position at or below the start. -/
theorem findSeenPos_spec (stack : List Assignment) (seen : List VarId) :
    ∀ p pos, findSeenPos stack seen p = some pos →
      pos ≤ p ∧ (stack.getD pos default).literal.id ∈ seen ∧
      ∀ k, pos < k → k ≤ p → (stack.getD k default).literal.id ∉ seen
  | 0, pos, h => by
    unfold findSeenPos at h
    split at h
    · next hmem =>
      injection h with h1
      subst h1
      exact ⟨le_rfl, hmem, fun k hk1 hk2 => by omega⟩
    · cases h
  | p + 1, pos, h => by
    unfold findSeenPos at h
    split at h
    · next hmem =>
      injection h with h1
      subst h1
      exact ⟨le_rfl, hmem, fun k hk1 hk2 => by omega⟩
    · next hmem =>
      obtain ⟨h1, h2, h3⟩ := findSeenPos_spec stack seen p pos h
      refine ⟨by omega, h2, fun k hk1 hk2 => ?_⟩
      rcases Nat.eq_or_lt_of_le hk2 with rfl | hk3
      · exact hmem
      · exact h3 k hk1 (by omega)

theorem two_le_count {α : Type} [DecidableEq α] :
    ∀ (l : List α) (i j : Nat) (a : α), i < j → l[i]? = some a → l[j]? = some a →
      2 ≤ l.count a
  | [], i, j, a, _, hi, _ => by simp at hi
  | x :: xs, 0, j, a, hij, hi, hj => by
    simp only [List.getElem?_cons_zero, Option.some.injEq] at hi
    subst hi
    obtain ⟨j2, rfl⟩ : ∃ j2, j = j2 + 1 := ⟨j - 1, by omega⟩
    simp only [List.getElem?_cons_succ] at hj
    have hmem : x ∈ xs := by
      rcases List.getElem?_eq_some.mp hj with ⟨hb, he⟩
      rw [← he]
      exact List.getElem_mem hb
    rw [List.count_cons_self]
    have : 1 ≤ xs.count x := List.one_le_count_iff.mpr hmem
    omega
  | x :: xs, i + 1, j, a, hij, hi, hj => by
    obtain ⟨j2, rfl⟩ : ∃ j2, j = j2 + 1 := ⟨j - 1, by omega⟩
    simp only [List.getElem?_cons_succ] at hi hj
    have := two_le_count xs i j2 a (by omega) hi hj
    rw [List.count_cons]
    omega

/-- One literal of the reason clause, unrolled. -/
theorem analyseClauseLits_cons (trail : Trail) (cur : Option Literal)
    (acc : List VarId × Int × List Literal) (l : Literal) (ls : List Literal) :
    analyseClauseLits trail cur acc (l :: ls)
      = analyseClauseLits trail cur
        (if skipLit cur l then acc
         else if l.id ∉ acc.1 ∧ 0 < trail.var_decision_level.getD l.id 0 then
           if trail.var_decision_level.getD l.id 0 = trail.decision_level then
             (acc.1 ++ [l.id], acc.2.1 + 1, acc.2.2)
           else (acc.1 ++ [l.id], acc.2.1, acc.2.2 ++ [l])
         else acc) ls := rfl

/-- What the literal loop of `analyse_conflict` does to the marked set, the
current-level count and the learned clause. `Q` is any property delivered
by the caller for each non-skipped literal of the clause. -/
theorem analyseClauseLits_spec (trail : Trail) (cur : Option Literal)
    (Q : VarId → Prop) :
    ∀ (lits : List Literal) (acc : List VarId × Int × List Literal),
      (∀ l ∈ lits, skipLit cur l = true ∨ Q l.id) →
      (∃ d, (analyseClauseLits trail cur acc lits).1 = acc.1 ++ d ∧
        ∀ v ∈ d, Q v ∧ 0 < trail.var_decision_level.getD v 0) ∧
      (acc.1.Nodup → (analyseClauseLits trail cur acc lits).1.Nodup) ∧
      (acc.2.1 = (dlCount trail acc.1 : Int) →
        (analyseClauseLits trail cur acc lits).2.1
          = (dlCount trail (analyseClauseLits trail cur acc lits).1 : Int)) ∧
      (∃ d2, (analyseClauseLits trail cur acc lits).2.2 = acc.2.2 ++ d2 ∧
        ∀ l ∈ d2, Q l.id ∧ 0 < trail.var_decision_level.getD l.id 0 ∧
          trail.var_decision_level.getD l.id 0 ≠ trail.decision_level) ∧
      (∀ l ∈ lits, skipLit cur l = false →
        0 < trail.var_decision_level.getD l.id 0 →
        l.id ∈ (analyseClauseLits trail cur acc lits).1)
  | [], acc, _ =>
    ⟨⟨[], by show acc.1 = acc.1 ++ []; simp, by simp⟩, fun h => h, fun h => h,
     ⟨[], by show acc.2.2 = acc.2.2 ++ []; simp, by simp⟩,
     fun l hl => absurd hl (by simp)⟩
  | l :: ls, acc, hc => by
    rw [analyseClauseLits_cons]
    have hctail : ∀ l2 ∈ ls, skipLit cur l2 = true ∨ Q l2.id :=
      fun l2 hl2 => hc l2 (List.mem_cons_of_mem _ hl2)
    by_cases hskip : skipLit cur l = true
    · rw [if_pos hskip]
      obtain ⟨ha, hb, hcnt, hd, he⟩ := analyseClauseLits_spec trail cur Q ls acc hctail
      refine ⟨ha, hb, hcnt, hd, fun l2 hl2 hsk hpos => ?_⟩
      rcases List.mem_cons.mp hl2 with rfl | hl3
      · rw [hskip] at hsk
        cases hsk
      · exact he l2 hl3 hsk hpos
    · rw [if_neg hskip]
      have hQl : Q l.id := by
        rcases hc l (List.mem_cons_self _ _) with h | h
        · exact absurd h hskip
        · exact h
      by_cases hadd : l.id ∉ acc.1 ∧ 0 < trail.var_decision_level.getD l.id 0
      · rw [if_pos hadd]
        by_cases hdl : trail.var_decision_level.getD l.id 0 = trail.decision_level
        · rw [if_pos hdl]
          obtain ⟨⟨d, hdeq, hdq⟩, hb, hcnt, ⟨d2, hd2eq, hd2q⟩, he⟩ :=
            analyseClauseLits_spec trail cur Q ls
              (acc.1 ++ [l.id], acc.2.1 + 1, acc.2.2) hctail
          refine ⟨⟨l.id :: d, by rw [hdeq]; simp, ?_⟩, ?_, ?_, ⟨d2, hd2eq, hd2q⟩,
            ?_⟩
          · intro v hv
            rcases List.mem_cons.mp hv with rfl | hv2
            · exact ⟨hQl, hadd.2⟩
            · exact hdq v hv2
          · intro hnd
            exact hb (by
              rw [List.nodup_append]
              exact ⟨hnd, List.nodup_singleton _,
                by simpa using fun he2 => hadd.1 he2⟩)
          · intro hrel
            refine hcnt ?_
            show acc.2.1 + 1 = (dlCount trail (acc.1 ++ [l.id]) : Int)
            have hnil : dlCount trail [] = 0 := rfl
            rw [dlCount_append, dlCount_cons_dl trail [] hdl, hnil]
            push_cast
            omega
          · intro l2 hl2 hsk hpos
            rcases List.mem_cons.mp hl2 with rfl | hl3
            · rw [hdeq]
              exact List.mem_append_left _ (List.mem_append_right _ (by simp))
            · exact he l2 hl3 hsk hpos
        · rw [if_neg hdl]
          obtain ⟨⟨d, hdeq, hdq⟩, hb, hcnt, ⟨d2, hd2eq, hd2q⟩, he⟩ :=
            analyseClauseLits_spec trail cur Q ls
              (acc.1 ++ [l.id], acc.2.1, acc.2.2 ++ [l]) hctail
          refine ⟨⟨l.id :: d, by rw [hdeq]; simp, ?_⟩, ?_, ?_,
            ⟨l :: d2, by rw [hd2eq]; simp, ?_⟩, ?_⟩
          · intro v hv
            rcases List.mem_cons.mp hv with rfl | hv2
            · exact ⟨hQl, hadd.2⟩
            · exact hdq v hv2
          · intro hnd
            exact hb (by
              rw [List.nodup_append]
              exact ⟨hnd, List.nodup_singleton _,
                by simpa using fun he2 => hadd.1 he2⟩)
          · intro hrel
            refine hcnt ?_
            show acc.2.1 = (dlCount trail (acc.1 ++ [l.id]) : Int)
            have hnil : dlCount trail [] = 0 := rfl
            rw [dlCount_append, dlCount_cons_ne trail [] hdl, hnil]
            push_cast
            omega
          · intro l2 hl2
            rcases List.mem_cons.mp hl2 with rfl | hl3
            · exact ⟨hQl, hadd.2, hdl⟩
            · exact hd2q l2 hl3
          · intro l2 hl2 hsk hpos
            rcases List.mem_cons.mp hl2 with rfl | hl3
            · rw [hdeq]
              exact List.mem_append_left _ (List.mem_append_right _ (by simp))
            · exact he l2 hl3 hsk hpos
      · rw [if_neg hadd]
        obtain ⟨ha, hb, hcnt, hd, he⟩ := analyseClauseLits_spec trail cur Q ls acc hctail
        refine ⟨ha, hb, hcnt, hd, fun l2 hl2 hsk hpos => ?_⟩
        rcases List.mem_cons.mp hl2 with rfl | hl3
        · have hin : l2.id ∈ acc.1 := by
            by_contra hni
            exact hadd ⟨hni, hpos⟩
          obtain ⟨d, hdeq, -⟩ := ha
          rw [hdeq]
          exact List.mem_append_left _ hin
        · exact he l2 hl3 hsk hpos

/-- The first-UIP loop invariant: on a well-formed trail, a successful run
of `analysisLoop` returns a learned clause whose literals all sit at
positive levels below the current one, and a current literal at the
current decision level. -/
theorem analysisLoop_spec (trail : Trail) (db : ClauseDatabase)
    (hdl : 0 < trail.decision_level)
    (hlvl_le : ∀ v, trail.var_decision_level.getD v 0 ≤ trail.decision_level)
    (hlvl_stack : ∀ i, i < trail.assignment_stack.length →
      trail.var_decision_level.getD
        ((trail.assignment_stack.getD i default).literal.id) 0
        = (trail.assignment_stack.getD i default).decision_level)
    (hmono : ∀ j, j < trail.assignment_stack.length → ∀ i, i ≤ j →
      (trail.assignment_stack.getD i default).decision_level
        ≤ (trail.assignment_stack.getD j default).decision_level)
    (hreason : ∀ i, i < trail.assignment_stack.length → ∀ r,
      (trail.assignment_stack.getD i default).reason = AssignmentReason.Forced r →
      ∀ l ∈ (db.clauses.getD r default).literals,
        l.id ≠ (trail.assignment_stack.getD i default).literal.id →
        ∃ j, j < i ∧ (trail.assignment_stack.getD j default).literal.id = l.id) :
    ∀ fuel st stOut,
      st.count = (dlCount trail st.seen : Int) →
      st.seen.Nodup →
      (∀ v ∈ st.seen, ∃ j, j ≤ st.trail_position ∧
        j < trail.assignment_stack.length ∧
        (trail.assignment_stack.getD j default).literal.id = v) →
      (∀ l ∈ st.learned_clause, 0 < trail.var_decision_level.getD l.id 0 ∧
        trail.var_decision_level.getD l.id 0 ≠ trail.decision_level) →
      (∀ l ∈ (db.clauses.getD st.current_reason_clause_id default).literals,
        skipLit st.current_literal l = true ∨
        ∃ j, j ≤ st.trail_position ∧ j < trail.assignment_stack.length ∧
          (trail.assignment_stack.getD j default).literal.id = l.id) →
      st.trail_position < trail.assignment_stack.length →
      ((1 : Int) ≤ st.count ∨
        ∃ l ∈ (db.clauses.getD st.current_reason_clause_id default).literals,
          skipLit st.current_literal l = false ∧
          trail.var_decision_level.getD l.id 0 = trail.decision_level) →
      analysisLoop trail db fuel st = some stOut →
      (∀ l ∈ stOut.learned_clause, 0 < trail.var_decision_level.getD l.id 0 ∧
        trail.var_decision_level.getD l.id 0 ≠ trail.decision_level) ∧
      (∃ c, stOut.current_literal = some c ∧
        trail.var_decision_level.getD c.id 0 = trail.decision_level)
  | 0, st, stOut, _, _, _, _, _, _, _, h => by cases h
  | fuel + 1, st, stOut, hcount, hnodup, hstackseen, hlearned, hclause, htp, hcap, h
      => by
    obtain ⟨⟨dA, hdA, hdAq⟩, hnodupA', hcountA', ⟨d2A, hd2A, hd2Aq⟩, hmemA⟩ :=
      analyseClauseLits_spec trail st.current_literal
        (fun v => ∃ j, j ≤ st.trail_position ∧
          j < trail.assignment_stack.length ∧
          (trail.assignment_stack.getD j default).literal.id = v)
        (db.clauses.getD st.current_reason_clause_id default).literals
        (st.seen, st.count, st.learned_clause) hclause
    have hnodupA : (analyseClauseLits trail st.current_literal
        (st.seen, st.count, st.learned_clause)
        (db.clauses.getD st.current_reason_clause_id default).literals).1.Nodup :=
      hnodupA' hnodup
    have hcountA : (analyseClauseLits trail st.current_literal
        (st.seen, st.count, st.learned_clause)
        (db.clauses.getD st.current_reason_clause_id default).literals).2.1
        = (dlCount trail (analyseClauseLits trail st.current_literal
          (st.seen, st.count, st.learned_clause)
          (db.clauses.getD st.current_reason_clause_id default).literals).1 : Int) :=
      hcountA' hcount
    have hseenA : ∀ v ∈ (analyseClauseLits trail st.current_literal
        (st.seen, st.count, st.learned_clause)
        (db.clauses.getD st.current_reason_clause_id default).literals).1,
        ∃ j, j ≤ st.trail_position ∧ j < trail.assignment_stack.length ∧
          (trail.assignment_stack.getD j default).literal.id = v := by
      intro v hv
      rw [hdA] at hv
      rcases List.mem_append.mp hv with hv1 | hv2
      · exact hstackseen v hv1
      · exact (hdAq v hv2).1
    have hlearnedA : ∀ l ∈ (analyseClauseLits trail st.current_literal
        (st.seen, st.count, st.learned_clause)
        (db.clauses.getD st.current_reason_clause_id default).literals).2.2,
        0 < trail.var_decision_level.getD l.id 0 ∧
        trail.var_decision_level.getD l.id 0 ≠ trail.decision_level := by
      intro l hl
      rw [hd2A] at hl
      rcases List.mem_append.mp hl with hl1 | hl2
      · exact hlearned l hl1
      · exact ⟨(hd2Aq l hl2).2.1, (hd2Aq l hl2).2.2⟩
    have hdA2 : (analyseClauseLits trail st.current_literal
        (st.seen, st.count, st.learned_clause)
        (db.clauses.getD st.current_reason_clause_id default).literals).1
        = st.seen ++ dA := hdA
    have hcapA : 1 ≤ dlCount trail (analyseClauseLits trail st.current_literal
        (st.seen, st.count, st.learned_clause)
        (db.clauses.getD st.current_reason_clause_id default).literals).1 := by
      rcases hcap with hcap1 | ⟨l, hlmem, hlskip, hldl⟩
      · rw [hdA2, dlCount_append]
        have : (1 : Int) ≤ (dlCount trail st.seen : Int) := by
          rw [← hcount]
          exact hcap1
        omega
      · exact dlCount_pos_of_mem trail
          (hmemA l hlmem hlskip (by rw [hldl]; exact hdl)) hldl
    simp only [analysisLoop] at h
    split at h
    · cases h
    next pos hpos =>
      obtain ⟨hple, hpmem, hpmax⟩ := findSeenPos_spec trail.assignment_stack _
        st.trail_position pos hpos
      have hplen : pos < trail.assignment_stack.length := by omega
      have hcurdl : trail.var_decision_level.getD
          ((trail.assignment_stack.getD pos default).literal.id) 0
          = trail.decision_level := by
        by_contra hne
        obtain ⟨v, hvmem⟩ := List.exists_mem_of_ne_nil _
          (List.ne_nil_of_length_pos (l := (analyseClauseLits trail st.current_literal
            (st.seen, st.count, st.learned_clause)
            (db.clauses.getD st.current_reason_clause_id default).literals).1.filter
            (fun v => trail.var_decision_level.getD v 0 = trail.decision_level))
            hcapA)
        obtain ⟨hvin, hvdl⟩ := List.mem_filter.mp hvmem
        have hvdl2 : trail.var_decision_level.getD v 0 = trail.decision_level := by
          simpa using hvdl
        obtain ⟨j, hjle, hjlen, hjid⟩ := hseenA v hvin
        have hposlt : (trail.assignment_stack.getD pos default).decision_level
            < trail.decision_level := by
          have h1 := hlvl_stack pos hplen
          have h2 := hlvl_le ((trail.assignment_stack.getD pos default).literal.id)
          omega
        have hjdl : (trail.assignment_stack.getD j default).decision_level
            = trail.decision_level := by
          have h1 := hlvl_stack j hjlen
          rw [hjid] at h1
          omega
        rcases le_or_lt j pos with hjp | hjp
        · have := hmono pos hplen j hjp
          omega
        · have := hpmax j hjp hjle
          rw [hjid] at this
          exact this hvin
      split at h
      · next hzero =>
        injection h with h1
        subst h1
        exact ⟨hlearnedA, ⟨(trail.assignment_stack.getD pos default).literal, rfl,
          hcurdl⟩⟩
      · next hnzero =>
        split at h
        · next r hreq =>
          have hcurid : (trail.assignment_stack.getD pos default).literal.id ∈
              (analyseClauseLits trail st.current_literal
                (st.seen, st.count, st.learned_clause)
                (db.clauses.getD st.current_reason_clause_id default).literals).1 :=
            hpmem
          have hcnt' : dlCount trail ((analyseClauseLits trail st.current_literal
              (st.seen, st.count, st.learned_clause)
              (db.clauses.getD st.current_reason_clause_id default).literals).1.filter
              (· ≠ (trail.assignment_stack.getD pos default).literal.id))
              = dlCount trail (analyseClauseLits trail st.current_literal
                (st.seen, st.count, st.learned_clause)
                (db.clauses.getD st.current_reason_clause_id default).literals).1 - 1 :=
            dlCount_filter_ne trail _ _ hnodupA hcurid hcurdl
          refine analysisLoop_spec trail db hdl hlvl_le hlvl_stack hmono hreason fuel
            _ stOut ?_ ?_ ?_ ?_ ?_ ?_ ?_ h
          · show (analyseClauseLits trail st.current_literal
                (st.seen, st.count, st.learned_clause)
                (db.clauses.getD st.current_reason_clause_id default).literals).2.1 - 1
              = _
            rw [hcountA, hcnt']
            push_cast [Nat.cast_sub hcapA]
            ring
          · exact List.Nodup.filter _ hnodupA
          · intro v hv
            obtain ⟨hvin, hvne⟩ := List.mem_filter.mp hv
            obtain ⟨j, hjle, hjlen, hjid⟩ := hseenA v hvin
            refine ⟨j, ?_, hjlen, hjid⟩
            show j ≤ pos
            rcases le_or_lt j pos with hjp | hjp
            · exact hjp
            · exfalso
              have := hpmax j hjp hjle
              rw [hjid] at this
              exact this hvin
          · exact hlearnedA
          · intro l hl
            by_cases hid : l.id = (trail.assignment_stack.getD pos default).literal.id
            · left
              show skipLit (some (trail.assignment_stack.getD pos default).literal) l
                = true
              unfold skipLit
              simpa using hid
            · obtain ⟨j, hjlt, hjid⟩ := hreason pos hplen r hreq l hl hid
              exact Or.inr ⟨j, (by omega : j ≤ pos),
                (by omega : j < trail.assignment_stack.length), hjid⟩
          · show pos < trail.assignment_stack.length
            exact hplen
          · left
            show (1 : Int) ≤ (analyseClauseLits trail st.current_literal
                (st.seen, st.count, st.learned_clause)
                (db.clauses.getD st.current_reason_clause_id default).literals).2.1 - 1
            rw [hcountA]
            have h2 : ¬ ((analyseClauseLits trail st.current_literal
                (st.seen, st.count, st.learned_clause)
                (db.clauses.getD st.current_reason_clause_id default).literals).2.1 - 1
                = 0) := hnzero
            rw [hcountA] at h2
            have h3 : dlCount trail ((analyseClauseLits trail st.current_literal
                (st.seen, st.count, st.learned_clause)
                (db.clauses.getD st.current_reason_clause_id default).literals).1)
                ≠ 1 := by
              intro he
              rw [he] at h2
              simp at h2
            omega
        · cases h

/-- Post-processing of the learned clause in `analyse_conflict`: appending
the negated UIP, swapping it to the front and swapping the assertion-level
literal to position 1 leaves the UIP — the unique current-level literal —
at position 0. -/
theorem uip_postprocess (trail : Trail) (learned0 : List Literal) (cur : Literal)
    (hdl : 0 < trail.decision_level)
    (hlearned : ∀ l ∈ learned0,
      trail.var_decision_level.getD l.id 0 ≠ trail.decision_level)
    (hcdl : trail.var_decision_level.getD cur.id 0 = trail.decision_level)
    (hlvl_le : ∀ v, trail.var_decision_level.getD v 0 ≤ trail.decision_level)
    (L : List Literal)
    (hL : L = (match (listSwap (learned0 ++ [-cur]) 0
        ((learned0 ++ [-cur]).length - 1)).findIdx?
        (fun l => trail.var_decision_level.getD l.id 0
          = (sortListBy (fun a b => decide (b ≤ a))
              ((listSwap (learned0 ++ [-cur]) 0 ((learned0 ++ [-cur]).length - 1)).map
                (fun l => trail.var_decision_level.getD l.id 0))).getD 1 0) with
      | some idx =>
        listSwap (listSwap (learned0 ++ [-cur]) 0 ((learned0 ++ [-cur]).length - 1))
          1 idx
      | none => listSwap (learned0 ++ [-cur]) 0 ((learned0 ++ [-cur]).length - 1))) :
    0 < L.length ∧
    trail.var_decision_level.getD (L.getD 0 default).id 0 = trail.decision_level ∧
    ∀ k, k < L.length → k ≠ 0 →
      trail.var_decision_level.getD (L.getD k default).id 0 ≠ trail.decision_level := by
  have hm1 : (learned0 ++ [-cur]).length = learned0.length + 1 := by
    rw [List.length_append]
    rfl
  have hmm : (learned0 ++ [-cur]).length - 1 = learned0.length := by omega
  rw [hmm] at hL
  have h0lt : 0 < (learned0 ++ [-cur]).length := by omega
  have hmlt : learned0.length < (learned0 ++ [-cur]).length := by omega
  have h1m : (learned0 ++ [-cur])[learned0.length]? = some (-cur) := by
    rw [List.getElem?_append_right le_rfl]
    simp
  have hlen2 : (listSwap (learned0 ++ [-cur]) 0 learned0.length).length
      = learned0.length + 1 := by
    rw [listSwap_length]
    exact hm1
  have h20 : (listSwap (learned0 ++ [-cur]) 0 learned0.length)[0]? = some (-cur) := by
    rw [listSwap_getElem?_left _ h0lt hmlt]
    exact h1m
  have hlev2 : ∀ k x, (listSwap (learned0 ++ [-cur]) 0 learned0.length)[k]? = some x →
      k ≠ 0 → trail.var_decision_level.getD x.id 0 ≠ trail.decision_level := by
    intro k x hk hk0
    by_cases hkm : k = learned0.length
    · subst hkm
      rw [listSwap_getElem?_right _ h0lt hmlt] at hk
      have hklt : 0 < learned0.length := by omega
      rw [List.getElem?_append_left hklt] at hk
      obtain ⟨hb, he⟩ := List.getElem?_eq_some.mp hk
      exact hlearned x (by rw [← he]; exact List.getElem_mem hb)
    · rw [listSwap_getElem?_other _ (fun he => hk0 he) (fun he => hkm he)] at hk
      have hklt : k < learned0.length := by
        by_contra hge
        have : (learned0 ++ [-cur])[k]? = none :=
          List.getElem?_eq_none (by omega)
        rw [this] at hk
        cases hk
      rw [List.getElem?_append_left hklt] at hk
      obtain ⟨hb, he⟩ := List.getElem?_eq_some.mp hk
      exact hlearned x (by rw [← he]; exact List.getElem_mem hb)
  have hpack : ∀ (F : List Literal), F.length = learned0.length + 1 →
      F[0]? = some (-cur) →
      (∀ k x, F[k]? = some x → k ≠ 0 →
        trail.var_decision_level.getD x.id 0 ≠ trail.decision_level) →
      0 < F.length ∧
      trail.var_decision_level.getD (F.getD 0 default).id 0 = trail.decision_level ∧
      ∀ k, k < F.length → k ≠ 0 →
        trail.var_decision_level.getD (F.getD k default).id 0 ≠ trail.decision_level := by
    intro F hFlen hF0 hFlev
    refine ⟨by omega, ?_, ?_⟩
    · rw [getD_of_getElem? hF0, Literal.neg_id]
      exact hcdl
    · intro k hk hk0
      have hsome : F[k]? = some (F.get ⟨k, hk⟩) := by
        rw [List.getElem?_eq_getElem hk]
        rfl
      rw [getD_of_getElem? hsome]
      exact hFlev k _ hsome hk0
  have hassert_ne : (sortListBy (fun a b => decide (b ≤ a))
      ((listSwap (learned0 ++ [-cur]) 0 learned0.length).map
        (fun l => trail.var_decision_level.getD l.id 0))).getD 1 0
      ≠ trail.decision_level := by
    by_cases h1S : 1 < (sortListBy (fun a b => decide (b ≤ a))
        ((listSwap (learned0 ++ [-cur]) 0 learned0.length).map
          (fun l => trail.var_decision_level.getD l.id 0))).length
    · intro heq
      have hperm := sortListBy_perm (fun a b : Nat => decide (b ≤ a))
        ((listSwap (learned0 ++ [-cur]) 0 learned0.length).map
          (fun l => trail.var_decision_level.getD l.id 0))
      have htot : ∀ a b : Nat, decide (b ≤ a) = true ∨ decide (a ≤ b) = true := by
        intro a b
        rcases le_total b a with h | h
        · exact Or.inl (decide_eq_true h)
        · exact Or.inr (decide_eq_true h)
      have htrans : ∀ a b c : Nat, decide (b ≤ a) = true → decide (c ≤ b) = true →
          decide (c ≤ a) = true := by
        intro a b c hab hbc
        exact decide_eq_true (le_trans (of_decide_eq_true hbc) (of_decide_eq_true hab))
      have hpair := sortListBy_pairwise htot htrans
        ((listSwap (learned0 ++ [-cur]) 0 learned0.length).map
          (fun l => trail.var_decision_level.getD l.id 0))
      have h0S : 0 < (sortListBy (fun a b => decide (b ≤ a))
          ((listSwap (learned0 ++ [-cur]) 0 learned0.length).map
            (fun l => trail.var_decision_level.getD l.id 0))).length := by omega
      have hS1 : (sortListBy (fun a b => decide (b ≤ a))
          ((listSwap (learned0 ++ [-cur]) 0 learned0.length).map
            (fun l => trail.var_decision_level.getD l.id 0))).getD 1 0
          = (sortListBy (fun a b => decide (b ≤ a))
          ((listSwap (learned0 ++ [-cur]) 0 learned0.length).map
            (fun l => trail.var_decision_level.getD l.id 0))).get ⟨1, h1S⟩ :=
        getD_of_getElem? (List.getElem?_eq_getElem h1S) 0
      have hrel := List.pairwise_iff_getElem.mp hpair 0 1 h0S h1S (by omega)
      have hrel2 : (sortListBy (fun a b => decide (b ≤ a))
          ((listSwap (learned0 ++ [-cur]) 0 learned0.length).map
            (fun l => trail.var_decision_level.getD l.id 0))).get ⟨1, h1S⟩
          ≤ (sortListBy (fun a b => decide (b ≤ a))
          ((listSwap (learned0 ++ [-cur]) 0 learned0.length).map
            (fun l => trail.var_decision_level.getD l.id 0))).get ⟨0, h0S⟩ :=
        of_decide_eq_true hrel
      have hle2 : ∀ x ∈ ((listSwap (learned0 ++ [-cur]) 0 learned0.length).map
          (fun l => trail.var_decision_level.getD l.id 0)),
          x ≤ trail.decision_level := by
        intro x hx
        obtain ⟨l, -, rfl⟩ := List.mem_map.mp hx
        exact hlvl_le l.id
      have hS0le : (sortListBy (fun a b => decide (b ≤ a))
          ((listSwap (learned0 ++ [-cur]) 0 learned0.length).map
            (fun l => trail.var_decision_level.getD l.id 0))).get ⟨0, h0S⟩
          ≤ trail.decision_level :=
        hle2 _ (hperm.mem_iff.mp (List.getElem_mem h0S))
      rw [hS1] at heq
      have hS0eq : (sortListBy (fun a b => decide (b ≤ a))
          ((listSwap (learned0 ++ [-cur]) 0 learned0.length).map
            (fun l => trail.var_decision_level.getD l.id 0))).get ⟨0, h0S⟩
          = trail.decision_level := by omega
      have hcnt2 : 2 ≤ (sortListBy (fun a b => decide (b ≤ a))
          ((listSwap (learned0 ++ [-cur]) 0 learned0.length).map
            (fun l => trail.var_decision_level.getD l.id 0))).count
            trail.decision_level := by
        refine two_le_count _ 0 1 _ (by omega) ?_ ?_
        · show (sortListBy (fun a b => decide (b ≤ a))
          ((listSwap (learned0 ++ [-cur]) 0 learned0.length).map
            (fun l => trail.var_decision_level.getD l.id 0)))[0]? = some trail.decision_level
          rw [List.getElem?_eq_getElem h0S]
          exact congrArg some hS0eq
        · show (sortListBy (fun a b => decide (b ≤ a))
          ((listSwap (learned0 ++ [-cur]) 0 learned0.length).map
            (fun l => trail.var_decision_level.getD l.id 0)))[1]? = some trail.decision_level
          rw [List.getElem?_eq_getElem h1S]
          exact congrArg some heq
      have hcnt1 : ((listSwap (learned0 ++ [-cur]) 0 learned0.length).map
          (fun l => trail.var_decision_level.getD l.id 0)).count
          trail.decision_level = 1 := by
        cases hcons : listSwap (learned0 ++ [-cur]) 0 learned0.length with
        | nil =>
          rw [hcons] at h20
          cases h20
        | cons hd tl =>
          rw [hcons] at h20
          simp only [List.getElem?_cons_zero, Option.some.injEq] at h20
          subst h20
          rw [List.map_cons, Literal.neg_id, hcdl, List.count_cons_self]
          have hz : (tl.map (fun l => trail.var_decision_level.getD l.id 0)).count
              trail.decision_level = 0 := by
            rw [List.count_eq_zero]
            intro hmem
            obtain ⟨l, hlmem, hleq⟩ := List.mem_map.mp hmem
            obtain ⟨k, hk⟩ := List.mem_iff_getElem?.mp hlmem
            have hk2 : (listSwap (learned0 ++ [-cur]) 0 learned0.length)[k + 1]?
                = some l := by
              rw [hcons]
              simpa using hk
            exact hlev2 (k + 1) l hk2 (by omega) hleq
          omega
      rw [hperm.count_eq] at hcnt2
      omega
    · have : (sortListBy (fun a b => decide (b ≤ a))
          ((listSwap (learned0 ++ [-cur]) 0 learned0.length).map
            (fun l => trail.var_decision_level.getD l.id 0)))[1]? = none :=
        List.getElem?_eq_none (by omega)
      rw [List.getD_eq_getElem?_getD, this]
      intro heq
      simp at heq
      omega
  rcases hidx : (listSwap (learned0 ++ [-cur]) 0 learned0.length).findIdx?
      (fun l => trail.var_decision_level.getD l.id 0
        = (sortListBy (fun a b => decide (b ≤ a))
            ((listSwap (learned0 ++ [-cur]) 0 learned0.length).map
              (fun l => trail.var_decision_level.getD l.id 0))).getD 1 0)
    with _ | idx
  · rw [hidx] at hL
    have hL2 : L = listSwap (learned0 ++ [-cur]) 0 learned0.length := hL
    subst hL2
    exact hpack _ hlen2 h20 hlev2
  · rw [hidx] at hL
    have hL2 : L = listSwap (listSwap (learned0 ++ [-cur]) 0 learned0.length) 1 idx :=
      hL
    obtain ⟨hidxlt, hpidx, -⟩ := List.findIdx?_eq_some_iff_getElem.mp hidx
    have hidx0 : idx ≠ 0 := by
      intro he
      subst he
      have h0e : (listSwap (learned0 ++ [-cur]) 0 learned0.length)[0]
          = -cur := by
        have := h20
        rw [List.getElem?_eq_getElem (by omega :
          0 < (listSwap (learned0 ++ [-cur]) 0 learned0.length).length)] at this
        exact Option.some.inj this
      rw [h0e] at hpidx
      simp only [Literal.neg_id, decide_eq_true_eq] at hpidx
      rw [hcdl] at hpidx
      exact hassert_ne hpidx.symm
    have h1lt : 1 < (listSwap (learned0 ++ [-cur]) 0 learned0.length).length := by
      omega
    subst hL2
    refine hpack _ ?_ ?_ ?_
    · rw [listSwap_length]
      exact hlen2
    · rw [listSwap_getElem?_other _ (by omega) (fun he => hidx0 he.symm)]
      exact h20
    · intro k x hk hk0
      by_cases hk1 : k = 1
      · subst hk1
        rw [listSwap_getElem?_left _ h1lt hidxlt] at hk
        exact hlev2 idx x hk hidx0
      · by_cases hki : k = idx
        · subst hki
          rw [listSwap_getElem?_right _ h1lt hidxlt] at hk
          exact hlev2 1 x hk (by omega)
        · rw [listSwap_getElem?_other _ (fun he => hk1 he) (fun he => hki he)] at hk
          exact hlev2 k x hk hk0

/-- **C4**: on a well-formed trail (consistent per-variable levels bounded
by the current level, levels nondecreasing along the stack, distinct forced
reasons pointing below their assignments), every clause returned by
`analyse_conflict` is nonempty and has exactly one literal at the current
decision level — at position 0 (the first UIP, `-current_literal`,
swapped to the front at `clause_learning.rs` lines 75–80); every other
position carries a literal of a strictly lower level. -/
theorem C4_first_uip (trail : Trail) (db : ClauseDatabase)
    (conflict_clause_id : ClauseId) (fuel : Nat) (r : AnalysisResult)
    (hdl : 0 < trail.decision_level)
    (hstack : 0 < trail.assignment_stack.length)
    (hlvl_le : ∀ v, v < trail.var_decision_level.length →
      trail.var_decision_level.getD v 0 ≤ trail.decision_level)
    (hlvl_stack : ∀ i, i < trail.assignment_stack.length →
      trail.var_decision_level.getD
        ((trail.assignment_stack.getD i default).literal.id) 0
        = (trail.assignment_stack.getD i default).decision_level)
    (hmono : ∀ j, j < trail.assignment_stack.length → ∀ i, i ≤ j →
      (trail.assignment_stack.getD i default).decision_level
        ≤ (trail.assignment_stack.getD j default).decision_level)
    (hreason : ∀ i, i < trail.assignment_stack.length → ∀ rc,
      (trail.assignment_stack.getD i default).reason = AssignmentReason.Forced rc →
      ∀ l ∈ (db.clauses.getD rc default).literals,
        l.id ≠ (trail.assignment_stack.getD i default).literal.id →
        ∃ j, j < i ∧ (trail.assignment_stack.getD j default).literal.id = l.id)
    (hconf_stack : ∀ l ∈ (db.clauses.getD conflict_clause_id default).literals,
      ∃ j, j < trail.assignment_stack.length ∧
        (trail.assignment_stack.getD j default).literal.id = l.id)
    (hconf_dl : ∃ l ∈ (db.clauses.getD conflict_clause_id default).literals,
      trail.var_decision_level.getD l.id 0 = trail.decision_level)
    (h : analyse_conflict trail db conflict_clause_id fuel = some r) :
    0 < r.clause.literals.length ∧
    trail.var_decision_level.getD ((r.clause.literals.getD 0 default).id) 0
      = trail.decision_level ∧
    ∀ k, k < r.clause.literals.length → k ≠ 0 →
      trail.var_decision_level.getD ((r.clause.literals.getD k default).id) 0
        ≠ trail.decision_level := by
  have hlvl_le2 : ∀ v, trail.var_decision_level.getD v 0 ≤ trail.decision_level := by
    intro v
    by_cases hv : v < trail.var_decision_level.length
    · exact hlvl_le v hv
    · rw [List.getD_eq_getElem?_getD, List.getElem?_eq_none (Nat.le_of_not_lt hv)]
      exact Nat.zero_le _
  simp only [analyse_conflict] at h
  split at h
  · cases h
  next st hloop =>
    split at h
    · cases h
    next cur hcur =>
      obtain ⟨hlearned, c, hceq, hcdl⟩ := analysisLoop_spec trail db hdl hlvl_le2
        hlvl_stack hmono hreason fuel
        { learned_clause := [], count := 0, current_literal := none,
          current_reason_clause_id := conflict_clause_id,
          trail_position := trail.assignment_stack.length - 1, seen := [] } st
        rfl List.nodup_nil (by intro v hv; simp at hv) (by intro l hl; simp at hl)
        (by
          intro l hl
          obtain ⟨j, hjlen, hjid⟩ := hconf_stack l hl
          exact Or.inr ⟨j, (by omega : j ≤ trail.assignment_stack.length - 1),
            hjlen, hjid⟩)
        (by omega :
          trail.assignment_stack.length - 1 < trail.assignment_stack.length)
        (Or.inr (by
          obtain ⟨l, hlmem, hldl⟩ := hconf_dl
          exact ⟨l, hlmem, rfl, hldl⟩))
        hloop
      rw [hcur] at hceq
      injection hceq with hceq2
      injection h with hr
      subst hr
      subst hceq2
      exact uip_postprocess trail st.learned_clause cur hdl
        (fun l hl => (hlearned l hl).2) hcdl hlvl_le2 _ rfl

/-- Witness for C4: a three-variable conflict at decision level 1 whose
analysis learns the unit clause `[-2]`. -/
theorem C4_witness :
    0 < (⟨Clause.from_literals_and_lbd [⟨-2⟩] 1, 0, []⟩ : AnalysisResult).clause.literals.length ∧
    (⟨[⟨⟨1⟩, AssignmentReason.Heuristic, 1⟩, ⟨⟨2⟩, AssignmentReason.Forced 1, 1⟩,
      ⟨⟨3⟩, AssignmentReason.Forced 2, 1⟩], [0, 1, 1, 1], [0, 0, 1, 2], 1⟩ : Trail).var_decision_level.getD
      (((⟨Clause.from_literals_and_lbd [⟨-2⟩] 1, 0, []⟩ : AnalysisResult).clause.literals.getD 0 default).id) 0
      = (⟨[⟨⟨1⟩, AssignmentReason.Heuristic, 1⟩, ⟨⟨2⟩, AssignmentReason.Forced 1, 1⟩,
      ⟨⟨3⟩, AssignmentReason.Forced 2, 1⟩], [0, 1, 1, 1], [0, 0, 1, 2], 1⟩ : Trail).decision_level ∧
    (∀ k, k < (⟨Clause.from_literals_and_lbd [⟨-2⟩] 1, 0, []⟩ : AnalysisResult).clause.literals.length → k ≠ 0 →
      (⟨[⟨⟨1⟩, AssignmentReason.Heuristic, 1⟩, ⟨⟨2⟩, AssignmentReason.Forced 1, 1⟩,
      ⟨⟨3⟩, AssignmentReason.Forced 2, 1⟩], [0, 1, 1, 1], [0, 0, 1, 2], 1⟩ : Trail).var_decision_level.getD
        (((⟨Clause.from_literals_and_lbd [⟨-2⟩] 1, 0, []⟩ : AnalysisResult).clause.literals.getD k default).id) 0
        ≠ (⟨[⟨⟨1⟩, AssignmentReason.Heuristic, 1⟩, ⟨⟨2⟩, AssignmentReason.Forced 1, 1⟩,
      ⟨⟨3⟩, AssignmentReason.Forced 2, 1⟩], [0, 1, 1, 1], [0, 0, 1, 2], 1⟩ : Trail).decision_level) :=
  C4_first_uip
    (⟨[⟨⟨1⟩, AssignmentReason.Heuristic, 1⟩, ⟨⟨2⟩, AssignmentReason.Forced 1, 1⟩,
      ⟨⟨3⟩, AssignmentReason.Forced 2, 1⟩], [0, 1, 1, 1], [0, 0, 1, 2], 1⟩ : Trail)
    (⟨[Clause.ofLiterals [⟨-2⟩, ⟨-3⟩], Clause.ofLiterals [⟨-1⟩, ⟨2⟩],
      Clause.ofLiterals [⟨-2⟩, ⟨3⟩]], [], 0, ⟨false, []⟩, 0⟩ : ClauseDatabase)
    0 5
    (⟨Clause.from_literals_and_lbd [⟨-2⟩] 1, 0, []⟩ : AnalysisResult)
    (by decide) (by decide) (by decide) (by decide) (by decide)
    (by
      intro i hi rc hrc
      have hi3 : i < 3 := by simpa using hi
      interval_cases i
      · exact nomatch hrc
      · injection hrc with h1
        subst h1
        intro l hl hne
        fin_cases hl
        · exact ⟨0, by omega, by decide⟩
        · exact absurd (by decide) hne
      · injection hrc with h1
        subst h1
        intro l hl hne
        fin_cases hl
        · exact ⟨1, by omega, by decide⟩
        · exact absurd (by decide) hne)
    (by
      intro l hl
      fin_cases hl
      · exact ⟨1, by decide, by decide⟩
      · exact ⟨2, by decide, by decide⟩)
    ⟨⟨-2⟩, by decide, by decide⟩
    (by decide)

end Utopia
